import Mathlib

/-!
The inference task pool and the run path of `DnnNodeImpl` (hobot_dnn).

A shallow embedding of `src/dnn_node/src/dnn_node_impl.cpp`.  The pool state
(`DnnNodeRunTimePara`: `tasks`, `idle_tasks`, `running_tasks`) is passed
explicitly; every member function takes the object and returns its result next
to the object it leaves behind.  What the code performs under `task_mtx` is one
atomic step of the model.  What the code gets from outside (clock readings, the
end of a wait on the condition variable, the return codes of the inference
library, the iteration order of the maps) is an argument of the function that
uses it.

The headers of the node (`dnn_node_impl.h`, `dnn_node_data.h`) are not among
the sources; the types they declare are modelled from the way the source file
uses them and from the data model of the specification.
-/

namespace hobot
namespace dnn_node

/-! ## Constants of the accelerator library (`hb_dnn.h`, `hb_dnn_status.h`)

The library is not part of the repository.  The values are those of its
headers; the proofs use of them only that the three cores are pairwise
different and that the status code is not 0. -/

/-- Value of the enumerator `HB_BPU_CORE_ANY` of `hbBPUCore`: no core chosen. -/
def HB_BPU_CORE_ANY : Int := 0

/-- Value of the enumerator `HB_BPU_CORE_0` of `hbBPUCore`: Core0. -/
def HB_BPU_CORE_0 : Int := 1

/-- Value of the enumerator `HB_BPU_CORE_1` of `hbBPUCore`: Core1. -/
def HB_BPU_CORE_1 : Int := 2

/-- Status code `HB_DNN_INVALID_ARGUMENT` of the accelerator library. -/
def HB_DNN_INVALID_ARGUMENT : Int := -6000001

/-! ## Data model -/

/-- Modelled from the spec: the enum `ModelTaskType` of `dnn_node_data.h`, which
is not among the sources.  The two inference kinds are the ones the source
names (plain and ROI inference in the specification); `InvalidType` stands for
every other value. -/
inductive ModelTaskType where
  | InvalidType
  | ModelInferType
  | ModelRoiInferType
  deriving DecidableEq, Repr

/-- The control parameter `hbDNNInferCtrlParam` of the accelerator library;
`bpuCoreId` is the one field the node writes. -/
structure hbDNNInferCtrlParam where
  bpuCoreId : Int
  deriving DecidableEq, Repr

/-- The initialiser `HB_DNN_INITIALIZE_INFER_CTRL_PARAM`: the default control
parameter places no constraint on the core. -/
def HB_DNN_INITIALIZE_INFER_CTRL_PARAM : hbDNNInferCtrlParam :=
  { bpuCoreId := HB_BPU_CORE_ANY }

/-- Modelled from the spec: the slot record `DnnNodeTask` of `dnn_node_impl.h`,
which is not among the sources (the TaskSlot of the specification): its id (a
`TaskId`, which is a C++ `int`), the time of its last allocation and its bound
core, the three members the source reads and writes. -/
structure DnnNodeTask where
  task_id : Int
  alloc_tp : Nat
  bpuCoreId : Int
  deriving DecidableEq, Repr

/-- The execution context `Task` of the inference library, as far as the node
touches it: which concrete class was made (`ModelInferTask` or
`ModelRoiInferTask`) and the control parameter passed to `SetCtrlParam`, if it
was called. -/
structure Task where
  kind : ModelTaskType
  ctrl_param : Option hbDNNInferCtrlParam
  deriving DecidableEq, Repr

/-- Modelled from the spec: the type of `idle_tasks` and of `running_tasks`, a
mapping from id to slot declared in `dnn_node_impl.h`, which is not among the
sources.  It is kept as the list of its entries, at most one for a key.  The
position of an entry in the list carries no meaning; which entry `begin()`
yields is given by an `IterOrder`, so that nothing is assumed about the
container (ordered or hashed). -/
abbrev TaskMap := List (Int × DnnNodeTask)

/-- Iteration order of the container, left open: the index (modulo the size) of
the entry that `begin()` yields. -/
abbrev IterOrder := TaskMap → Nat

namespace TaskMap

/-- The keys present in the map. -/
def keys (m : TaskMap) : List Int := m.map Prod.fst

/-- The member `find`, as the value found. -/
def find (m : TaskMap) (k : Int) : Option DnnNodeTask :=
  match m with
  | [] => none
  | (k', v) :: rest => if k' = k then some v else find rest k

/-- The member `erase(key)`. -/
def erase (m : TaskMap) (k : Int) : TaskMap :=
  m.filter (fun e => !decide (e.1 = k))

/-- The assignment `m[k] = v`: overwrites the value of an existing key, adds
the entry otherwise. -/
def insert (m : TaskMap) (k : Int) (v : DnnNodeTask) : TaskMap :=
  match m with
  | [] => [(k, v)]
  | (k', v') :: rest => if k' = k then (k, v) :: rest else (k', v') :: insert rest k v

/-- The member `begin()`, dereferenced; `none` for the empty map. -/
def begin (o : IterOrder) (m : TaskMap) : Option (Int × DnnNodeTask) :=
  m[o m % m.length]?

end TaskMap

/-- Modelled from the spec: the struct `DnnNodeRunTimePara` of `dnn_node_impl.h`,
which is not among the sources, its task management part (the TaskPool state
of the specification): the per-id task objects, null while the slot is idle,
and the two mappings. -/
structure DnnNodeRunTimePara where
  tasks : List (Option Task)
  idle_tasks : TaskMap
  running_tasks : TaskMap
  deriving DecidableEq, Repr

/-- Modelled from the spec: the struct `DnnNodePara` of `dnn_node_data.h`, which
is not among the sources; the fields the pool reads: the task count, the core
ids given by the user and the model task type. -/
structure DnnNodePara where
  task_num : Int
  bpu_core_ids : List Int
  model_task_type : ModelTaskType
  deriving DecidableEq, Repr

/-- Modelled from the spec: the members of the class `DnnNodeImpl`, declared in
`dnn_node_impl.h`, which is not among the sources: the pool `dnn_rt_para_` and
the flag `en_set_task_para_`.  The parameters `dnn_node_para_ptr_` are never
written by the functions below and are passed next to the object. -/
structure DnnNodeImpl where
  dnn_rt_para_ : DnnNodeRunTimePara
  en_set_task_para_ : Bool
  deriving DecidableEq, Repr

/-- What is fixed outside the source file: whether `PLATFORM_X5` is defined,
and the iteration order of the two maps. -/
structure Target where
  PLATFORM_X5 : Bool
  order : IterOrder

/-- The object right after the constructor: an empty `DnnNodeRunTimePara`; `en`
is the initial value of `en_set_task_para_`, which the missing header gives. -/
def DnnNodeImpl.ctor (en : Bool) : DnnNodeImpl :=
  { dnn_rt_para_ := { tasks := [], idle_tasks := [], running_tasks := [] },
    en_set_task_para_ := en }

/-- The if-chain that picks the other core; the source spells it out in both
loops of `TaskInit` and in `ReleaseTask`. -/
def alternateCore (bpu_core_id : Int) : Int :=
  if HB_BPU_CORE_0 = bpu_core_id then HB_BPU_CORE_1
  else if HB_BPU_CORE_1 = bpu_core_id then HB_BPU_CORE_0
  else HB_BPU_CORE_0

/-- The call `tasks.resize(n)` on the vector of task pointers. -/
def resizeTasks (tasks : List (Option Task)) (n : Nat) : List (Option Task) :=
  tasks.take n ++ List.replicate (n - tasks.length) none

/-! ## `TaskInit` -/

/-- First loop of `TaskInit` (cores given by the user), from index `idx` on;
`fuel` bounds the iterations left. -/
def TaskInit.loopPinned (bpu_core_ids : List Int) (task_num : Int) :
    Nat → Int → Int → TaskMap → TaskMap
  | 0, _, _, idle_tasks => idle_tasks
  | fuel + 1, idx, bpu_core_id, idle_tasks =>
    if idx < task_num then
      if bpu_core_ids.getD idx.toNat HB_BPU_CORE_ANY ≠ HB_BPU_CORE_ANY then
        let node_task : DnnNodeTask :=
          { task_id := idx, alloc_tp := 0,
            bpuCoreId := bpu_core_ids.getD idx.toNat HB_BPU_CORE_ANY }
        TaskInit.loopPinned bpu_core_ids task_num fuel (idx + 1) bpu_core_id
          (idle_tasks.insert node_task.task_id node_task)
      else
        let node_task : DnnNodeTask :=
          { task_id := idx, alloc_tp := 0, bpuCoreId := bpu_core_id }
        let idle_tasks := idle_tasks.insert node_task.task_id node_task
        if idx = task_num - 1 then idle_tasks
        else
          TaskInit.loopPinned bpu_core_ids task_num fuel (idx + 1)
            (alternateCore bpu_core_id) idle_tasks
    else idle_tasks

/-- Second loop of `TaskInit` (no core given), from index `idx` on. -/
def TaskInit.loopAny (task_num : Int) : Nat → Int → Int → TaskMap → TaskMap
  | 0, _, _, idle_tasks => idle_tasks
  | fuel + 1, idx, bpu_core_id, idle_tasks =>
    if idx < task_num then
      let node_task : DnnNodeTask :=
        { task_id := idx, alloc_tp := 0, bpuCoreId := bpu_core_id }
      let idle_tasks := idle_tasks.insert node_task.task_id node_task
      if idx = task_num - 1 then idle_tasks
      else TaskInit.loopAny task_num fuel (idx + 1) (alternateCore bpu_core_id) idle_tasks
    else idle_tasks

/-- The member `DnnNodeImpl::TaskInit` (with `dnn_node_para_ptr_` and
`dnn_rt_para_` non-null): the return value and the object afterwards.  The
worker threads it starts at the end are outside the model. -/
def TaskInit (p : DnnNodePara) (self : DnnNodeImpl) : Int × DnnNodeImpl :=
  if p.task_num < 1 then (-1, self)
  else if !p.bpu_core_ids.isEmpty && decide ((p.bpu_core_ids.length : Int) ≠ p.task_num) then
    (-1, self)
  else
    let tasks := resizeTasks self.dnn_rt_para_.tasks p.task_num.toNat
    let task_num : Int := tasks.length
    let idle_tasks :=
      if (p.bpu_core_ids.length : Int) = task_num then
        TaskInit.loopPinned p.bpu_core_ids task_num task_num.toNat 0 HB_BPU_CORE_0
          self.dnn_rt_para_.idle_tasks
      else
        TaskInit.loopAny task_num task_num.toNat 0 HB_BPU_CORE_0 self.dnn_rt_para_.idle_tasks
    (0, { self with dnn_rt_para_ :=
            { self.dnn_rt_para_ with tasks := tasks, idle_tasks := idle_tasks } })

/-! ## `AllocTask` -/

/-- How a wait on `task_cv` inside `AllocTask` ends: the value of `rclcpp::ok()`
read after it, and the object as the thread finds it once it holds `task_mtx`
again (other threads may have run while it was waiting). -/
structure WaitEnd where
  ok : Bool
  self : DnnNodeImpl

/-- The task object `AllocTask` makes for the model task type, before the lock
is taken; `none` for a type that is neither of the two. -/
def AllocTask.makeTask (p : DnnNodePara) : Option Task :=
  match p.model_task_type with
  | ModelTaskType.ModelInferType =>
    some { kind := ModelTaskType.ModelInferType, ctrl_param := none }
  | ModelTaskType.ModelRoiInferType =>
    some { kind := ModelTaskType.ModelRoiInferType, ctrl_param := none }
  | ModelTaskType.InvalidType => none

/-- The lambda `alloc_task`, run on a non-empty `idle_tasks`: the new values of
`task_id` and `bpu_core_id`, and the pool.  On an empty map (where the source
never calls it) the locals keep the values passed in. -/
def AllocTask.alloc_task (o : IterOrder) (now : Nat) (task_id : Int) (bpu_core_id : Int)
    (rt : DnnNodeRunTimePara) : Int × Int × DnnNodeRunTimePara :=
  match TaskMap.begin o rt.idle_tasks with
  | none => (task_id, bpu_core_id, rt)
  | some idle_task =>
    let second : DnnNodeTask := { idle_task.2 with alloc_tp := now }
    let task_id := idle_task.1
    let bpu_core_id := second.bpuCoreId
    (task_id, bpu_core_id,
      { rt with running_tasks := rt.running_tasks.insert task_id second,
                idle_tasks := rt.idle_tasks.erase task_id })

/-- The end of `AllocTask`, after the lock section: range check of `task_id`,
control parameter, store into `tasks`. -/
def AllocTask.finish (t : Target) (task : Task) (task_id : Int) (bpu_core_id : Int)
    (self : DnnNodeImpl) : Int × DnnNodeImpl :=
  if task_id < 0 ∨ task_id ≥ (self.dnn_rt_para_.tasks.length : Int) then (-1, self)
  else
    let en := if t.PLATFORM_X5 then false else self.en_set_task_para_
    let ctrl_param : hbDNNInferCtrlParam :=
      { HB_DNN_INITIALIZE_INFER_CTRL_PARAM with bpuCoreId := bpu_core_id }
    let task : Task := if en then { task with ctrl_param := some ctrl_param } else task
    (task_id,
      { dnn_rt_para_ :=
          { self.dnn_rt_para_ with
            tasks := self.dnn_rt_para_.tasks.set task_id.toNat (some task) },
        en_set_task_para_ := en })

/-- The member `DnnNodeImpl::AllocTask(timeout_ms)` (with `dnn_rt_para_`
non-null).  `now` is the clock reading stored in `alloc_tp`; `w` is how the
wait ends, should the call wait.
The result is `none` when the call never returns: an untimed wait
(`timeout_ms <= 0`) whose predicate `!idle_tasks.empty() || !rclcpp::ok()`
stays false. -/
def AllocTask (t : Target) (p : DnnNodePara) (timeout_ms : Int) (now : Nat) (w : WaitEnd)
    (self : DnnNodeImpl) : Option (Int × DnnNodeImpl) :=
  let task_id : Int := -1
  let bpu_core_id : Int := HB_BPU_CORE_0
  match AllocTask.makeTask p with
  | none => some (task_id, self)
  | some task =>
    if !self.dnn_rt_para_.idle_tasks.isEmpty then
      let r := AllocTask.alloc_task t.order now task_id bpu_core_id self.dnn_rt_para_
      some (AllocTask.finish t task r.1 r.2.1 { self with dnn_rt_para_ := r.2.2 })
    else if timeout_ms ≤ 0 ∧ w.self.dnn_rt_para_.idle_tasks.isEmpty ∧ w.ok then none
    else if !w.ok then some (task_id, w.self)
    else if !w.self.dnn_rt_para_.idle_tasks.isEmpty then
      let r := AllocTask.alloc_task t.order now task_id bpu_core_id w.self.dnn_rt_para_
      some (AllocTask.finish t task r.1 r.2.1 { w.self with dnn_rt_para_ := r.2.2 })
    else some (AllocTask.finish t task task_id bpu_core_id w.self)

/-! ## `ReleaseTask`, `GetTask` -/

/-- The member `DnnNodeImpl::ReleaseTask(task_id)` (with `dnn_rt_para_`
non-null): the return value and the object afterwards.  The write
`tasks[task_id] = nullptr` is within bounds whenever `task_id` is a key of
`running_tasks` in a reachable state; for an index beyond `tasks` the model
leaves `tasks` as it is. -/
def ReleaseTask (p : DnnNodePara) (self : DnnNodeImpl) (task_id : Int) : Int × DnnNodeImpl :=
  if task_id < 0 then (-1, self)
  else
    match self.dnn_rt_para_.running_tasks.find task_id with
    | none => (-1, self)
    | some running_task =>
      let last_bpu_core_id := running_task.bpuCoreId
      let present_bpu_core_id :=
        if (p.bpu_core_ids.length : Int) = p.task_num ∧ task_id < p.task_num ∧
            p.bpu_core_ids.getD task_id.toNat HB_BPU_CORE_ANY ≠ HB_BPU_CORE_ANY then
          last_bpu_core_id
        else alternateCore last_bpu_core_id
      let node_task : DnnNodeTask :=
        { task_id := task_id, alloc_tp := 0, bpuCoreId := present_bpu_core_id }
      (0, { self with dnn_rt_para_ :=
              { idle_tasks := self.dnn_rt_para_.idle_tasks.insert node_task.task_id node_task,
                running_tasks := self.dnn_rt_para_.running_tasks.erase task_id,
                tasks := self.dnn_rt_para_.tasks.set task_id.toNat none } })

/-- The member `DnnNodeImpl::GetTask(task_id)`; `none` is the null pointer. -/
def GetTask (self : DnnNodeImpl) (task_id : Int) : Option Task :=
  if task_id < 0 ∨ task_id ≥ (self.dnn_rt_para_.tasks.length : Int) then none
  else (self.dnn_rt_para_.tasks.getD task_id.toNat none)

/-! ## Sequences of calls on the pool -/

/-- One call on the pool in a sequence of calls.  Each call is one step: all
that `AllocTask` and `ReleaseTask` read or write of the pool happens while
`task_mtx` is held.  An `AllocTask` that finds no idle slot and waits takes
its step when the wait ends (a call that is woken by a release stands after
that release in the sequence), so the wait of a call in a sequence ends on the
pool as it is at the call's step, with `ok` the value of `rclcpp::ok()`. -/
inductive Call where
  | alloc (timeout_ms : Int) (now : Nat) (ok : Bool)
  | release (task_id : Int)
  deriving DecidableEq, Repr

/-- One call run on the object: what it returns (`none` when it never
returns, the object then being as before) and the object afterwards. -/
def Call.exec (t : Target) (p : DnnNodePara) (self : DnnNodeImpl) : Call → Option Int × DnnNodeImpl
  | Call.alloc timeout_ms now ok =>
    match AllocTask t p timeout_ms now { ok := ok, self := self } self with
    | some r => (some r.1, r.2)
    | none => (none, self)
  | Call.release task_id =>
    let r := ReleaseTask p self task_id
    (some r.1, r.2)

/-- The object after a sequence of calls. -/
def run (t : Target) (p : DnnNodePara) (self : DnnNodeImpl) : List Call → DnnNodeImpl
  | [] => self
  | c :: cs => run t p (c.exec t p self).2 cs

/-- The return values of a sequence of calls, in order. -/
def results (t : Target) (p : DnnNodePara) (self : DnnNodeImpl) : List Call → List (Option Int)
  | [] => []
  | c :: cs => (c.exec t p self).1 :: results t p (c.exec t p self).2 cs

/-- The states the pool can be in: those a sequence of `AllocTask` and
`ReleaseTask` calls leads to from a successful `TaskInit` on a new object. -/
def Reachable (t : Target) (p : DnnNodePara) (self : DnnNodeImpl) : Prop :=
  ∃ (en : Bool) (calls : List Call),
    (TaskInit p (DnnNodeImpl.ctor en)).1 = 0 ∧
    self = run t p (TaskInit p (DnnNodeImpl.ctor en)).2 calls

/-- The core slot `task_id` is bound to: the `bpuCoreId` of its entry in
`idle_tasks` or, failing that, in `running_tasks`. -/
def slotCore (self : DnnNodeImpl) (task_id : Int) : Option Int :=
  match self.dnn_rt_para_.idle_tasks.find task_id with
  | some v => some v.bpuCoreId
  | none => (self.dnn_rt_para_.running_tasks.find task_id).map (fun v => v.bpuCoreId)

/-- Iteration order that yields the first stored entry. -/
def firstStored : IterOrder := fun _ => 0

/-- The invariant of the pool: `tasks` has one cell per slot, each map holds a
key once, and the two key sets split the ids `0 .. task_num-1` between them. -/
structure PoolInv (p : DnnNodePara) (node : DnnNodeImpl) : Prop where
  tasks_length : (node.dnn_rt_para_.tasks.length : Int) = p.task_num
  idle_nodup : node.dnn_rt_para_.idle_tasks.keys.Nodup
  running_nodup : node.dnn_rt_para_.running_tasks.keys.Nodup
  disjoint : ∀ id : Int,
    id ∈ node.dnn_rt_para_.idle_tasks.keys → id ∉ node.dnn_rt_para_.running_tasks.keys
  cover : ∀ id : Int,
    (id ∈ node.dnn_rt_para_.idle_tasks.keys ∨ id ∈ node.dnn_rt_para_.running_tasks.keys) ↔
      (0 ≤ id ∧ id < p.task_num)

/-- The test of `ReleaseTask` for a slot whose core the user fixed. -/
def Pinned (p : DnnNodePara) (task_id : Int) : Prop :=
  (p.bpu_core_ids.length : Int) = p.task_num ∧ task_id < p.task_num ∧
    p.bpu_core_ids.getD task_id.toNat HB_BPU_CORE_ANY ≠ HB_BPU_CORE_ANY

instance (p : DnnNodePara) (task_id : Int) : Decidable (Pinned p task_id) :=
  inferInstanceAs (Decidable ((p.bpu_core_ids.length : Int) = p.task_num ∧ task_id < p.task_num ∧
    p.bpu_core_ids.getD task_id.toNat HB_BPU_CORE_ANY ≠ HB_BPU_CORE_ANY))

/-- Whether some `ReleaseTask(task_id)` of the sequence, run from `self`,
returns 0. -/
def releasedOk (t : Target) (p : DnnNodePara) (task_id : Int) :
    DnnNodeImpl → List Call → Bool
  | _, [] => false
  | self, c :: cs =>
    (match c with
      | Call.release id => decide (id = task_id ∧ (ReleaseTask p self id).1 = 0)
      | Call.alloc _ _ _ => false) ||
    releasedOk t p task_id (c.exec t p self).2 cs

/-- The successful allocations of a sequence of calls, in order: the id that
`AllocTask` returned and the core that slot is bound to as the call returns
(read from the slot's entry, which is in `running_tasks` then; the default of
`getD` is never used in a reachable state). -/
def allocLog (t : Target) (p : DnnNodePara) : DnnNodeImpl → List Call → List (Int × Int)
  | _, [] => []
  | self, c :: cs =>
    let r := c.exec t p self
    match c, r.1 with
    | Call.alloc _ _ _, some id =>
      if 0 ≤ id then (id, (slotCore r.2 id).getD HB_BPU_CORE_ANY) :: allocLog t p r.2 cs
      else allocLog t p r.2 cs
    | _, _ => allocLog t p r.2 cs

/-- A list of cores that alternates strictly between Core0 and Core1: each
entry is one of the two, and the entry after it, if there is one, is not the
same core. -/
def Alternates : List Int → Prop
  | [] => True
  | a :: rest =>
    (a = HB_BPU_CORE_0 ∨ a = HB_BPU_CORE_1) ∧ rest.head? ≠ some a ∧ Alternates rest

/-- Deciding `Alternates`, entry by entry. -/
def Alternates.dec : (cores : List Int) → Decidable (Alternates cores)
  | [] => isTrue trivial
  | a :: rest =>
    letI : Decidable (Alternates rest) := Alternates.dec rest
    inferInstanceAs (Decidable
      ((a = HB_BPU_CORE_0 ∨ a = HB_BPU_CORE_1) ∧ rest.head? ≠ some a ∧ Alternates rest))

instance (cores : List Int) : Decidable (Alternates cores) := Alternates.dec cores

/-- A list of cores that starts with `c` and goes on with the other core after
each entry. -/
def AlternatesFrom : Int → List Int → Prop
  | _, [] => True
  | c, x :: xs => x = c ∧ AlternatesFrom (alternateCore c) xs

/-- Parameters of a node with two slots, no core given, a plain inference
model. -/
def twoSlots : DnnNodePara :=
  { task_num := 2, bpu_core_ids := [], model_task_type := ModelTaskType.ModelInferType }

/-- Parameters of a node with two slots, the first one fixed to Core1, the
second left open. -/
def pinnedFirst : DnnNodePara :=
  { task_num := 2, bpu_core_ids := [HB_BPU_CORE_1, HB_BPU_CORE_ANY],
    model_task_type := ModelTaskType.ModelInferType }

/-- A build without `PLATFORM_X5` whose maps yield their first stored entry
first. -/
def plainTarget : Target := { PLATFORM_X5 := false, order := firstStored }

/-- The two-slot node after `TaskInit`. -/
def twoSlotsInit : DnnNodeImpl := (TaskInit twoSlots (DnnNodeImpl.ctor true)).2


/-- Every entry of a pinned slot, in either map, carries the core the user gave
for that slot. -/
def PinInv (p : DnnNodePara) (node : DnnNodeImpl) : Prop :=
  ∀ (i : Int) (v : DnnNodeTask), Pinned p i →
    ((i, v) ∈ node.dnn_rt_para_.idle_tasks ∨ (i, v) ∈ node.dnn_rt_para_.running_tasks) →
    v.bpuCoreId = p.bpu_core_ids.getD i.toNat HB_BPU_CORE_ANY


/-- The core the next `AllocTask` of slot `task_id` will bind, as the pool
stands: the core of its idle entry, or the other core than that of its running
entry. -/
def NextCore (node : DnnNodeImpl) (task_id : Int) (c : Int) : Prop :=
  ∀ v : DnnNodeTask,
    (node.dnn_rt_para_.idle_tasks.find task_id = some v → v.bpuCoreId = c) ∧
    (node.dnn_rt_para_.running_tasks.find task_id = some v → alternateCore v.bpuCoreId = c)


/-! ## Running an inference: `PreProcess`, `RunProcessInput`, `RunInferTask`, `RunImpl` -/

/-- Modelled from the spec: the enum `InputType` of `dnn_node_data.h`, which is
not among the sources; `unsupported` stands for every value that is neither
`DNN_INPUT` nor `DNN_TENSOR`. -/
inductive InputType where
  | DNN_INPUT
  | DNN_TENSOR
  | unsupported
  deriving DecidableEq, Repr

/-- The struct `hbDNNRoi` of the accelerator library. -/
structure hbDNNRoi where
  left : Int
  top : Int
  right : Int
  bottom : Int
  deriving DecidableEq, Repr

/-- Modelled from the spec: the struct `DnnNodeRunTimeStat` of `dnn_node_data.h`,
which is not among the sources; the fields the source writes.  The two fps
values are kept as the readings the statistics objects hand out; times are in
milliseconds. -/
structure DnnNodeRunTimeStat where
  input_fps : Int
  output_fps : Int
  fps_updated : Bool
  infer_time_ms : Int
  parse_time_ms : Int
  infer_timespec_start : Int
  infer_timespec_end : Int
  parse_timespec_start : Int
  parse_timespec_end : Int
  deriving DecidableEq, Repr

/-- A `DnnNodeRunTimeStat` as `std::make_shared` makes it. -/
def DnnNodeRunTimeStat.new : DnnNodeRunTimeStat :=
  { input_fps := 0, output_fps := 0, fps_updated := false, infer_time_ms := 0,
    parse_time_ms := 0, infer_timespec_start := 0, infer_timespec_end := 0,
    parse_timespec_start := 0, parse_timespec_end := 0 }

/-- Modelled from the spec: the struct `DnnNodeOutput` of `dnn_node_data.h`,
which is not among the sources; the fields the source writes: the ROI list, the
statistics (`none` is the null pointer) and the output tensors, each tensor a
bare handle. -/
structure DnnNodeOutput where
  rois : Option (List hbDNNRoi)
  rt_stat : Option DnnNodeRunTimeStat
  output_tensors : List Int
  deriving DecidableEq, Repr

/-- A `DnnNodeOutput` as `std::make_shared` makes it. -/
def DnnNodeOutput.new : DnnNodeOutput :=
  { rois := none, rt_stat := none, output_tensors := [] }

/-- What the inference library answers during one `RunImpl`: the return codes
of the task's methods (`RunInferRetry` is the code of the second `RunInfer`) and
the tensors `GetOutputTensors` hands out. -/
structure TaskCalls where
  SetInputRois : Int
  SetInputs : Int
  SetInputTensors : Int
  ProcessInput : Int
  RunInfer : Int
  RunInferRetry : Int
  WaitInferDone : Int
  output_tensors : List Int
  deriving DecidableEq, Repr

/-- What the two fps statistics objects answer during one `RunImpl`:
`input_stat_.Get()`, `output_stat_.Update()` and `output_stat_.Get()`. -/
structure FpsReadings where
  input_fps : Int
  fps_updated : Bool
  output_fps : Int
  deriving DecidableEq, Repr

/-- The clock readings of one `RunInferTask`, in the order the code takes them:
at entry, when the wait for the inference is over, when parsing starts and when
it is done (each as `system_clock::now()` in ms and as `clock_gettime`). -/
structure InferClock where
  start_ms : Int
  start_ts : Int
  done_ms : Int
  done_ts : Int
  parse_start_ms : Int
  parse_start_ts : Int
  parse_done_ms : Int
  parse_done_ts : Int
  deriving DecidableEq, Repr

/-- What `RunImpl` and the functions it calls do to the outside, in order. -/
inductive Event where
  | AllocTask (ret : Int)
  | SetInputRois (ret : Int)
  | SetInputs (ret : Int)
  | SetInputTensors (ret : Int)
  | ProcessInput (ret : Int)
  | RunInfer (ret : Int)
  | SetCtrlParam (param : hbDNNInferCtrlParam)
  | WaitInferDone (timeout_ms : Int) (ret : Int)
  | GetOutputTensors
  | ReleaseTask (task_id : Int) (ret : Int)
  | output_stat_Update
  | post_process (output : DnnNodeOutput)
  deriving DecidableEq, Repr

/-- The part of `PreProcess` both model task types share: hand the inputs to
the task according to `input_type`. -/
def PreProcess.setInputs (lib : TaskCalls) (input_type : InputType) : Int × List Event :=
  match input_type with
  | InputType.DNN_INPUT =>
    (lib.SetInputs, [Event.SetInputs lib.SetInputs])
  | InputType.DNN_TENSOR =>
    (lib.SetInputTensors, [Event.SetInputTensors lib.SetInputTensors])
  | InputType.unsupported => (-1, [])

/-- The member `DnnNodeImpl::PreProcess`: the return value and the library calls
made. -/
def PreProcess (p : DnnNodePara) (lib : TaskCalls) (self : DnnNodeImpl) (input_type : InputType)
    (task_id : Int) (rois : Option (List hbDNNRoi)) : Int × List Event :=
  if task_id < 0 then (-1, [])
  else
    match p.model_task_type with
    | ModelTaskType.ModelRoiInferType =>
      match rois with
      | none => (-1, [])
      | some _ =>
        match GetTask self task_id with
        | none => (-1, [])
        | some infer_task =>
          if infer_task.kind ≠ ModelTaskType.ModelRoiInferType then (-1, [])
          else if lib.SetInputRois ≠ 0 then
            (lib.SetInputRois, [Event.SetInputRois lib.SetInputRois])
          else
            let r := PreProcess.setInputs lib input_type
            (r.1, Event.SetInputRois lib.SetInputRois :: r.2)
    | ModelTaskType.ModelInferType =>
      match GetTask self task_id with
      | none => (-1, [])
      | some infer_task =>
        if infer_task.kind ≠ ModelTaskType.ModelInferType then (-1, [])
        else PreProcess.setInputs lib input_type
    | ModelTaskType.InvalidType => (0, [])

/-- The member `DnnNodeImpl::RunProcessInput`, called on a task that `RunImpl`
has found non-null. -/
def RunProcessInput (lib : TaskCalls) (input_type : InputType) : Int × List Event :=
  if input_type = InputType.DNN_INPUT then
    if lib.ProcessInput ≠ 0 then (lib.ProcessInput, [Event.ProcessInput lib.ProcessInput])
    else (0, [Event.ProcessInput lib.ProcessInput])
  else (0, [])

/-- What `RunInferTask` returns and leaves behind: the return value, the flag
`en_set_task_para_`, the output object, the task, and the calls made. -/
structure RunInferTaskResult where
  ret : Int
  en_set_task_para_ : Bool
  node_output : DnnNodeOutput
  node_task : Option Task
  events : List Event
  deriving DecidableEq, Repr

/-- The tail of `RunInferTask`, from `WaitInferDone` on, reached once a
`RunInfer` has returned 0. -/
def RunInferTask.wait (p : DnnNodePara) (lib : TaskCalls) (clk : InferClock) (en : Bool)
    (node_output : DnnNodeOutput) (task : Task) (timeout_ms : Int) (events : List Event) :
    RunInferTaskResult :=
  let events := events ++ [Event.WaitInferDone timeout_ms lib.WaitInferDone]
  if lib.WaitInferDone ≠ 0 then
    { ret := lib.WaitInferDone, en_set_task_para_ := en, node_output := node_output,
      node_task := some task, events := events }
  else
    let node_output : DnnNodeOutput :=
      match node_output.rt_stat with
      | none => node_output
      | some rt_stat =>
        let rt_stat : DnnNodeRunTimeStat :=
          { rt_stat with
            infer_time_ms := clk.done_ms - clk.start_ms,
            infer_timespec_start := clk.start_ts,
            infer_timespec_end := clk.done_ts,
            parse_timespec_start := clk.parse_start_ts }
        { node_output with rt_stat := some rt_stat }
    let got : Bool :=
      decide (p.model_task_type = ModelTaskType.ModelInferType) ||
      decide (p.model_task_type = ModelTaskType.ModelRoiInferType)
    let node_output : DnnNodeOutput :=
      if got then { node_output with output_tensors := lib.output_tensors } else node_output
    let events := if got then events ++ [Event.GetOutputTensors] else events
    let node_output : DnnNodeOutput :=
      match node_output.rt_stat with
      | none => node_output
      | some rt_stat =>
        let rt_stat : DnnNodeRunTimeStat :=
          { rt_stat with
            parse_time_ms := clk.parse_done_ms - clk.parse_start_ms,
            parse_timespec_end := clk.parse_done_ts }
        { node_output with rt_stat := some rt_stat }
    { ret := 0, en_set_task_para_ := en, node_output := node_output,
      node_task := some task, events := events }

/-- The member `DnnNodeImpl::RunInferTask` (with `dnn_node_para_ptr_` and
`node_output` non-null; `node_task` may be null). -/
def RunInferTask (p : DnnNodePara) (lib : TaskCalls) (clk : InferClock) (en : Bool)
    (node_output : DnnNodeOutput) (node_task : Option Task) (timeout_ms : Int) :
    RunInferTaskResult :=
  match node_task with
  | none =>
    { ret := -1, en_set_task_para_ := en, node_output := node_output, node_task := none,
      events := [] }
  | some task =>
    if lib.RunInfer ≠ 0 then
      if HB_DNN_INVALID_ARGUMENT = lib.RunInfer then
        let ctrl_param := HB_DNN_INITIALIZE_INFER_CTRL_PARAM
        let task : Task := { task with ctrl_param := some ctrl_param }
        let events :=
          [Event.RunInfer lib.RunInfer, Event.SetCtrlParam ctrl_param,
            Event.RunInfer lib.RunInferRetry]
        if lib.RunInferRetry = 0 then
          RunInferTask.wait p lib clk false node_output task timeout_ms events
        else
          { ret := lib.RunInferRetry, en_set_task_para_ := en, node_output := node_output,
            node_task := some task, events := events }
      else
        { ret := lib.RunInfer, en_set_task_para_ := en, node_output := node_output,
          node_task := some task, events := [Event.RunInfer lib.RunInfer] }
    else
      RunInferTask.wait p lib clk en node_output task timeout_ms [Event.RunInfer lib.RunInfer]

/-- What `RunImpl` returns and leaves behind: the return value, the object, the
output object (the caller's, when one was passed) and what was done, in
order. -/
structure RunImplResult where
  ret : Int
  self : DnnNodeImpl
  dnn_output : DnnNodeOutput
  events : List Event
  deriving DecidableEq, Repr

/-- The member `DnnNodeImpl::RunImpl` (with `dnn_rt_para_` and
`dnn_node_para_ptr_` non-null).  `output` and `rois` are `none` for null
pointers, `post_process` tells whether a callback was passed.  The result is
`none` when `AllocTask` never returns. -/
def RunImpl (t : Target) (p : DnnNodePara) (lib : TaskCalls) (fps : FpsReadings)
    (clk : InferClock) (now : Nat) (w : WaitEnd) (self : DnnNodeImpl) (input_type : InputType)
    (output : Option DnnNodeOutput) (post_process : Bool) (rois : Option (List hbDNNRoi))
    (alloctask_timeout_ms infer_timeout_ms : Int) : Option RunImplResult :=
  let dnn_output : DnnNodeOutput :=
    match output with
    | some output => output
    | none => DnnNodeOutput.new
  let rt_stat : DnnNodeRunTimeStat :=
    match dnn_output.rt_stat with
    | some rt_stat => rt_stat
    | none => DnnNodeRunTimeStat.new
  let rt_stat : DnnNodeRunTimeStat := { rt_stat with input_fps := fps.input_fps }
  let dnn_output : DnnNodeOutput := { dnn_output with rt_stat := some rt_stat, rois := rois }
  let counted_stat : DnnNodeRunTimeStat :=
    { rt_stat with fps_updated := fps.fps_updated, output_fps := fps.output_fps }
  let counted : DnnNodeOutput := { dnn_output with rt_stat := some counted_stat }
  let no_roi : Bool :=
    match rois with
    | none => true
    | some l => l.isEmpty
  if p.model_task_type = ModelTaskType.ModelRoiInferType ∧ no_roi = true then
    some { ret := 0, self := self, dnn_output := counted,
           events := Event.output_stat_Update ::
             (if post_process then [Event.post_process counted] else []) }
  else
    match AllocTask t p alloctask_timeout_ms now w self with
    | none => none
    | some (task_id, self) =>
      let events := [Event.AllocTask task_id]
      if task_id < 0 then
        some { ret := -1, self := self, dnn_output := dnn_output, events := events }
      else
        match GetTask self task_id with
        | none => some { ret := -1, self := self, dnn_output := dnn_output, events := events }
        | some _ =>
          let pre := PreProcess p lib self input_type task_id rois
          let events := events ++ pre.2
          if pre.1 ≠ 0 then
            some { ret := -1, self := self, dnn_output := dnn_output, events := events }
          else
            let inp := RunProcessInput lib input_type
            let events := events ++ inp.2
            if inp.1 ≠ 0 then
              some { ret := inp.1, self := self, dnn_output := dnn_output, events := events }
            else
              let r := RunInferTask p lib clk self.en_set_task_para_ dnn_output
                (GetTask self task_id) infer_timeout_ms
              let self : DnnNodeImpl :=
                { dnn_rt_para_ :=
                    { self.dnn_rt_para_ with
                      tasks := self.dnn_rt_para_.tasks.set task_id.toNat r.node_task },
                  en_set_task_para_ := r.en_set_task_para_ }
              let events := events ++ r.events
              let dnn_output : DnnNodeOutput :=
                if r.ret ≠ 0 then r.node_output
                else
                  match r.node_output.rt_stat with
                  | none => r.node_output
                  | some rt_stat =>
                    let rt_stat : DnnNodeRunTimeStat :=
                      { rt_stat with
                        fps_updated := fps.fps_updated, output_fps := fps.output_fps }
                    { r.node_output with rt_stat := some rt_stat }
              let events := if r.ret ≠ 0 then events else events ++ [Event.output_stat_Update]
              let released := ReleaseTask p self task_id
              let events := events ++ [Event.ReleaseTask task_id released.1]
              let events :=
                if post_process then events ++ [Event.post_process dnn_output] else events
              some { ret := 0, self := released.2, dnn_output := dnn_output, events := events }

/-- How often the callback `post_process` was invoked. -/
def callbackCount : List Event → Nat
  | [] => 0
  | Event.post_process _ :: rest => callbackCount rest + 1
  | _ :: rest => callbackCount rest

/-- How often `ReleaseTask(task_id)` was called. -/
def releaseCount (task_id : Int) : List Event → Nat
  | [] => 0
  | Event.ReleaseTask id _ :: rest =>
    if id = task_id then releaseCount task_id rest + 1 else releaseCount task_id rest
  | _ :: rest => releaseCount task_id rest

/-- A library whose calls all succeed and hand out one tensor. -/
def libOk : TaskCalls :=
  { SetInputRois := 0, SetInputs := 0, SetInputTensors := 0, ProcessInput := 0, RunInfer := 0,
    RunInferRetry := 0, WaitInferDone := 0, output_tensors := [1] }

/-- Statistics readings with no fps update. -/
def fpsQuiet : FpsReadings := { input_fps := 0, fps_updated := false, output_fps := 0 }

/-- A clock that reads 0 throughout. -/
def clockZero : InferClock :=
  { start_ms := 0, start_ts := 0, done_ms := 0, done_ts := 0, parse_start_ms := 0,
    parse_start_ts := 0, parse_done_ms := 0, parse_done_ts := 0 }


/-- A library that rejects the inputs: `SetInputs` returns -1. -/
def libBadInputs : TaskCalls := { libOk with SetInputs := -1 }

/-- The two-slot node with both slots allocated and none released. -/
def twoSlotsBusy : DnnNodeImpl :=
  run plainTarget twoSlots twoSlotsInit [Call.alloc 0 5 true, Call.alloc 0 6 true]


/-! ## Counting what was done -/

/-- Whether the event is a call of the task's `RunInfer`. -/
def Event.isRunInfer : Event → Bool
  | Event.RunInfer _ => true
  | _ => false

/-- Whether the event is a call of the task's `WaitInferDone`. -/
def Event.isWaitInferDone : Event → Bool
  | Event.WaitInferDone _ _ => true
  | _ => false

/-- Whether the event is a call of the task's `GetOutputTensors`. -/
def Event.isGetOutputTensors : Event → Bool
  | Event.GetOutputTensors => true
  | _ => false

/-- Whether the event is a call of `AllocTask`. -/
def Event.isAllocTask : Event → Bool
  | Event.AllocTask _ => true
  | _ => false

/-- Whether the event is a call of `output_stat_.Update()`. -/
def Event.isOutputStatUpdate : Event → Bool
  | Event.output_stat_Update => true
  | _ => false

/-- How often the task's `RunInfer` was called. -/
def runInferCount (events : List Event) : Nat := events.countP Event.isRunInfer

/-- How often the task's `WaitInferDone` was called. -/
def waitInferDoneCount (events : List Event) : Nat := events.countP Event.isWaitInferDone

/-- How often the task's `GetOutputTensors` was called. -/
def getOutputTensorsCount (events : List Event) : Nat :=
  events.countP Event.isGetOutputTensors

/-- How often `AllocTask` was called. -/
def allocTaskCount (events : List Event) : Nat := events.countP Event.isAllocTask

/-- How often the output fps statistic was updated. -/
def outputStatUpdateCount (events : List Event) : Nat :=
  events.countP Event.isOutputStatUpdate

/-- The inference of a task goes through: `RunInfer` returns 0, at first or on
the retry that follows `HB_DNN_INVALID_ARGUMENT`, and `WaitInferDone` returns
0. -/
def inferOk (lib : TaskCalls) : Prop :=
  (lib.RunInfer = 0 ∨ (lib.RunInfer = HB_DNN_INVALID_ARGUMENT ∧ lib.RunInferRetry = 0)) ∧
    lib.WaitInferDone = 0

instance (lib : TaskCalls) : Decidable (inferOk lib) :=
  inferInstanceAs (Decidable
    ((lib.RunInfer = 0 ∨ (lib.RunInfer = HB_DNN_INVALID_ARGUMENT ∧ lib.RunInferRetry = 0)) ∧
      lib.WaitInferDone = 0))

/-- A library whose first `RunInfer` rejects the control parameter and whose
retry succeeds. -/
def libRetryOk : TaskCalls := { libOk with RunInfer := HB_DNN_INVALID_ARGUMENT }

/-- A library whose `RunInfer` fails with a code other than
`HB_DNN_INVALID_ARGUMENT`. -/
def libInferFails : TaskCalls := { libOk with RunInfer := -1 }

/-- A library whose `WaitInferDone` fails. -/
def libWaitFails : TaskCalls := { libOk with WaitInferDone := -1 }

/-- A clock that advances: the inference takes 30 ms, parsing 5 ms. -/
def clockTicks : InferClock :=
  { start_ms := 100, start_ts := 100, done_ms := 130, done_ts := 130, parse_start_ms := 131,
    parse_start_ts := 131, parse_done_ms := 136, parse_done_ts := 136 }

/-- An output object with a statistics record that nothing has written yet. -/
def outputWithStat : DnnNodeOutput :=
  { rois := none, rt_stat := some DnnNodeRunTimeStat.new, output_tensors := [] }

/-- A plain inference task on which `SetCtrlParam` was not called. -/
def plainTask : Task := { kind := ModelTaskType.ModelInferType, ctrl_param := none }


/-! ## Sequences of calls on the node -/

/-- One call on the node in a sequence of calls: a call on the pool, or
`RunInferTask` on the task of slot `task_id`, the way `RunImpl` calls it (with
`GetTask(task_id)`). -/
inductive NodeCall where
  | pool (c : Call)
  | infer (lib : TaskCalls) (clk : InferClock) (node_output : DnnNodeOutput) (task_id : Int)
      (timeout_ms : Int)

/-- The object after one call on the node.  `RunInferTask` on a null task
returns at once; on a task it may change the task's control parameter and
the flag `en_set_task_para_`. -/
def NodeCall.exec (t : Target) (p : DnnNodePara) (self : DnnNodeImpl) : NodeCall → DnnNodeImpl
  | NodeCall.pool c => (c.exec t p self).2
  | NodeCall.infer lib clk node_output task_id timeout_ms =>
    match GetTask self task_id with
    | none => self
    | some task =>
      let r := RunInferTask p lib clk self.en_set_task_para_ node_output (some task) timeout_ms
      { dnn_rt_para_ :=
          { self.dnn_rt_para_ with
            tasks := self.dnn_rt_para_.tasks.set task_id.toNat r.node_task },
        en_set_task_para_ := r.en_set_task_para_ }

/-- The object after a sequence of calls on the node. -/
def runNode (t : Target) (p : DnnNodePara) (self : DnnNodeImpl) : List NodeCall → DnnNodeImpl
  | [] => self
  | c :: cs => runNode t p (c.exec t p self) cs


/-- The two-slot node with slot 0 allocated. -/
def twoSlotsOneRunning : DnnNodeImpl :=
  run plainTarget twoSlots twoSlotsInit [Call.alloc 0 5 true]

/-- The task `AllocTask` stores for slot 0 of the two-slot node while the flag
`en_set_task_para_` is on: a plain inference task bound to Core0. -/
def boundTask : Task :=
  { kind := ModelTaskType.ModelInferType,
    ctrl_param := some (hbDNNInferCtrlParam.mk HB_BPU_CORE_0) }


/-! ## `Run` and the worker queue -/

/-- The arguments of one `RunImpl` call, as the lambda `infer_task` of `Run`
captures them: one unit of work for a worker thread. -/
structure RunArgs where
  input_type : InputType
  output : Option DnnNodeOutput
  post_process : Bool
  rois : Option (List hbDNNRoi)
  alloctask_timeout_ms : Int
  infer_timeout_ms : Int
  deriving DecidableEq, Repr

/-- Modelled from the spec: the member `thread_pool_` of `DnnNodeImpl`, whose
class is declared in a header that is not among the sources: the bounded worker
queue of the specification.  `msg_handle_` is kept as the units of work that are
queued, oldest first; `msg_limit_count_` is the admission limit. -/
structure ThreadPool where
  msg_handle_ : List RunArgs
  msg_limit_count_ : Int
  deriving DecidableEq, Repr

/-- Modelled from the spec: the call `msg_handle_.GetTaskNum()`, the depth of
the worker queue. -/
def ThreadPool.GetTaskNum (thread_pool_ : ThreadPool) : Int := thread_pool_.msg_handle_.length

/-- Modelled from the spec: the call `msg_handle_.PostTask(infer_task)`, which
puts one unit of work at the end of the worker queue. -/
def ThreadPool.PostTask (thread_pool_ : ThreadPool) (infer_task : RunArgs) : ThreadPool :=
  { thread_pool_ with msg_handle_ := thread_pool_.msg_handle_ ++ [infer_task] }

/-- The unit of work carried out by a worker thread: the one `RunImpl` call
of the lambda, on the object as the worker finds it. -/
def RunArgs.work (t : Target) (p : DnnNodePara) (lib : TaskCalls) (fps : FpsReadings)
    (clk : InferClock) (now : Nat) (w : WaitEnd) (self : DnnNodeImpl) (a : RunArgs) :
    Option RunImplResult :=
  RunImpl t p lib fps clk now w self a.input_type a.output a.post_process a.rois
    a.alloctask_timeout_ms a.infer_timeout_ms

/-- What `Run` returns and leaves behind: the return value, the object, the
worker queue and what was done before it returned. -/
structure RunResult where
  ret : Int
  self : DnnNodeImpl
  thread_pool_ : ThreadPool
  events : List Event
  deriving DecidableEq, Repr

/-- The member `DnnNodeImpl::Run`.  The update of the input fps statistic that
opens it is outside the model (the readings of the statistics are arguments).
In synchronous mode the result is that of `RunImpl`, `none` when `RunImpl` never
returns; in asynchronous mode the call does not wait. -/
def Run (t : Target) (p : DnnNodePara) (lib : TaskCalls) (fps : FpsReadings)
    (clk : InferClock) (now : Nat) (w : WaitEnd) (self : DnnNodeImpl)
    (thread_pool_ : ThreadPool) (input_type : InputType) (output : Option DnnNodeOutput)
    (post_process : Bool) (rois : Option (List hbDNNRoi)) (is_sync_mode : Bool)
    (alloctask_timeout_ms infer_timeout_ms : Int) : Option RunResult :=
  if is_sync_mode then
    match RunImpl t p lib fps clk now w self input_type output post_process rois
        alloctask_timeout_ms infer_timeout_ms with
    | none => none
    | some r =>
      some { ret := r.ret, self := r.self, thread_pool_ := thread_pool_, events := r.events }
  else if thread_pool_.GetTaskNum ≥ thread_pool_.msg_limit_count_ then
    some { ret := -1, self := self, thread_pool_ := thread_pool_, events := [] }
  else
    let infer_task : RunArgs :=
      { input_type := input_type, output := output, post_process := post_process,
        rois := rois, alloctask_timeout_ms := alloctask_timeout_ms,
        infer_timeout_ms := infer_timeout_ms }
    some { ret := 0, self := self, thread_pool_ := thread_pool_.PostTask infer_task,
           events := [] }

/-! ## Names for the stages of `RunImpl` -/

/-- The output object as `RunImpl` has prepared it when it tests the ROI list:
the caller's object or a new one, with a statistics record, `input_fps` and
`rois` set. -/
def RunImpl.prepared (fps : FpsReadings) (output : Option DnnNodeOutput)
    (rois : Option (List hbDNNRoi)) : DnnNodeOutput :=
  let dnn_output : DnnNodeOutput :=
    match output with
    | some output => output
    | none => DnnNodeOutput.new
  let rt_stat : DnnNodeRunTimeStat :=
    match dnn_output.rt_stat with
    | some rt_stat => rt_stat
    | none => DnnNodeRunTimeStat.new
  let rt_stat : DnnNodeRunTimeStat := { rt_stat with input_fps := fps.input_fps }
  { dnn_output with rt_stat := some rt_stat, rois := rois }

/-- The statistics lines `fps_updated = output_stat_.Update()` and
`output_fps = output_stat_.Get()` of `RunImpl`, applied to an output object. -/
def RunImpl.counted (fps : FpsReadings) (dnn_output : DnnNodeOutput) : DnnNodeOutput :=
  match dnn_output.rt_stat with
  | none => dnn_output
  | some rt_stat =>
    let rt_stat : DnnNodeRunTimeStat :=
      { rt_stat with fps_updated := fps.fps_updated, output_fps := fps.output_fps }
    { dnn_output with rt_stat := some rt_stat }

/-- The test of `RunImpl` for an ROI model with no ROI in the frame. -/
def RunImpl.skips (p : DnnNodePara) (rois : Option (List hbDNNRoi)) : Prop :=
  p.model_task_type = ModelTaskType.ModelRoiInferType ∧ (rois = none ∨ rois = some [])

instance (p : DnnNodePara) (rois : Option (List hbDNNRoi)) : Decidable (RunImpl.skips p rois) :=
  inferInstanceAs (Decidable
    (p.model_task_type = ModelTaskType.ModelRoiInferType ∧ (rois = none ∨ rois = some [])))

/-- The call of `RunImpl` gets as far as `RunInferTask`, on slot `task_id` and
with the object `s` that `AllocTask` left: no ROI skip, `AllocTask` returns the
valid id `task_id`, the task is there, `PreProcess` and `RunProcessInput`
return 0. -/
def RunImpl.reaches (t : Target) (p : DnnNodePara) (lib : TaskCalls) (now : Nat) (w : WaitEnd)
    (self : DnnNodeImpl) (input_type : InputType) (rois : Option (List hbDNNRoi))
    (alloctask_timeout_ms : Int) (task_id : Int) (s : DnnNodeImpl) : Prop :=
  ¬ RunImpl.skips p rois ∧
  AllocTask t p alloctask_timeout_ms now w self = some (task_id, s) ∧
  0 ≤ task_id ∧
  GetTask s task_id ≠ none ∧
  (PreProcess p lib s input_type task_id rois).1 = 0 ∧
  (RunProcessInput lib input_type).1 = 0

instance (t : Target) (p : DnnNodePara) (lib : TaskCalls) (now : Nat) (w : WaitEnd)
    (self : DnnNodeImpl) (input_type : InputType) (rois : Option (List hbDNNRoi))
    (alloctask_timeout_ms : Int) (task_id : Int) (s : DnnNodeImpl) :
    Decidable (RunImpl.reaches t p lib now w self input_type rois alloctask_timeout_ms
      task_id s) :=
  inferInstanceAs (Decidable
    (¬ RunImpl.skips p rois ∧
      AllocTask t p alloctask_timeout_ms now w self = some (task_id, s) ∧
      0 ≤ task_id ∧
      GetTask s task_id ≠ none ∧
      (PreProcess p lib s input_type task_id rois).1 = 0 ∧
      (RunProcessInput lib input_type).1 = 0))

/-- The object after `RunInferTask` inside `RunImpl`: the task of the slot and
the flag as `RunInferTask` left them. -/
def RunImpl.inferred (s : DnnNodeImpl) (task_id : Int) (r : RunInferTaskResult) : DnnNodeImpl :=
  { dnn_rt_para_ :=
      { s.dnn_rt_para_ with tasks := s.dnn_rt_para_.tasks.set task_id.toNat r.node_task },
    en_set_task_para_ := r.en_set_task_para_ }

/-- The output object `RunImpl` passes to the callback after `RunInferTask`. -/
def RunImpl.delivered (fps : FpsReadings) (r : RunInferTaskResult) : DnnNodeOutput :=
  if r.ret ≠ 0 then r.node_output else RunImpl.counted fps r.node_output

/-- Parameters of a node with two slots for an ROI model. -/
def roiSlots : DnnNodePara :=
  { task_num := 2, bpu_core_ids := [], model_task_type := ModelTaskType.ModelRoiInferType }

/-- The ROI node after `TaskInit`. -/
def roiSlotsInit : DnnNodeImpl := (TaskInit roiSlots (DnnNodeImpl.ctor true)).2

/-- A worker queue with one unit of work queued and room for two. -/
def queueOfOne : ThreadPool :=
  { msg_handle_ :=
      [RunArgs.mk InputType.DNN_INPUT none true none 100 1000],
    msg_limit_count_ := 2 }


/-- What `RunImpl` has done when it returns after `RunInferTask`: `done` up to
and with `RunInferTask`, then the update of the output fps statistic if
`RunInferTask` returned 0, `ReleaseTask`, and the callback if one was
passed. -/
def RunImpl.closing (done : List Event) (infer_ret : Int) (task_id : Int) (release_ret : Int)
    (post_process : Bool) (dnn_output : DnnNodeOutput) : List Event :=
  let events := if infer_ret ≠ 0 then done else done ++ [Event.output_stat_Update]
  let events := events ++ [Event.ReleaseTask task_id release_ret]
  if post_process then events ++ [Event.post_process dnn_output] else events


/-- The event is a call of a method of the task object (an input setter,
`ProcessInput`, `RunInfer`, `SetCtrlParam`, `WaitInferDone` or
`GetOutputTensors`), as opposed to a step of `RunImpl` itself. -/
def Event.isTaskCall : Event → Bool
  | Event.SetInputRois _ => true
  | Event.SetInputs _ => true
  | Event.SetInputTensors _ => true
  | Event.ProcessInput _ => true
  | Event.RunInfer _ => true
  | Event.SetCtrlParam _ => true
  | Event.WaitInferDone _ _ => true
  | Event.GetOutputTensors => true
  | _ => false

/-- A worker queue with nothing queued and room for two units. -/
def queueEmpty : ThreadPool := { msg_handle_ := [], msg_limit_count_ := 2 }


/-! ## The detection decoder of `Yolo5OutputParser`

The header `ptq_yolo5_output_parser.h` declares the parser and its thresholds;
the bodies of `PostProcess` are not among the sources.  Numbers of type `float`
are taken as rationals (no rounding, no NaN). -/

/-- Modelled from the spec: one decoded object, a bounding box `(x1, y1, x2, y2)`
in pixel coordinates, a class id and a confidence score. -/
structure Detection where
  x1 : ℚ
  y1 : ℚ
  x2 : ℚ
  y2 : ℚ
  id : Int
  score : ℚ
  deriving DecidableEq

/-- The members of `Yolo5OutputParser` that steer the decoding, as the header
declares them. -/
structure Yolo5OutputParser where
  score_threshold_ : ℚ
  nms_threshold_ : ℚ
  nms_top_k_ : Int

/-- The values the header gives the members: `score_threshold_ = 0.4`,
`nms_threshold_ = 0.5`, `nms_top_k_ = 5000`. -/
def Yolo5OutputParser.new : Yolo5OutputParser :=
  { score_threshold_ := 2 / 5, nms_threshold_ := 1 / 2, nms_top_k_ := 5000 }

/-- Modelled from the spec: the area of a box. -/
def Detection.area (d : Detection) : ℚ := (d.x2 - d.x1) * (d.y2 - d.y1)

/-- Modelled from the spec: the area two boxes share. -/
def Detection.intersection (a b : Detection) : ℚ :=
  max 0 (min a.x2 b.x2 - max a.x1 b.x1) * max 0 (min a.y2 b.y2 - max a.y1 b.y1)

/-- Modelled from the spec: intersection-over-union of two boxes, 0 when the
union has no area. -/
def Detection.iou (a b : Detection) : ℚ :=
  if a.area + b.area - a.intersection b ≤ 0 then 0
  else a.intersection b / (a.area + b.area - a.intersection b)

/-- Modelled from the spec: the greedy suppression on the boxes of one class,
already sorted: "repeatedly keep the highest-scoring box and discard any
remaining box whose intersection-over-union with it exceeds `nms_threshold`,
continuing until no boxes remain or `nms_top_k` has been kept". -/
def nms (nms_threshold : ℚ) : Nat → List Detection → List Detection
  | 0, _ => []
  | _ + 1, [] => []
  | nms_top_k + 1, d :: rest =>
    d :: nms nms_threshold nms_top_k
      (rest.filter (fun e => decide (¬ d.iou e > nms_threshold)))

/-- Modelled from the spec: the "stable descending sort on confidence; ties
broken by original detection order". -/
def sortByScore (dets : List Detection) : List Detection :=
  dets.insertionSort (fun a b => b.score ≤ a.score)

/-- Modelled from the spec: steps (3) and (4) of the decoding, on the boxes
`dets` that dequantisation and anchor decoding produced: "discard boxes whose
class confidence is below `score_threshold`", then class-wise suppression, class
by class. -/
def Yolo5OutputParser.PostProcess (self : Yolo5OutputParser) (dets : List Detection) :
    List Detection :=
  let survivors := dets.filter (fun d => decide (¬ d.score < self.score_threshold_))
  let classes := (survivors.map (fun d => d.id)).dedup
  (classes.map (fun c =>
    nms self.nms_threshold_ self.nms_top_k_.toNat
      (sortByScore (survivors.filter (fun d => decide (d.id = c)))))).flatten

/-- Three boxes: two of class 0 that overlap almost fully, one of class 1. -/
def threeBoxes : List Detection :=
  [ { x1 := 0, y1 := 0, x2 := 10, y2 := 10, id := 0, score := 9 / 10 },
    { x1 := 1, y1 := 0, x2 := 10, y2 := 10, id := 0, score := 8 / 10 },
    { x1 := 0, y1 := 0, x2 := 10, y2 := 10, id := 1, score := 7 / 10 } ]


/-! ## The cores `TaskInit` hands out -/

/-- How many of the slots `0 .. i-1` are left open by the user: the slots
whose entry of `bpu_core_ids` is `HB_BPU_CORE_ANY`, which is every slot when
`bpu_core_ids` is empty. -/
def unpinnedBelow (bpu_core_ids : List Int) (i : Nat) : Nat :=
  (List.range i).countP (fun j => decide (bpu_core_ids.getD j HB_BPU_CORE_ANY = HB_BPU_CORE_ANY))

/-- Core0 for an even count, Core1 for an odd one. -/
def initialCore (k : Nat) : Int := if k % 2 = 0 then HB_BPU_CORE_0 else HB_BPU_CORE_1

/-- Parameters of a node with four slots, the second one fixed to Core0, the
others left open. -/
def pinnedSecond : DnnNodePara :=
  { task_num := 4,
    bpu_core_ids := [HB_BPU_CORE_ANY, HB_BPU_CORE_0, HB_BPU_CORE_ANY, HB_BPU_CORE_ANY],
    model_task_type := ModelTaskType.ModelInferType }


/-! ## Binary floating point, as `float` and `double` compute -/

/-- A finite binary floating-point number: the value `m * 2 ^ e`, negated when
`neg` is set. -/
structure Fp where
  neg : Bool
  m : Nat
  e : Int
  deriving DecidableEq, Repr

/-- The number a floating-point value stands for. -/
def Fp.toRat (x : Fp) : ℚ := (if x.neg then -1 else 1) * ((x.m : ℚ) * (2 : ℚ) ^ x.e)

/-- The number of binary digits of `n`, counted with at most `fuel` halvings. -/
def bitLength : Nat → Nat → Nat
  | 0, _ => 0
  | fuel + 1, n => if n = 0 then 0 else bitLength fuel (n / 2) + 1

/-- The fraction `num / (den * 2 ^ e)` with the power of two multiplied into
the numerator or the denominator. -/
def Fp.scale (num den : Nat) (e : Int) : Nat × Nat :=
  if 0 ≤ e then (num, den * 2 ^ e.toNat) else (num * 2 ^ (-e).toNat, den)

/-- A floating-point value as a fraction of two naturals (without its sign). -/
def Fp.frac (x : Fp) : Nat × Nat := Fp.scale x.m 1 (-x.e)

/-- The quotient `N / D` rounded to the nearest natural number, to the even one
when it lies half way between two. -/
def Fp.nearest (N D : Nat) : Nat :=
  if 2 * (N % D) > D ∨ (2 * (N % D) = D ∧ N / D % 2 = 1) then N / D + 1 else N / D

/-- The exponent `e` for which `num / den / 2 ^ e` has `p` binary digits before
the point: the estimate from the digit counts of `num` and `den`, or one more
when that leaves `p + 1` digits. -/
def Fp.exponent (p : Nat) (num den : Nat) : Int :=
  let e0 : Int := (bitLength num num : Int) - (bitLength den den : Int) - p
  if (Fp.scale num den e0).1 / (Fp.scale num den e0).2 ≥ 2 ^ p then e0 + 1 else e0

/-- Rounding of the fraction `num / den` to a binary floating-point number with
`p` digits, to nearest and to even on a tie, as IEEE 754 arithmetic does in its
default mode.  The exponent range of the format is not modelled (no overflow, no
subnormal numbers); a zero divisor, which gives no finite number, yields 0 here
and does not occur where the result is used. -/
def Fp.round (p : Nat) (neg : Bool) (num den : Nat) : Fp :=
  if num = 0 ∨ den = 0 then { neg := neg, m := 0, e := 0 }
  else
    let e := Fp.exponent p num den
    let m := Fp.nearest (Fp.scale num den e).1 (Fp.scale num den e).2
    if m = 2 ^ p then { neg := neg, m := 2 ^ (p - 1), e := e + 1 }
    else { neg := neg, m := m, e := e }

/-- The conversion `static_cast<float>(n)` of an integer: rounding to the 24
digits of `float`. -/
def static_cast_float (n : Int) : Fp := Fp.round 24 (decide (n < 0)) n.natAbs 1

/-- The division of two `double` values: the quotient rounded to the 53 digits
of `double`.  A `float` operand is promoted without change of value. -/
def Fp.div (a b : Fp) : Fp :=
  Fp.round 53 (a.neg != b.neg) (a.frac.1 * b.frac.2) (a.frac.2 * b.frac.1)

/-- The conversion of a `double` to `float`, as in the assignment to
`frame_fps`: rounding to 24 digits. -/
def Fp.toFloat (x : Fp) : Fp := Fp.round 24 x.neg x.frac.1 x.frac.2

/-- The literal `1000.0`. -/
def Fp.thousand : Fp := { neg := false, m := 1000, e := 0 }

/-- The magnitude of a floating-point value, without its sign. -/
def Fp.mag (x : Fp) : ℚ := (x.m : ℚ) * (2 : ℚ) ^ x.e


/-! ## `DnnNodeRunTimeFpsStat`: the fps statistic -/

/-- Modelled from the spec: the members of the class `DnnNodeRunTimeFpsStat`,
declared in a header that is not among the sources, as `Update` and `Get` use
them: the start of the current window (`none` is the null pointer; a time point
is kept as its count of nanoseconds), the frames counted in the window (an
`int`, taken without overflow) and the fps value (a `float`). -/
structure DnnNodeRunTimeFpsStat where
  last_frame_tp : Option Int
  frame_count : Int
  frame_fps : Fp
  deriving DecidableEq

/-- The value `frame_fps` is given in `Update`:
`static_cast<float>(frame_count) / (static_cast<float>(interval) / 1000.0)`,
both divisions in `double` (the literal is a `double`), the result stored as
`float`.  For an `int` count of at least 1 and a 64-bit count of milliseconds of
at least 1000 every value on the way is a normal number of its format, so the
exponent range plays no part. -/
def DnnNodeRunTimeFpsStat.fps (frame_count interval : Int) : Fp :=
  Fp.toFloat
    (Fp.div (static_cast_float frame_count) (Fp.div (static_cast_float interval) Fp.thousand))

/-- The readings of `std::chrono::system_clock::now()` during one `Update`, in
nanoseconds and in the order the code takes them: `first` when `last_frame_tp`
is made (taken only while it is null), `now` for `tp_now`, `restart` when a
window is over. -/
structure FpsClock where
  first : Int
  now : Int
  restart : Int
  deriving DecidableEq, Repr

/-- One clock reading for the whole call. -/
def FpsClock.single (now : Int) : FpsClock := { first := now, now := now, restart := now }

/-- The member `DnnNodeRunTimeFpsStat::Update`: the return value and the object
afterwards.  `duration_cast<milliseconds>` rounds toward zero. -/
def DnnNodeRunTimeFpsStat.Update (clk : FpsClock) (self : DnnNodeRunTimeFpsStat) :
    Bool × DnnNodeRunTimeFpsStat :=
  let last_frame_tp : Int :=
    match self.last_frame_tp with
    | some tp => tp
    | none => clk.first
  let tp_now := clk.now
  let frame_count := self.frame_count + 1
  let interval : Int := (tp_now - last_frame_tp).tdiv 1000000
  if interval ≥ 1000 then
    (true, { last_frame_tp := some clk.restart, frame_count := 0,
             frame_fps := DnnNodeRunTimeFpsStat.fps frame_count interval })
  else
    (false, { last_frame_tp := some last_frame_tp, frame_count := frame_count,
              frame_fps := self.frame_fps })

/-- The member `DnnNodeRunTimeFpsStat::Get`. -/
def DnnNodeRunTimeFpsStat.Get (self : DnnNodeRunTimeFpsStat) : Fp := self.frame_fps

/-- The start of the current window as a call at time `now` sees it: the
stored time point, or `now` itself on the first call. -/
def DnnNodeRunTimeFpsStat.windowStart (self : DnnNodeRunTimeFpsStat) (now : Int) : Int :=
  self.last_frame_tp.getD now

/-- The whole milliseconds between the start of the current window and
`now`. -/
def DnnNodeRunTimeFpsStat.elapsed_ms (self : DnnNodeRunTimeFpsStat) (now : Int) : Int :=
  (now - self.windowStart now).tdiv 1000000

/-- A statistic one frame into a window that started at time 0. -/
def oneFrameCounted : DnnNodeRunTimeFpsStat :=
  { last_frame_tp := some 0, frame_count := 1, frame_fps := { neg := false, m := 0, e := 0 } }


/-! ## `InputProducerPlugin`: the producer of the benchmark example -/

/-- Modelled from the spec: the members of the class `InputProducerPlugin`,
declared in `plugin/input_plugin.h`, which is not among the sources, as `Run` and
`Release` use them: the two counters and the limit (integers, taken without
overflow) and the flag `stop_`. -/
structure InputProducerPlugin where
  produced_count_ : Int
  released_count_ : Int
  limit_ : Int
  stop_ : Bool
  deriving DecidableEq, Repr

/-- The predicate of the wait on `cv_` in `Run`. -/
def InputProducerPlugin.Run.ready (self : InputProducerPlugin) : Prop :=
  self.produced_count_ - self.released_count_ < self.limit_

instance (self : InputProducerPlugin) : Decidable (InputProducerPlugin.Run.ready self) :=
  inferInstanceAs (Decidable (self.produced_count_ - self.released_count_ < self.limit_))

/-- One pass of the loop of `InputProducerPlugin::Run` for which
`data_iterator_->Next` hands out an input, from the moment the thread holds `m_`:
`none` while the predicate of the wait is false (the thread stays in the wait
and has written nothing), otherwise the object after `produced_count_++`.  The
input handed to `FeedWorkflow` is outside the model. -/
def InputProducerPlugin.Run.pass (self : InputProducerPlugin) : Option InputProducerPlugin :=
  if InputProducerPlugin.Run.ready self then
    some { self with produced_count_ := self.produced_count_ + 1 }
  else none

/-- The member `InputProducerPlugin::Release`: the return value and the object
afterwards. -/
def InputProducerPlugin.Release (self : InputProducerPlugin) : Int × InputProducerPlugin :=
  (0, { self with released_count_ := self.released_count_ + 1 })

/-- A step of the plugin under its mutex `m_`: a pass of the loop of `Run`, or
a call of `Release`. -/
inductive PluginStep where
  | pass
  | release
  deriving DecidableEq, Repr

/-- The object after a step; a pass that is still waiting leaves it as it
is. -/
def PluginStep.exec (self : InputProducerPlugin) : PluginStep → InputProducerPlugin
  | PluginStep.pass => (InputProducerPlugin.Run.pass self).getD self
  | PluginStep.release => (InputProducerPlugin.Release self).2

/-- The object after a sequence of steps. -/
def InputProducerPlugin.after (self : InputProducerPlugin) : List PluginStep → InputProducerPlugin
  | [] => self
  | s :: rest => InputProducerPlugin.after (s.exec self) rest

/-- The inputs in flight: produced and not yet released. -/
def InputProducerPlugin.inFlight (self : InputProducerPlugin) : Int :=
  self.produced_count_ - self.released_count_

/-- A plugin at its start with a limit of two inputs in flight. -/
def pluginOfTwo : InputProducerPlugin :=
  { produced_count_ := 0, released_count_ := 0, limit_ := 2, stop_ := false }


/-! ## `ALIGNED_2E`: rounding up to a power of two -/

/-- The macro `ALIGNED_2E(w, alignment)` of `image_utils.h`, for an `alignment`
written as an `unsigned` literal: `static_cast<uint32_t>(w)` and every operation
are in 32-bit unsigned arithmetic, `~x` being `2^32 - 1 - x`. -/
def ALIGNED_2E (w alignment : Nat) : Nat :=
  ((w % 2 ^ 32 + (alignment + 2 ^ 32 - 1) % 2 ^ 32) % 2 ^ 32) &&&
    (2 ^ 32 - 1 - (alignment + 2 ^ 32 - 1) % 2 ^ 32)

/-- The macro `ALIGN_4`. -/
def ALIGN_4 (w : Nat) : Nat := ALIGNED_2E w 4

/-- The macro `ALIGN_8`. -/
def ALIGN_8 (w : Nat) : Nat := ALIGNED_2E w 8

/-- The macro `ALIGN_16`. -/
def ALIGN_16 (w : Nat) : Nat := ALIGNED_2E w 16

/-- The macro `ALIGN_64`. -/
def ALIGN_64 (w : Nat) : Nat := ALIGNED_2E w 64


/-! # Theorems -/

/-! ## Facts about the maps -/

namespace TaskMap

theorem mem_keys_insert (m : TaskMap) (k : Int) (v : DnnNodeTask) (k' : Int) :
    k' ∈ keys (insert m k v) ↔ k' = k ∨ k' ∈ keys m := by
  induction m with
  | nil => simp [insert, keys]
  | cons e rest ih =>
    obtain ⟨a, b⟩ := e
    by_cases h : a = k
    · subst h
      simp [insert, keys]
    · simp only [insert, h, if_false, keys, List.map_cons, List.mem_cons] at ih ⊢
      rw [ih]
      tauto

theorem mem_keys_erase (m : TaskMap) (k k' : Int) :
    k' ∈ keys (erase m k) ↔ k' ∈ keys m ∧ k' ≠ k := by
  simp only [keys, erase, List.mem_map, List.mem_filter]
  constructor
  · rintro ⟨e, ⟨he, hk⟩, rfl⟩
    exact ⟨⟨e, he, rfl⟩, by simpa using hk⟩
  · rintro ⟨⟨e, he, rfl⟩, hk⟩
    exact ⟨e, ⟨he, by simpa using hk⟩, rfl⟩

theorem nodup_keys_insert (m : TaskMap) (k : Int) (v : DnnNodeTask)
    (h : (keys m).Nodup) : (keys (insert m k v)).Nodup := by
  induction m with
  | nil => simp [insert, keys]
  | cons e rest ih =>
    obtain ⟨a, b⟩ := e
    have h' : a ∉ keys rest ∧ (keys rest).Nodup := by simpa [keys] using h
    by_cases hk : a = k
    · subst hk
      simpa [insert, keys] using h
    · have hmem : a ∉ keys (insert rest k v) := by
        rw [mem_keys_insert]
        tauto
      have := ih h'.2
      simp only [insert, hk, if_false]
      simpa [keys] using ⟨by simpa [keys] using hmem, by simpa [keys] using this⟩

theorem nodup_keys_erase (m : TaskMap) (k : Int) (h : (keys m).Nodup) :
    (keys (erase m k)).Nodup := by
  unfold keys erase at *
  exact (List.Nodup.sublist (List.Sublist.map _ (List.filter_sublist m)) h)

theorem find_insert (m : TaskMap) (k : Int) (v : DnnNodeTask) (k' : Int) :
    find (insert m k v) k' = if k' = k then some v else find m k' := by
  induction m with
  | nil =>
    by_cases h : k' = k
    · simp [insert, find, h]
    · have : ¬ k = k' := fun e => h e.symm
      simp [insert, find, h, this]
  | cons e rest ih =>
    obtain ⟨a, b⟩ := e
    by_cases hk : a = k
    · subst hk
      by_cases h : k' = a
      · subst h
        simp [insert, find]
      · have : ¬ a = k' := fun e => h e.symm
        simp [insert, find, h, this]
    · simp only [insert, hk, if_false, find]
      by_cases h : a = k'
      · subst h
        simp [hk]
      · simp [h, ih]

theorem find_erase (m : TaskMap) (k k' : Int) :
    find (erase m k) k' = if k' = k then none else find m k' := by
  induction m with
  | nil => simp [erase, find]
  | cons e rest ih =>
    obtain ⟨a, b⟩ := e
    unfold erase at ih ⊢
    by_cases hk : a = k
    · subst hk
      by_cases h : k' = a
      · subst h
        simpa [List.filter, find] using ih
      · have : ¬ a = k' := fun e => h e.symm
        simpa [List.filter, find, h, this] using ih
    · by_cases h : a = k'
      · subst h
        simp [List.filter, find, hk]
      · simp only [List.filter, hk, decide_False, Bool.not_false, find, h, if_false]
        exact ih

theorem find_eq_none_iff (m : TaskMap) (k : Int) : find m k = none ↔ k ∉ keys m := by
  induction m with
  | nil => simp [find, keys]
  | cons e rest ih =>
    obtain ⟨a, b⟩ := e
    by_cases h : a = k
    · subst h
      simp [find, keys]
    · have : ¬ k = a := fun e => h e.symm
      simp only [find, h, if_false, keys, List.map_cons, List.mem_cons, this, false_or] at ih ⊢
      exact ih

theorem mem_keys_iff_find (m : TaskMap) (k : Int) : k ∈ keys m ↔ ∃ v, find m k = some v := by
  rcases hf : find m k with _ | v
  · simp [(find_eq_none_iff m k).1 hf]
  · have : k ∈ keys m := by
      by_contra hc
      rw [(find_eq_none_iff m k).2 hc] at hf
      cases hf
    simp [this]

theorem begin_mem (o : IterOrder) (m : TaskMap) (e : Int × DnnNodeTask)
    (h : begin o m = some e) : e ∈ m := by
  unfold begin at h
  exact List.getElem?_mem h

theorem begin_isSome (o : IterOrder) (m : TaskMap) (h : m ≠ []) : ∃ e, begin o m = some e := by
  have hl : 0 < m.length := List.length_pos.2 h
  have hlt : o m % m.length < m.length := Nat.mod_lt _ hl
  exact ⟨m[o m % m.length], by unfold begin; exact List.getElem?_eq_getElem hlt⟩

theorem find_of_mem (m : TaskMap) (h : (keys m).Nodup) (e : Int × DnnNodeTask)
    (he : e ∈ m) : find m e.1 = some e.2 := by
  induction m with
  | nil => cases he
  | cons x rest ih =>
    obtain ⟨a, b⟩ := x
    have h' : a ∉ keys rest ∧ (keys rest).Nodup := by simpa [keys] using h
    rcases List.mem_cons.1 he with rfl | hr
    · simp [find]
    · have hne : a ≠ e.1 := by
        intro hc
        apply h'.1
        rw [hc]
        exact List.mem_map_of_mem Prod.fst hr
      simp only [find, hne, if_false]
      exact ih h'.2 hr

theorem mem_keys_of_mem (m : TaskMap) (e : Int × DnnNodeTask) (he : e ∈ m) :
    e.1 ∈ keys m := List.mem_map_of_mem Prod.fst he

end TaskMap

/-! ## `TaskInit` sets the invariant up -/

theorem loopAny_keys (task_num : Int) (fuel : Nat) :
    ∀ (idx c : Int) (idle : TaskMap), task_num ≤ idx + fuel →
      ((∀ k : Int, k ∈ (TaskInit.loopAny task_num fuel idx c idle).keys ↔
          k ∈ idle.keys ∨ (idx ≤ k ∧ k < task_num)) ∧
        (idle.keys.Nodup → (TaskInit.loopAny task_num fuel idx c idle).keys.Nodup)) := by
  induction fuel with
  | zero =>
    intro idx c idle h
    simp only [TaskInit.loopAny]
    refine ⟨fun k => ?_, id⟩
    constructor
    · exact fun hk => Or.inl hk
    · rintro (hk | ⟨h1, h2⟩)
      · exact hk
      · exfalso; simp at h; omega
  | succ n ih =>
    intro idx c idle h
    simp only [TaskInit.loopAny]
    by_cases h1 : idx < task_num
    · simp only [h1, if_true]
      by_cases h2 : idx = task_num - 1
      · simp only [h2, if_true]
        refine ⟨fun k => ?_, fun hn => TaskMap.nodup_keys_insert _ _ _ hn⟩
        rw [TaskMap.mem_keys_insert]
        constructor
        · rintro (hk | hk)
          · exact Or.inr ⟨by omega, by omega⟩
          · exact Or.inl hk
        · rintro (hk | ⟨h3, h4⟩)
          · exact Or.inr hk
          · exact Or.inl (by omega)
      · simp only [h2, if_false]
        have hfuel : task_num ≤ idx + 1 + (n : Int) := by push_cast at h; omega
        obtain ⟨ihk, ihn⟩ := ih (idx + 1) (alternateCore c)
          (idle.insert idx { task_id := idx, alloc_tp := 0, bpuCoreId := c }) hfuel
        refine ⟨fun k => ?_, fun hn => ihn (TaskMap.nodup_keys_insert _ _ _ hn)⟩
        rw [ihk, TaskMap.mem_keys_insert]
        constructor
        · rintro ((hk | hk) | ⟨h3, h4⟩)
          · exact Or.inr ⟨by omega, by omega⟩
          · exact Or.inl hk
          · exact Or.inr ⟨by omega, h4⟩
        · rintro (hk | ⟨h3, h4⟩)
          · exact Or.inl (Or.inr hk)
          · by_cases h5 : k = idx
            · exact Or.inl (Or.inl h5)
            · exact Or.inr ⟨by omega, h4⟩
    · simp only [h1, if_false]
      refine ⟨fun k => ?_, id⟩
      constructor
      · exact fun hk => Or.inl hk
      · rintro (hk | ⟨h3, h4⟩)
        · exact hk
        · omega

theorem loopPinned_keys (ids : List Int) (task_num : Int) (fuel : Nat) :
    ∀ (idx c : Int) (idle : TaskMap), task_num ≤ idx + fuel →
      ((∀ k : Int, k ∈ (TaskInit.loopPinned ids task_num fuel idx c idle).keys ↔
          k ∈ idle.keys ∨ (idx ≤ k ∧ k < task_num)) ∧
        (idle.keys.Nodup → (TaskInit.loopPinned ids task_num fuel idx c idle).keys.Nodup)) := by
  induction fuel with
  | zero =>
    intro idx c idle h
    simp only [TaskInit.loopPinned]
    refine ⟨fun k => ?_, id⟩
    constructor
    · exact fun hk => Or.inl hk
    · rintro (hk | ⟨h1, h2⟩)
      · exact hk
      · exfalso; simp at h; omega
  | succ n ih =>
    intro idx c idle h
    simp only [TaskInit.loopPinned]
    have hfuel : task_num ≤ idx + 1 + (n : Int) := by push_cast at h; omega
    by_cases h1 : idx < task_num
    · simp only [h1, if_true]
      by_cases hp : ids.getD idx.toNat HB_BPU_CORE_ANY ≠ HB_BPU_CORE_ANY
      · rw [if_pos hp]
        obtain ⟨ihk, ihn⟩ := ih (idx + 1) c
          (idle.insert idx
            { task_id := idx, alloc_tp := 0, bpuCoreId := ids.getD idx.toNat HB_BPU_CORE_ANY })
          hfuel
        refine ⟨fun k => ?_, fun hn => ihn (TaskMap.nodup_keys_insert _ _ _ hn)⟩
        rw [ihk, TaskMap.mem_keys_insert]
        constructor
        · rintro ((hk | hk) | ⟨h3, h4⟩)
          · exact Or.inr ⟨by omega, by omega⟩
          · exact Or.inl hk
          · exact Or.inr ⟨by omega, h4⟩
        · rintro (hk | ⟨h3, h4⟩)
          · exact Or.inl (Or.inr hk)
          · by_cases h5 : k = idx
            · exact Or.inl (Or.inl h5)
            · exact Or.inr ⟨by omega, h4⟩
      · rw [if_neg hp]
        by_cases h2 : idx = task_num - 1
        · simp only [h2, if_true]
          refine ⟨fun k => ?_, fun hn => TaskMap.nodup_keys_insert _ _ _ hn⟩
          rw [TaskMap.mem_keys_insert]
          constructor
          · rintro (hk | hk)
            · exact Or.inr ⟨by omega, by omega⟩
            · exact Or.inl hk
          · rintro (hk | ⟨h3, h4⟩)
            · exact Or.inr hk
            · exact Or.inl (by omega)
        · simp only [h2, if_false]
          obtain ⟨ihk, ihn⟩ := ih (idx + 1) (alternateCore c)
            (idle.insert idx { task_id := idx, alloc_tp := 0, bpuCoreId := c }) hfuel
          refine ⟨fun k => ?_, fun hn => ihn (TaskMap.nodup_keys_insert _ _ _ hn)⟩
          rw [ihk, TaskMap.mem_keys_insert]
          constructor
          · rintro ((hk | hk) | ⟨h3, h4⟩)
            · exact Or.inr ⟨by omega, by omega⟩
            · exact Or.inl hk
            · exact Or.inr ⟨by omega, h4⟩
          · rintro (hk | ⟨h3, h4⟩)
            · exact Or.inl (Or.inr hk)
            · by_cases h5 : k = idx
              · exact Or.inl (Or.inl h5)
              · exact Or.inr ⟨by omega, h4⟩
    · simp only [h1, if_false]
      refine ⟨fun k => ?_, id⟩
      constructor
      · exact fun hk => Or.inl hk
      · rintro (hk | ⟨h3, h4⟩)
        · exact hk
        · omega

theorem TaskInit_ok_iff (p : DnnNodePara) (self : DnnNodeImpl) (h : (TaskInit p self).1 = 0) :
    1 ≤ p.task_num ∧ (p.bpu_core_ids = [] ∨ (p.bpu_core_ids.length : Int) = p.task_num) := by
  unfold TaskInit at h
  by_cases h1 : p.task_num < 1
  · simp [h1] at h
  · simp only [h1, if_false] at h
    refine ⟨by omega, ?_⟩
    by_cases h2 : p.bpu_core_ids = []
    · exact Or.inl h2
    · right
      by_contra h3
      simp [h2, h3] at h

theorem TaskInit_inv (p : DnnNodePara) (en : Bool) (h : (TaskInit p (DnnNodeImpl.ctor en)).1 = 0) :
    PoolInv p (TaskInit p (DnnNodeImpl.ctor en)).2 := by
  obtain ⟨hpos, hids⟩ := TaskInit_ok_iff p _ h
  have h1 : ¬ p.task_num < 1 := by omega
  have h2 : (!p.bpu_core_ids.isEmpty && decide ((p.bpu_core_ids.length : Int) ≠ p.task_num))
      = false := by
    rcases hids with h | h
    · simp [h]
    · simp [h]
  have hlen : ((resizeTasks ([] : List (Option Task)) p.task_num.toNat).length : Int)
      = p.task_num := by
    simp [resizeTasks]
    omega
  unfold TaskInit
  simp only [h1, if_false, h2, Bool.false_eq_true, DnnNodeImpl.ctor, hlen]
  have hfuel : p.task_num ≤ 0 + ((p.task_num.toNat : Nat) : Int) := by
    simp
  by_cases hc : (p.bpu_core_ids.length : Int) = p.task_num
  · simp only [hc, if_true]
    obtain ⟨hk, hn⟩ := loopPinned_keys p.bpu_core_ids p.task_num p.task_num.toNat 0
      HB_BPU_CORE_0 [] hfuel
    refine ⟨hlen, hn (by simp [TaskMap.keys]), by simp [TaskMap.keys], ?_, ?_⟩
    · intro id _
      simp [TaskMap.keys]
    · intro id
      simp only [hk]
      simp [TaskMap.keys]
  · simp only [hc, if_false]
    obtain ⟨hk, hn⟩ := loopAny_keys p.task_num p.task_num.toNat 0 HB_BPU_CORE_0 [] hfuel
    refine ⟨hlen, hn (by simp [TaskMap.keys]), by simp [TaskMap.keys], ?_, ?_⟩
    · intro id _
      simp [TaskMap.keys]
    · intro id
      simp only [hk]
      simp [TaskMap.keys]

/-! ## Each call keeps the invariant -/

theorem alloc_task_inv (p : DnnNodePara) (o : IterOrder) (now : Nat) (task_id bpu_core_id : Int)
    (self : DnnNodeImpl) (h : PoolInv p self) :
    PoolInv p { self with dnn_rt_para_ :=
      (AllocTask.alloc_task o now task_id bpu_core_id self.dnn_rt_para_).2.2 } := by
  unfold AllocTask.alloc_task
  rcases hb : TaskMap.begin o self.dnn_rt_para_.idle_tasks with _ | e
  · exact h
  · have he : e.1 ∈ self.dnn_rt_para_.idle_tasks.keys :=
      TaskMap.mem_keys_of_mem _ _ (TaskMap.begin_mem _ _ _ hb)
    refine ⟨h.tasks_length, TaskMap.nodup_keys_erase _ _ h.idle_nodup,
      TaskMap.nodup_keys_insert _ _ _ h.running_nodup, ?_, ?_⟩
    · intro id hid
      simp only [TaskMap.mem_keys_erase] at hid
      simp only [TaskMap.mem_keys_insert]
      rintro (hc | hc)
      · exact hid.2 hc
      · exact h.disjoint id hid.1 hc
    · intro id
      simp only [TaskMap.mem_keys_erase, TaskMap.mem_keys_insert]
      rw [← h.cover id]
      constructor
      · rintro (⟨h1, _⟩ | h1 | h1)
        · exact Or.inl h1
        · exact Or.inl (h1 ▸ he)
        · exact Or.inr h1
      · rintro (h1 | h1)
        · by_cases hc : id = e.1
          · exact Or.inr (Or.inl hc)
          · exact Or.inl ⟨h1, hc⟩
        · exact Or.inr (Or.inr h1)

theorem finish_inv (p : DnnNodePara) (t : Target) (task : Task) (task_id bpu_core_id : Int)
    (self : DnnNodeImpl) (h : PoolInv p self) :
    PoolInv p (AllocTask.finish t task task_id bpu_core_id self).2 := by
  unfold AllocTask.finish
  by_cases hc : task_id < 0 ∨ task_id ≥ (self.dnn_rt_para_.tasks.length : Int)
  · rw [if_pos hc]
    exact h
  · rw [if_neg hc]
    exact ⟨by simpa using h.tasks_length, h.idle_nodup, h.running_nodup, h.disjoint, h.cover⟩

theorem AllocTask_inv (t : Target) (p : DnnNodePara) (timeout_ms : Int) (now : Nat) (w : WaitEnd)
    (self : DnnNodeImpl) (r : Int × DnnNodeImpl) (h : PoolInv p self) (hw : PoolInv p w.self)
    (hr : AllocTask t p timeout_ms now w self = some r) : PoolInv p r.2 := by
  unfold AllocTask at hr
  rcases hm : AllocTask.makeTask p with _ | task
  · simp only [hm] at hr
    cases hr
    exact h
  · simp only [hm] at hr
    split_ifs at hr
    · cases hr
      exact finish_inv p t task _ _ _ (alloc_task_inv p t.order now _ _ self h)
    · cases hr
      exact hw
    · cases hr
      exact finish_inv p t task _ _ _ (alloc_task_inv p t.order now _ _ w.self hw)
    · cases hr
      exact finish_inv p t task _ _ _ hw

theorem ReleaseTask_inv (p : DnnNodePara) (self : DnnNodeImpl) (task_id : Int)
    (h : PoolInv p self) : PoolInv p (ReleaseTask p self task_id).2 := by
  unfold ReleaseTask
  by_cases h0 : task_id < 0
  · rw [if_pos h0]
    exact h
  · rw [if_neg h0]
    rcases hf : self.dnn_rt_para_.running_tasks.find task_id with _ | v
    · exact h
    · have hmem : task_id ∈ self.dnn_rt_para_.running_tasks.keys :=
        (TaskMap.mem_keys_iff_find _ _).2 ⟨v, hf⟩
      refine ⟨by simpa using h.tasks_length, TaskMap.nodup_keys_insert _ _ _ h.idle_nodup,
        TaskMap.nodup_keys_erase _ _ h.running_nodup, ?_, ?_⟩
      · intro id hid
        simp only [TaskMap.mem_keys_insert] at hid
        simp only [TaskMap.mem_keys_erase]
        rintro ⟨h1, h2⟩
        rcases hid with hid | hid
        · exact h2 hid
        · exact h.disjoint id hid h1
      · intro id
        simp only [TaskMap.mem_keys_erase, TaskMap.mem_keys_insert]
        rw [← h.cover id]
        constructor
        · rintro ((h1 | h1) | ⟨h1, _⟩)
          · exact Or.inr (h1 ▸ hmem)
          · exact Or.inl h1
          · exact Or.inr h1
        · rintro (h1 | h1)
          · exact Or.inl (Or.inr h1)
          · by_cases hc : id = task_id
            · exact Or.inl (Or.inl hc)
            · exact Or.inr ⟨h1, hc⟩

theorem exec_inv (t : Target) (p : DnnNodePara) (self : DnnNodeImpl) (c : Call)
    (h : PoolInv p self) : PoolInv p (c.exec t p self).2 := by
  cases c with
  | alloc timeout_ms now ok =>
    simp only [Call.exec]
    rcases hr : AllocTask t p timeout_ms now { ok := ok, self := self } self with _ | r
    · exact h
    · exact AllocTask_inv t p timeout_ms now _ self r h h hr
  | release task_id => exact ReleaseTask_inv p self task_id h

theorem run_inv (t : Target) (p : DnnNodePara) (calls : List Call) :
    ∀ self : DnnNodeImpl, PoolInv p self → PoolInv p (run t p self calls) := by
  induction calls with
  | nil => exact fun _ h => h
  | cons c cs ih => exact fun self h => ih _ (exec_inv t p self c h)

theorem reachable_inv (t : Target) (p : DnnNodePara) (self : DnnNodeImpl)
    (h : Reachable t p self) : PoolInv p self := by
  obtain ⟨en, calls, h0, rfl⟩ := h
  exact run_inv t p calls _ (TaskInit_inv p en h0)

theorem running_length_le (p : DnnNodePara) (self : DnnNodeImpl) (h : PoolInv p self) :
    (self.dnn_rt_para_.running_tasks.length : Int) ≤ p.task_num := by
  have hsub : ∀ k ∈ self.dnn_rt_para_.running_tasks.keys, k ∈ Finset.Ico (0 : Int) p.task_num := by
    intro k hk
    have := (h.cover k).1 (Or.inr hk)
    simpa using this
  have hcard : (self.dnn_rt_para_.running_tasks.keys.toFinset).card
      ≤ (Finset.Ico (0 : Int) p.task_num).card :=
    Finset.card_le_card (fun k hk => hsub k (List.mem_toFinset.1 hk))
  rw [List.toFinset_card_of_nodup h.running_nodup] at hcard
  have hlen : self.dnn_rt_para_.running_tasks.keys.length
      = self.dnn_rt_para_.running_tasks.length := by simp [TaskMap.keys]
  rw [hlen, Int.card_Ico] at hcard
  have hpos := h.tasks_length
  omega

/-! ## The claims about the pool -/

/-- C1: in every state reached from a successful `TaskInit` by a sequence of
`AllocTask` and `ReleaseTask` calls, no id is a key of both `idle_tasks` and
`running_tasks`, an id is a key of one of them exactly when it is one of
`0 .. task_num-1`, and `running_tasks` holds at most `task_num` slots. -/
theorem C1_idle_running_partition (t : Target) (p : DnnNodePara) (en : Bool)
    (calls : List Call) (h : (TaskInit p (DnnNodeImpl.ctor en)).1 = 0) :
    (∀ id : Int,
      ¬ (id ∈ (run t p (TaskInit p (DnnNodeImpl.ctor en)).2 calls).dnn_rt_para_.idle_tasks.keys ∧
         id ∈ (run t p (TaskInit p (DnnNodeImpl.ctor en)).2 calls).dnn_rt_para_.running_tasks.keys)) ∧
    (∀ id : Int,
      (id ∈ (run t p (TaskInit p (DnnNodeImpl.ctor en)).2 calls).dnn_rt_para_.idle_tasks.keys ∨
       id ∈ (run t p (TaskInit p (DnnNodeImpl.ctor en)).2 calls).dnn_rt_para_.running_tasks.keys) ↔
      (0 ≤ id ∧ id < p.task_num)) ∧
    ((run t p (TaskInit p (DnnNodeImpl.ctor en)).2 calls).dnn_rt_para_.running_tasks.length : Int)
      ≤ p.task_num := by
  have hinv := run_inv t p calls _ (TaskInit_inv p en h)
  exact ⟨fun id hid => hinv.disjoint id hid.1 hid.2, hinv.cover, running_length_le p _ hinv⟩

/-- C1 at a concrete input: two slots, one allocated and one idle. -/
theorem C1_idle_running_partition_witness :
    (TaskInit twoSlots (DnnNodeImpl.ctor true)).1 = 0 ∧
    (∀ id : Int,
      ¬ (id ∈ (run plainTarget twoSlots (TaskInit twoSlots (DnnNodeImpl.ctor true)).2
            [Call.alloc 0 7 true]).dnn_rt_para_.idle_tasks.keys ∧
         id ∈ (run plainTarget twoSlots (TaskInit twoSlots (DnnNodeImpl.ctor true)).2
            [Call.alloc 0 7 true]).dnn_rt_para_.running_tasks.keys)) ∧
    ((run plainTarget twoSlots (TaskInit twoSlots (DnnNodeImpl.ctor true)).2
        [Call.alloc 0 7 true]).dnn_rt_para_.running_tasks.length : Int) ≤ twoSlots.task_num :=
  ⟨by decide,
   (C1_idle_running_partition plainTarget twoSlots true [Call.alloc 0 7 true] (by decide)).1,
   (C1_idle_running_partition plainTarget twoSlots true [Call.alloc 0 7 true] (by decide)).2.2⟩

theorem makeTask_isSome (p : DnnNodePara) (h : p.model_task_type ≠ ModelTaskType.InvalidType) :
    ∃ task, AllocTask.makeTask p = some task := by
  unfold AllocTask.makeTask
  cases hk : p.model_task_type
  · exact absurd hk h
  · exact ⟨_, rfl⟩
  · exact ⟨_, rfl⟩

theorem alloc_task_some (o : IterOrder) (now : Nat) (task_id bpu_core_id : Int)
    (rt : DnnNodeRunTimePara) (e : Int × DnnNodeTask) (h : TaskMap.begin o rt.idle_tasks = some e) :
    AllocTask.alloc_task o now task_id bpu_core_id rt =
      (e.1, e.2.bpuCoreId,
        { rt with running_tasks := rt.running_tasks.insert e.1 { e.2 with alloc_tp := now },
                  idle_tasks := rt.idle_tasks.erase e.1 }) := by
  unfold AllocTask.alloc_task
  rw [h]

theorem isEmpty_false_of_ne_nil (m : TaskMap) (h : m ≠ []) : m.isEmpty = false := by
  cases m with
  | nil => exact absurd rfl h
  | cons _ _ => rfl

theorem slotCore_congr (a b : DnnNodeImpl) (id : Int)
    (h1 : a.dnn_rt_para_.idle_tasks.find id = b.dnn_rt_para_.idle_tasks.find id)
    (h2 : a.dnn_rt_para_.running_tasks.find id = b.dnn_rt_para_.running_tasks.find id) :
    slotCore a id = slotCore b id := by
  unfold slotCore
  rw [h1, h2]

/-- What `AllocTask` does on a pool with an idle slot whose first id is a
valid index of `tasks`. -/
theorem AllocTask_of_begin (t : Target) (p : DnnNodePara) (timeout_ms : Int) (now : Nat)
    (w : WaitEnd) (self : DnnNodeImpl) (task : Task) (e : Int × DnnNodeTask)
    (hm : AllocTask.makeTask p = some task)
    (hb : TaskMap.begin t.order self.dnn_rt_para_.idle_tasks = some e)
    (h0 : 0 ≤ e.1) (h1 : e.1 < (self.dnn_rt_para_.tasks.length : Int)) :
    AllocTask t p timeout_ms now w self = some (e.1,
      { dnn_rt_para_ :=
          { tasks := self.dnn_rt_para_.tasks.set e.1.toNat
              (some (if (if t.PLATFORM_X5 then false else self.en_set_task_para_) = true then
                { task with ctrl_param := some { bpuCoreId := e.2.bpuCoreId } } else task)),
            idle_tasks := self.dnn_rt_para_.idle_tasks.erase e.1,
            running_tasks := self.dnn_rt_para_.running_tasks.insert e.1
              { e.2 with alloc_tp := now } },
        en_set_task_para_ := if t.PLATFORM_X5 then false else self.en_set_task_para_ }) := by
  have hne : self.dnn_rt_para_.idle_tasks ≠ [] := by
    intro hc
    rw [hc] at hb
    simp [TaskMap.begin] at hb
  have hrange : ¬ (e.1 < 0 ∨ e.1 ≥ (self.dnn_rt_para_.tasks.length : Int)) := by omega
  unfold AllocTask
  simp only [hm, isEmpty_false_of_ne_nil _ hne, Bool.not_false, if_true,
    alloc_task_some _ _ _ _ _ e hb, AllocTask.finish, hrange, if_false,
    HB_DNN_INITIALIZE_INFER_CTRL_PARAM]

/-- C4: in a reachable state with a non-empty `idle_tasks` and a valid model
task type, `AllocTask` returns the id of the entry `begin()` yields; afterwards
that id is a key of `running_tasks` and not of `idle_tasks`, its slot keeps its
bound core, `tasks` holds a task for it, and for every other id the membership
in both maps and the bound core are as before. -/
theorem C4_alloc_takes_first_idle (t : Target) (p : DnnNodePara) (timeout_ms : Int) (now : Nat)
    (w : WaitEnd) (self : DnnNodeImpl) (hreach : Reachable t p self)
    (hty : p.model_task_type ≠ ModelTaskType.InvalidType)
    (hne : self.dnn_rt_para_.idle_tasks ≠ []) :
    ∃ (e : Int × DnnNodeTask) (self' : DnnNodeImpl),
      TaskMap.begin t.order self.dnn_rt_para_.idle_tasks = some e ∧
      AllocTask t p timeout_ms now w self = some (e.1, self') ∧
      e.1 ∈ self'.dnn_rt_para_.running_tasks.keys ∧
      e.1 ∉ self'.dnn_rt_para_.idle_tasks.keys ∧
      slotCore self' e.1 = some e.2.bpuCoreId ∧
      (∃ task, GetTask self' e.1 = some task) ∧
      (∀ id : Int, id ≠ e.1 →
        (id ∈ self'.dnn_rt_para_.idle_tasks.keys ↔ id ∈ self.dnn_rt_para_.idle_tasks.keys) ∧
        (id ∈ self'.dnn_rt_para_.running_tasks.keys ↔
          id ∈ self.dnn_rt_para_.running_tasks.keys) ∧
        slotCore self' id = slotCore self id) := by
  have hinv := reachable_inv t p self hreach
  obtain ⟨task, hm⟩ := makeTask_isSome p hty
  obtain ⟨e, hb⟩ := TaskMap.begin_isSome t.order _ hne
  have hmem : e.1 ∈ self.dnn_rt_para_.idle_tasks.keys :=
    TaskMap.mem_keys_of_mem _ _ (TaskMap.begin_mem _ _ _ hb)
  have hrange := (hinv.cover e.1).1 (Or.inl hmem)
  have hlen := hinv.tasks_length
  have h1 : e.1 < (self.dnn_rt_para_.tasks.length : Int) := by omega
  have hlt : e.1.toNat < self.dnn_rt_para_.tasks.length := by omega
  refine ⟨e, _, hb, AllocTask_of_begin t p timeout_ms now w self task e hm hb hrange.1 h1,
    ?_, ?_, ?_, ?_, ?_⟩
  · simp [TaskMap.mem_keys_insert]
  · simp [TaskMap.mem_keys_erase]
  · simp [slotCore, TaskMap.find_erase, TaskMap.find_insert]
  · have hno : ¬ (e.1 < 0 ∨ e.1 ≥ (self.dnn_rt_para_.tasks.length : Int)) := by omega
    simp [GetTask, hno, hlt]
  · intro id hid
    refine ⟨?_, ?_, ?_⟩
    · simp [TaskMap.mem_keys_erase, hid]
    · simp [TaskMap.mem_keys_insert, hid]
    · apply slotCore_congr
      · simp [TaskMap.find_erase, hid]
      · simp [TaskMap.find_insert, hid]

/-- C4 at a concrete input: the first allocation on the two-slot node. -/
theorem C4_alloc_takes_first_idle_witness :
    ∃ (e : Int × DnnNodeTask) (self' : DnnNodeImpl),
      TaskMap.begin plainTarget.order twoSlotsInit.dnn_rt_para_.idle_tasks = some e ∧
      AllocTask plainTarget twoSlots 0 7 { ok := true, self := twoSlotsInit } twoSlotsInit
        = some (e.1, self') ∧
      e.1 ∈ self'.dnn_rt_para_.running_tasks.keys ∧
      e.1 ∉ self'.dnn_rt_para_.idle_tasks.keys ∧
      slotCore self' e.1 = some e.2.bpuCoreId ∧
      (∃ task, GetTask self' e.1 = some task) ∧
      (∀ id : Int, id ≠ e.1 →
        (id ∈ self'.dnn_rt_para_.idle_tasks.keys ↔
          id ∈ twoSlotsInit.dnn_rt_para_.idle_tasks.keys) ∧
        (id ∈ self'.dnn_rt_para_.running_tasks.keys ↔
          id ∈ twoSlotsInit.dnn_rt_para_.running_tasks.keys) ∧
        slotCore self' id = slotCore twoSlotsInit id) :=
  C4_alloc_takes_first_idle plainTarget twoSlots 0 7 { ok := true, self := twoSlotsInit }
    twoSlotsInit ⟨true, [], by decide, rfl⟩ (by decide) (by decide)

theorem isEmpty_of_eq_nil (m : TaskMap) (h : m = []) : m.isEmpty = true := by
  rw [h]
  rfl

/-- The failing return of `AllocTask`: no idle slot at the call, and the wait over
by timeout without an idle slot or with `rclcpp::ok()` false. -/
theorem AllocTask_no_idle (t : Target) (p : DnnNodePara) (timeout_ms : Int)
    (now : Nat) (w : WaitEnd) (self : DnnNodeImpl)
    (hidle : self.dnn_rt_para_.idle_tasks = [])
    (hend : (0 < timeout_ms ∧ w.self.dnn_rt_para_.idle_tasks = []) ∨ w.ok = false) :
    AllocTask t p timeout_ms now w self =
      some (-1, if p.model_task_type = ModelTaskType.InvalidType then self else w.self) := by
  unfold AllocTask
  cases hk : p.model_task_type
  · simp [AllocTask.makeTask, hk]
  all_goals
    simp only [AllocTask.makeTask, hk, isEmpty_of_eq_nil _ hidle, Bool.not_true,
      Bool.false_eq_true, if_false, reduceCtorEq]
    rcases hend with ⟨hto, hw⟩ | hok
    · have h1 : ¬ (timeout_ms ≤ 0 ∧ w.self.dnn_rt_para_.idle_tasks.isEmpty = true ∧ w.ok = true) := by
        omega
      rw [if_neg h1]
      by_cases hok : w.ok = true
      · simp [hok, isEmpty_of_eq_nil _ hw, AllocTask.finish]
      · simp [hok]
    · simp [hok]

theorem twoSlots_idle (en : Bool) :
    (TaskInit twoSlots (DnnNodeImpl.ctor en)).2 =
      { dnn_rt_para_ :=
          { tasks := [none, none],
            idle_tasks := [(0, { task_id := 0, alloc_tp := 0, bpuCoreId := HB_BPU_CORE_0 }),
                           (1, { task_id := 1, alloc_tp := 0, bpuCoreId := HB_BPU_CORE_1 })],
            running_tasks := [] },
        en_set_task_para_ := en } := by
  cases en <;> rfl

theorem third_alloc (t : Target) (en : Bool) (to1 to2 to3 : Int) (n1 n2 n3 : Nat)
    (ok1 ok2 ok3 : Bool) (h3 : 0 < to3) :
    ∃ a b : Int, a ≠ b ∧ 0 ≤ a ∧ 0 ≤ b ∧
      results t twoSlots (TaskInit twoSlots (DnnNodeImpl.ctor en)).2
        [Call.alloc to1 n1 ok1, Call.alloc to2 n2 ok2, Call.alloc to3 n3 ok3]
      = [some a, some b, some (-1)] := by
  rw [twoSlots_idle]
  have h3' : ¬ to3 ≤ 0 := by omega
  rcases Nat.mod_two_eq_zero_or_one
    (t.order [(0, { task_id := 0, alloc_tp := 0, bpuCoreId := HB_BPU_CORE_0 }),
              (1, { task_id := 1, alloc_tp := 0, bpuCoreId := HB_BPU_CORE_1 })]) with h | h
  · refine ⟨0, 1, by decide, by decide, by decide, ?_⟩
    simp [results, Call.exec, AllocTask, AllocTask.makeTask, twoSlots, AllocTask.alloc_task,
      TaskMap.begin, h, AllocTask.finish, TaskMap.erase, TaskMap.insert, Nat.mod_one, h3']
  · refine ⟨1, 0, by decide, by decide, by decide, ?_⟩
    simp [results, Call.exec, AllocTask, AllocTask.makeTask, twoSlots, AllocTask.alloc_task,
      TaskMap.begin, h, AllocTask.finish, TaskMap.erase, TaskMap.insert, Nat.mod_one, h3']

/-- C5: when `idle_tasks` is empty as `AllocTask` is called and the wait ends
by timeout with `idle_tasks` still empty, or with `rclcpp::ok()` false,
`AllocTask` returns -1 and the object it leaves is the one found at the end of
the wait: `AllocTask` itself wrote nothing to `idle_tasks`, `running_tasks` or
`tasks` (for a model task type that is neither of the two it returns -1 before
it waits).  And on a node with two slots a third allocation with a timeout,
made before any release, returns -1 after two allocations that returned two
different ids, whatever the iteration order. -/
theorem C5_alloc_timeout_or_shutdown (t : Target) (p : DnnNodePara) (timeout_ms : Int)
    (now : Nat) (w : WaitEnd) (self : DnnNodeImpl)
    (hidle : self.dnn_rt_para_.idle_tasks = [])
    (hend : (0 < timeout_ms ∧ w.self.dnn_rt_para_.idle_tasks = []) ∨ w.ok = false) :
    AllocTask t p timeout_ms now w self =
      some (-1, if p.model_task_type = ModelTaskType.InvalidType then self else w.self) ∧
    (∀ (en : Bool) (to1 to2 to3 : Int) (n1 n2 n3 : Nat) (ok1 ok2 ok3 : Bool), 0 < to3 →
      ∃ a b : Int, a ≠ b ∧ 0 ≤ a ∧ 0 ≤ b ∧
        results t twoSlots (TaskInit twoSlots (DnnNodeImpl.ctor en)).2
          [Call.alloc to1 n1 ok1, Call.alloc to2 n2 ok2, Call.alloc to3 n3 ok3]
        = [some a, some b, some (-1)]) :=
  ⟨AllocTask_no_idle t p timeout_ms now w self hidle hend,
   fun en to1 to2 to3 n1 n2 n3 ok1 ok2 ok3 h3 =>
     third_alloc t en to1 to2 to3 n1 n2 n3 ok1 ok2 ok3 h3⟩

/-- The two-slot node with both slots allocated. -/
theorem twoSlotsBusy_idle :
    (run plainTarget twoSlots twoSlotsInit
      [Call.alloc 0 5 true, Call.alloc 0 6 true]).dnn_rt_para_.idle_tasks = [] := by
  decide

/-- C5 at a concrete input: both slots of the two-slot node are allocated and
the wait of a third `AllocTask(100)` times out on the same pool. -/
theorem C5_alloc_timeout_or_shutdown_witness :
    AllocTask plainTarget twoSlots 100 7
        { ok := true,
          self := run plainTarget twoSlots twoSlotsInit [Call.alloc 0 5 true, Call.alloc 0 6 true] }
        (run plainTarget twoSlots twoSlotsInit [Call.alloc 0 5 true, Call.alloc 0 6 true])
      = some (-1, run plainTarget twoSlots twoSlotsInit [Call.alloc 0 5 true, Call.alloc 0 6 true]) :=
  (C5_alloc_timeout_or_shutdown plainTarget twoSlots 100 7
    { ok := true,
      self := run plainTarget twoSlots twoSlotsInit [Call.alloc 0 5 true, Call.alloc 0 6 true] }
    (run plainTarget twoSlots twoSlotsInit [Call.alloc 0 5 true, Call.alloc 0 6 true])
    twoSlotsBusy_idle (Or.inl ⟨by decide, twoSlotsBusy_idle⟩)).1

/-- C6: `ReleaseTask(id)` returns -1 and leaves the object as it was when `id` is
negative or is not a key of `running_tasks`; in a reachable state this covers
every id that is a key of `idle_tasks` (a second release of the same id). -/
theorem C6_release_not_running (t : Target) (p : DnnNodePara) (self : DnnNodeImpl)
    (task_id : Int)
    (h : task_id < 0 ∨ task_id ∉ self.dnn_rt_para_.running_tasks.keys ∨
      (Reachable t p self ∧ task_id ∈ self.dnn_rt_para_.idle_tasks.keys)) :
    ReleaseTask p self task_id = (-1, self) := by
  have hnot : task_id < 0 ∨ task_id ∉ self.dnn_rt_para_.running_tasks.keys := by
    rcases h with h | h | ⟨hr, hi⟩
    · exact Or.inl h
    · exact Or.inr h
    · exact Or.inr ((reachable_inv t p self hr).disjoint task_id hi)
  unfold ReleaseTask
  rcases hnot with h0 | hk
  · rw [if_pos h0]
  · by_cases h0 : task_id < 0
    · rw [if_pos h0]
    · rw [if_neg h0, (TaskMap.find_eq_none_iff _ _).2 hk]

/-- C6 at a concrete input: slot 0 of the two-slot node is allocated and
released, and is released once more while it is idle. -/
theorem C6_release_not_running_witness :
    ReleaseTask twoSlots
        (run plainTarget twoSlots twoSlotsInit [Call.alloc 0 5 true, Call.release 0]) 0
      = (-1, run plainTarget twoSlots twoSlotsInit [Call.alloc 0 5 true, Call.release 0]) :=
  C6_release_not_running plainTarget twoSlots
    (run plainTarget twoSlots twoSlotsInit [Call.alloc 0 5 true, Call.release 0]) 0
    (Or.inr (Or.inr ⟨⟨true, [Call.alloc 0 5 true, Call.release 0], by decide, rfl⟩, by decide⟩))

theorem getTask_set_none (i : Int) (tasks : List (Option Task))
    (idle running : TaskMap) (en : Bool) (h0 : 0 ≤ i) (h : i < (tasks.length : Int)) :
    GetTask { dnn_rt_para_ := { tasks := tasks.set i.toNat none, idle_tasks := idle,
                                 running_tasks := running },
              en_set_task_para_ := en } i = none := by
  have hlt : i.toNat < tasks.length := by omega
  simp [GetTask, hlt]

theorem ReleaseTask_of_running (p : DnnNodePara) (self : DnnNodeImpl) (task_id : Int)
    (last : DnnNodeTask) (h0 : 0 ≤ task_id)
    (hlast : self.dnn_rt_para_.running_tasks.find task_id = some last) :
    ReleaseTask p self task_id = (0,
      { dnn_rt_para_ :=
          { idle_tasks := self.dnn_rt_para_.idle_tasks.insert task_id
              { task_id := task_id, alloc_tp := 0,
                bpuCoreId :=
                  if (p.bpu_core_ids.length : Int) = p.task_num ∧ task_id < p.task_num ∧
                      p.bpu_core_ids.getD task_id.toNat HB_BPU_CORE_ANY ≠ HB_BPU_CORE_ANY then
                    last.bpuCoreId
                  else alternateCore last.bpuCoreId },
            running_tasks := self.dnn_rt_para_.running_tasks.erase task_id,
            tasks := self.dnn_rt_para_.tasks.set task_id.toNat none },
        en_set_task_para_ := self.en_set_task_para_ }) := by
  have h0' : ¬ task_id < 0 := by omega
  unfold ReleaseTask
  rw [if_neg h0', hlast]

/-- C7: in a reachable state `ReleaseTask(id)` for a key `id` of
`running_tasks` returns 0; afterwards `id` is a key of `idle_tasks` and not of
`running_tasks`, `tasks[id]` is null, and for every other id both maps hold what
they held and `tasks` holds the task it held.  The core stored for the slot is
the one it was bound to when the slot is pinned, and otherwise Core1 if that
was Core0, Core0 if it was Core1, and Core0 for any other value. -/
theorem C7_release_running (t : Target) (p : DnnNodePara) (self : DnnNodeImpl) (task_id : Int)
    (hreach : Reachable t p self)
    (hrun : task_id ∈ self.dnn_rt_para_.running_tasks.keys) :
    ∃ (last : DnnNodeTask) (self' : DnnNodeImpl),
      self.dnn_rt_para_.running_tasks.find task_id = some last ∧
      ReleaseTask p self task_id = (0, self') ∧
      task_id ∉ self'.dnn_rt_para_.running_tasks.keys ∧
      task_id ∈ self'.dnn_rt_para_.idle_tasks.keys ∧
      GetTask self' task_id = none ∧
      self'.en_set_task_para_ = self.en_set_task_para_ ∧
      (∀ id : Int, id ≠ task_id →
        self'.dnn_rt_para_.idle_tasks.find id = self.dnn_rt_para_.idle_tasks.find id ∧
        self'.dnn_rt_para_.running_tasks.find id = self.dnn_rt_para_.running_tasks.find id ∧
        GetTask self' id = GetTask self id) ∧
      (Pinned p task_id → slotCore self' task_id = some last.bpuCoreId) ∧
      (¬ Pinned p task_id →
        slotCore self' task_id = some
          (if last.bpuCoreId = HB_BPU_CORE_0 then HB_BPU_CORE_1
           else if last.bpuCoreId = HB_BPU_CORE_1 then HB_BPU_CORE_0
           else HB_BPU_CORE_0)) := by
  have hinv := reachable_inv t p self hreach
  obtain ⟨last, hlast⟩ := (TaskMap.mem_keys_iff_find _ _).1 hrun
  have hrange := (hinv.cover task_id).1 (Or.inr hrun)
  have hlen := hinv.tasks_length
  have h0 : ¬ task_id < 0 := by omega
  have hlt : task_id < (self.dnn_rt_para_.tasks.length : Int) := by omega
  refine ⟨last, _, hlast, ReleaseTask_of_running p self task_id last hrange.1 hlast,
    ?_, ?_, ?_, ?_, ?_, ?_, ?_⟩
  · simp [TaskMap.mem_keys_erase]
  · simp [TaskMap.mem_keys_insert]
  · exact getTask_set_none task_id _ _ _ _ hrange.1 hlt
  · rfl
  · intro id hid
    refine ⟨by simp [TaskMap.find_insert, hid], by simp [TaskMap.find_erase, hid], ?_⟩
    unfold GetTask
    simp only [List.length_set]
    by_cases hr : id < 0 ∨ id ≥ (self.dnn_rt_para_.tasks.length : Int)
    · rw [if_pos hr, if_pos hr]
    · rw [if_neg hr, if_neg hr]
      have hne : task_id.toNat ≠ id.toNat := by omega
      simp [List.getElem?_set_ne hne]
  · intro hp
    have hp' : (p.bpu_core_ids.length : Int) = p.task_num ∧ task_id < p.task_num ∧
        p.bpu_core_ids.getD task_id.toNat HB_BPU_CORE_ANY ≠ HB_BPU_CORE_ANY := hp
    simp only [slotCore, TaskMap.find_insert, if_true]
    rw [if_pos hp']
  · intro hp
    have hp' : ¬ ((p.bpu_core_ids.length : Int) = p.task_num ∧ task_id < p.task_num ∧
        p.bpu_core_ids.getD task_id.toNat HB_BPU_CORE_ANY ≠ HB_BPU_CORE_ANY) := hp
    simp only [slotCore, TaskMap.find_insert, if_true]
    rw [if_neg hp']
    unfold alternateCore
    by_cases h1 : last.bpuCoreId = HB_BPU_CORE_0
    · simp [h1]
    · have h1' : ¬ HB_BPU_CORE_0 = last.bpuCoreId := fun e => h1 e.symm
      by_cases h2 : last.bpuCoreId = HB_BPU_CORE_1
      · rw [h2]
        decide
      · have h2' : ¬ HB_BPU_CORE_1 = last.bpuCoreId := fun e => h2 e.symm
        simp [h1, h1', h2, h2']

/-- C7 at a concrete input: slot 0 of the two-slot node, allocated and then
released. -/
theorem C7_release_running_witness :
    ∃ (last : DnnNodeTask) (self' : DnnNodeImpl),
      (run plainTarget twoSlots twoSlotsInit
        [Call.alloc 0 5 true]).dnn_rt_para_.running_tasks.find 0 = some last ∧
      ReleaseTask twoSlots (run plainTarget twoSlots twoSlotsInit [Call.alloc 0 5 true]) 0
        = (0, self') ∧
      (0 : Int) ∉ self'.dnn_rt_para_.running_tasks.keys ∧
      (0 : Int) ∈ self'.dnn_rt_para_.idle_tasks.keys ∧
      GetTask self' 0 = none :=
  match C7_release_running plainTarget twoSlots
      (run plainTarget twoSlots twoSlotsInit [Call.alloc 0 5 true]) 0
      ⟨true, [Call.alloc 0 5 true], by decide, rfl⟩ (by decide) with
  | ⟨last, self', h1, h2, h3, h4, h5, _⟩ => ⟨last, self', h1, h2, h3, h4, h5⟩

/-! ## One owner per slot -/

theorem finish_fst (t : Target) (task : Task) (tid core : Int) (s : DnnNodeImpl) :
    (AllocTask.finish t task tid core s).1 =
      if tid < 0 ∨ tid ≥ (s.dnn_rt_para_.tasks.length : Int) then -1 else tid := by
  unfold AllocTask.finish
  split_ifs <;> rfl

theorem finish_running (t : Target) (task : Task) (tid core : Int) (s : DnnNodeImpl) :
    (AllocTask.finish t task tid core s).2.dnn_rt_para_.running_tasks
      = s.dnn_rt_para_.running_tasks := by
  unfold AllocTask.finish
  split_ifs <;> rfl

theorem finish_valid (t : Target) (task : Task) (tid core : Int) (s : DnnNodeImpl)
    (h : 0 ≤ (AllocTask.finish t task tid core s).1) :
    (AllocTask.finish t task tid core s).1 = tid := by
  rw [finish_fst] at h ⊢
  split_ifs at h ⊢ with hc
  · simp at h
  · rfl

/-- An `AllocTask` that returns a valid id took an idle slot: the id was a key
of `idle_tasks` of the pool it ran on, and is a key of `running_tasks`
afterwards. -/
theorem AllocTask_valid (t : Target) (p : DnnNodePara) (timeout_ms : Int) (now : Nat)
    (ok : Bool) (self : DnnNodeImpl) (r : Int × DnnNodeImpl)
    (hr : AllocTask t p timeout_ms now { ok := ok, self := self } self = some r)
    (hid : 0 ≤ r.1) :
    r.1 ∈ self.dnn_rt_para_.idle_tasks.keys ∧ r.1 ∈ r.2.dnn_rt_para_.running_tasks.keys := by
  unfold AllocTask at hr
  rcases hm : AllocTask.makeTask p with _ | task
  · simp only [hm] at hr
    cases hr
    simp at hid
  · simp only [hm] at hr
    have key : ∀ (core : Int),
        AllocTask.finish t task
            (AllocTask.alloc_task t.order now (-1) core self.dnn_rt_para_).1
            (AllocTask.alloc_task t.order now (-1) core self.dnn_rt_para_).2.1
            { self with dnn_rt_para_ :=
                (AllocTask.alloc_task t.order now (-1) core self.dnn_rt_para_).2.2 } = r →
        r.1 ∈ self.dnn_rt_para_.idle_tasks.keys ∧ r.1 ∈ r.2.dnn_rt_para_.running_tasks.keys := by
      intro core hfin
      rw [← hfin] at hid ⊢
      rw [finish_valid _ _ _ _ _ hid, finish_running]
      have hv := finish_valid _ _ _ _ _ hid
      rw [hv] at hid
      unfold AllocTask.alloc_task at hid ⊢
      rcases hb : TaskMap.begin t.order self.dnn_rt_para_.idle_tasks with _ | e
      · rw [hb] at hid
        simp at hid
      · refine ⟨TaskMap.mem_keys_of_mem _ _ (TaskMap.begin_mem _ _ _ hb), ?_⟩
        simp [TaskMap.mem_keys_insert]
    have key2 : AllocTask.finish t task (-1) HB_BPU_CORE_0 self = r →
        r.1 ∈ self.dnn_rt_para_.idle_tasks.keys ∧ r.1 ∈ r.2.dnn_rt_para_.running_tasks.keys := by
      intro hfin
      rw [← hfin] at hid
      have hv := finish_valid _ _ _ _ _ hid
      rw [hv] at hid
      simp at hid
    split_ifs at hr
    all_goals
      first
        | exact key _ (Option.some.inj hr)
        | exact key2 (Option.some.inj hr)

/-- An `AllocTask` keeps every key of `running_tasks`. -/
theorem AllocTask_running_mono (t : Target) (p : DnnNodePara) (timeout_ms : Int) (now : Nat)
    (ok : Bool) (self : DnnNodeImpl) (r : Int × DnnNodeImpl)
    (hr : AllocTask t p timeout_ms now { ok := ok, self := self } self = some r) (k : Int)
    (hk : k ∈ self.dnn_rt_para_.running_tasks.keys) :
    k ∈ r.2.dnn_rt_para_.running_tasks.keys := by
  have hfin := finish_running t
  have hal : ∀ (tid core : Int),
      k ∈ (AllocTask.alloc_task t.order now tid core self.dnn_rt_para_).2.2.running_tasks.keys := by
    intro tid core
    unfold AllocTask.alloc_task
    rcases hb : TaskMap.begin t.order self.dnn_rt_para_.idle_tasks with _ | e
    · exact hk
    · simp only [TaskMap.mem_keys_insert]
      exact Or.inr hk
  unfold AllocTask at hr
  rcases hm : AllocTask.makeTask p with _ | task
  · simp only [hm] at hr
    cases hr
    exact hk
  · simp only [hm] at hr
    split_ifs at hr
    all_goals
      first
        | (cases hr; exact hk)
        | (rw [← Option.some.inj hr, hfin]; exact hal _ _)

/-- A slot stays in `running_tasks` as long as no `ReleaseTask` of its id
returns 0. -/
theorem running_until_released (t : Target) (p : DnnNodePara) (task_id : Int)
    (h0 : 0 ≤ task_id) (calls : List Call) :
    ∀ self : DnnNodeImpl, task_id ∈ self.dnn_rt_para_.running_tasks.keys →
      releasedOk t p task_id self calls = false →
      task_id ∈ (run t p self calls).dnn_rt_para_.running_tasks.keys := by
  induction calls with
  | nil => exact fun _ h _ => h
  | cons c cs ih =>
    intro self hrun hrel
    simp only [releasedOk, Bool.or_eq_false_iff] at hrel
    refine ih _ ?_ hrel.2
    cases c with
    | alloc timeout_ms now ok =>
      simp only [Call.exec]
      rcases hr : AllocTask t p timeout_ms now { ok := ok, self := self } self with _ | r
      · exact hrun
      · exact AllocTask_running_mono t p timeout_ms now ok self r hr task_id hrun
    | release id =>
      simp only [Call.exec]
      have h1 := hrel.1
      simp only [decide_eq_false_iff_not, not_and] at h1
      by_cases hid : id = task_id
      · subst hid
        exfalso
        obtain ⟨last, hlast⟩ := (TaskMap.mem_keys_iff_find _ _).1 hrun
        apply h1 rfl
        rw [ReleaseTask_of_running p self id last h0 hlast]
      · by_cases hneg : id < 0
        · rw [show ReleaseTask p self id = (-1, self) by unfold ReleaseTask; rw [if_pos hneg]]
          exact hrun
        · rcases hf : self.dnn_rt_para_.running_tasks.find id with _ | v
          · rw [show ReleaseTask p self id = (-1, self) by
              unfold ReleaseTask; rw [if_neg hneg, hf]]
            exact hrun
          · rw [ReleaseTask_of_running p self id v (by omega) hf]
            simp only [TaskMap.mem_keys_erase]
            exact ⟨hrun, fun e => hid e.symm⟩

theorem exec_alloc_running (t : Target) (p : DnnNodePara) (s : DnnNodeImpl) (timeout_ms : Int)
    (now : Nat) (ok : Bool) (task_id : Int) (h0 : 0 ≤ task_id)
    (h : ((Call.alloc timeout_ms now ok).exec t p s).1 = some task_id) :
    task_id ∈ ((Call.alloc timeout_ms now ok).exec t p s).2.dnn_rt_para_.running_tasks.keys ∧
    task_id ∈ s.dnn_rt_para_.idle_tasks.keys := by
  simp only [Call.exec] at h ⊢
  rcases hr : AllocTask t p timeout_ms now { ok := ok, self := s } s with _ | r
  · rw [hr] at h
    simp at h
  · rw [hr] at h
    simp only [Option.some.injEq] at h
    have := AllocTask_valid t p timeout_ms now ok s r hr (by omega)
    rw [h] at this
    exact ⟨this.2, this.1⟩

/-- C8: after a successful `TaskInit` and any calls `pre`, if an `AllocTask`
returns a valid id, then after any further calls `mid` among which no
`ReleaseTask` of that id returns 0, the next `AllocTask` does not return that
id. -/
theorem C8_one_owner_per_slot (t : Target) (p : DnnNodePara) (en : Bool) (pre mid : List Call)
    (to1 to2 : Int) (now1 now2 : Nat) (ok1 ok2 : Bool) (task_id : Int)
    (hinit : (TaskInit p (DnnNodeImpl.ctor en)).1 = 0)
    (hfirst : ((Call.alloc to1 now1 ok1).exec t p
      (run t p (TaskInit p (DnnNodeImpl.ctor en)).2 pre)).1 = some task_id)
    (hvalid : 0 ≤ task_id)
    (hrel : releasedOk t p task_id
      ((Call.alloc to1 now1 ok1).exec t p (run t p (TaskInit p (DnnNodeImpl.ctor en)).2 pre)).2
      mid = false) :
    ((Call.alloc to2 now2 ok2).exec t p
      (run t p ((Call.alloc to1 now1 ok1).exec t p
        (run t p (TaskInit p (DnnNodeImpl.ctor en)).2 pre)).2 mid)).1 ≠ some task_id := by
  have hinv0 := run_inv t p pre _ (TaskInit_inv p en hinit)
  have hinv1 := exec_inv t p _ (Call.alloc to1 now1 ok1) hinv0
  have hinv2 := run_inv t p mid _ hinv1
  have hrun1 := (exec_alloc_running t p _ to1 now1 ok1 task_id hvalid hfirst).1
  have hrun2 := running_until_released t p task_id hvalid mid _ hrun1 hrel
  intro hsecond
  exact hinv2.disjoint task_id
    (exec_alloc_running t p _ to2 now2 ok2 task_id hvalid hsecond).2 hrun2

/-- C8 at a concrete input: on the two-slot node slot 0 is allocated, then slot 1
is allocated and released; the next allocation does not return 0. -/
theorem C8_one_owner_per_slot_witness :
    ((Call.alloc 0 8 true).exec plainTarget twoSlots
      (run plainTarget twoSlots ((Call.alloc 0 5 true).exec plainTarget twoSlots
        (run plainTarget twoSlots (TaskInit twoSlots (DnnNodeImpl.ctor true)).2 [])).2
        [Call.alloc 0 6 true, Call.release 1])).1 ≠ some 0 :=
  C8_one_owner_per_slot plainTarget twoSlots true [] [Call.alloc 0 6 true, Call.release 1]
    0 0 5 8 true true 0 (by decide) (by decide) (by decide) (by decide)

/-! ## Pinned cores -/

theorem TaskMap.mem_insert (m : TaskMap) (k : Int) (v : DnnNodeTask) (e : Int × DnnNodeTask)
    (h : e ∈ TaskMap.insert m k v) : e = (k, v) ∨ e ∈ m := by
  induction m with
  | nil =>
    simp only [TaskMap.insert, List.mem_singleton] at h
    exact Or.inl h
  | cons x rest ih =>
    obtain ⟨a, b⟩ := x
    by_cases hk : a = k
    · simp only [TaskMap.insert, hk, if_true, List.mem_cons] at h
      rcases h with h | h
      · exact Or.inl h
      · exact Or.inr (List.mem_cons_of_mem _ h)
    · simp only [TaskMap.insert, hk, if_false, List.mem_cons] at h
      rcases h with h | h
      · exact Or.inr (h ▸ List.mem_cons_self _ _)
      · rcases ih h with h' | h'
        · exact Or.inl h'
        · exact Or.inr (List.mem_cons_of_mem _ h')

theorem TaskMap.mem_erase (m : TaskMap) (k : Int) (e : Int × DnnNodeTask)
    (h : e ∈ TaskMap.erase m k) : e ∈ m := by
  unfold TaskMap.erase at h
  exact (List.mem_filter.1 h).1

theorem TaskMap.find_mem (m : TaskMap) (k : Int) (v : DnnNodeTask)
    (h : TaskMap.find m k = some v) : (k, v) ∈ m := by
  induction m with
  | nil => simp [TaskMap.find] at h
  | cons x rest ih =>
    obtain ⟨a, b⟩ := x
    by_cases hk : a = k
    · simp only [TaskMap.find, hk, if_true, Option.some.injEq] at h
      rw [hk, h]
      exact List.mem_cons_self _ _
    · simp only [TaskMap.find, hk, if_false] at h
      exact List.mem_cons_of_mem _ (ih h)

theorem loopPinned_cores (ids : List Int) (task_num : Int) (fuel : Nat) :
    ∀ (idx c : Int) (idle : TaskMap) (e : Int × DnnNodeTask),
      e ∈ TaskInit.loopPinned ids task_num fuel idx c idle →
      e ∈ idle ∨ (ids.getD e.1.toNat HB_BPU_CORE_ANY ≠ HB_BPU_CORE_ANY →
        e.2.bpuCoreId = ids.getD e.1.toNat HB_BPU_CORE_ANY) := by
  induction fuel with
  | zero =>
    intro idx c idle e h
    exact Or.inl h
  | succ n ih =>
    intro idx c idle e h
    simp only [TaskInit.loopPinned] at h
    by_cases h1 : idx < task_num
    · rw [if_pos h1] at h
      by_cases hp : ids.getD idx.toNat HB_BPU_CORE_ANY ≠ HB_BPU_CORE_ANY
      · rw [if_pos hp] at h
        rcases ih _ _ _ e h with h' | h'
        · rcases TaskMap.mem_insert _ _ _ _ h' with h'' | h''
          · right
            intro _
            rw [h'']
          · exact Or.inl h''
        · exact Or.inr h'
      · rw [if_neg hp] at h
        have hins : ∀ c' : Int,
            e ∈ TaskMap.insert idle idx { task_id := idx, alloc_tp := 0, bpuCoreId := c' } →
            e ∈ idle ∨ (ids.getD e.1.toNat HB_BPU_CORE_ANY ≠ HB_BPU_CORE_ANY →
              e.2.bpuCoreId = ids.getD e.1.toNat HB_BPU_CORE_ANY) := by
          intro c' hc'
          rcases TaskMap.mem_insert _ _ _ _ hc' with h'' | h''
          · right
            intro hne
            rw [h''] at hne
            exact absurd hne hp
          · exact Or.inl h''
        by_cases h2 : idx = task_num - 1
        · rw [if_pos h2] at h
          exact hins c h
        · rw [if_neg h2] at h
          rcases ih _ _ _ e h with h' | h'
          · exact hins c h'
          · exact Or.inr h'
    · rw [if_neg h1] at h
      exact Or.inl h

theorem TaskInit_pin (p : DnnNodePara) (en : Bool)
    (h : (TaskInit p (DnnNodeImpl.ctor en)).1 = 0) :
    PinInv p (TaskInit p (DnnNodeImpl.ctor en)).2 := by
  obtain ⟨hpos, hids⟩ := TaskInit_ok_iff p _ h
  have h1 : ¬ p.task_num < 1 := by omega
  have h2 : (!p.bpu_core_ids.isEmpty && decide ((p.bpu_core_ids.length : Int) ≠ p.task_num))
      = false := by
    rcases hids with h | h
    · simp [h]
    · simp [h]
  have hlen : ((resizeTasks ([] : List (Option Task)) p.task_num.toNat).length : Int)
      = p.task_num := by
    simp [resizeTasks]
    omega
  intro i v hpin hmem
  unfold TaskInit at hmem
  simp only [h1, if_false, h2, Bool.false_eq_true, DnnNodeImpl.ctor, hlen] at hmem
  rw [if_pos hpin.1] at hmem
  rcases hmem with hmem | hmem
  · rcases loopPinned_cores _ _ _ _ _ _ _ hmem with h' | h'
    · simp at h'
    · exact h' hpin.2.2
  · simp at hmem

theorem AllocTask_pin (t : Target) (p : DnnNodePara) (timeout_ms : Int) (now : Nat)
    (ok : Bool) (self : DnnNodeImpl) (r : Int × DnnNodeImpl) (h : PinInv p self)
    (hr : AllocTask t p timeout_ms now { ok := ok, self := self } self = some r) :
    PinInv p r.2 := by
  have hfin : ∀ (task : Task) (tid core : Int) (s : DnnNodeImpl),
      PinInv p s → PinInv p (AllocTask.finish t task tid core s).2 := by
    intro task tid core s hs
    unfold AllocTask.finish
    split_ifs <;> exact hs
  have hal : ∀ (tid core : Int), PinInv p { self with dnn_rt_para_ :=
      (AllocTask.alloc_task t.order now tid core self.dnn_rt_para_).2.2 } := by
    intro tid core
    rcases hb : TaskMap.begin t.order self.dnn_rt_para_.idle_tasks with _ | e
    · unfold AllocTask.alloc_task
      rw [hb]
      exact h
    · rw [alloc_task_some _ _ _ _ _ e hb]
      intro i v hpin hmem
      rcases hmem with hmem | hmem
      · exact h i v hpin (Or.inl (TaskMap.mem_erase _ _ _ hmem))
      · rcases TaskMap.mem_insert _ _ _ _ hmem with h' | h'
        · have he := TaskMap.begin_mem _ _ _ hb
          obtain ⟨rfl, rfl⟩ := Prod.mk.inj h'
          exact h e.1 e.2 hpin (Or.inl he)
        · exact h i v hpin (Or.inr h')
  unfold AllocTask at hr
  rcases hm : AllocTask.makeTask p with _ | task
  · simp only [hm] at hr
    cases hr
    exact h
  · simp only [hm] at hr
    split_ifs at hr
    all_goals
      first
        | (cases hr; exact h)
        | (rw [← Option.some.inj hr]; exact hfin _ _ _ _ (hal _ _))

theorem ReleaseTask_pin (p : DnnNodePara) (self : DnnNodeImpl) (task_id : Int)
    (h : PinInv p self) : PinInv p (ReleaseTask p self task_id).2 := by
  by_cases hneg : task_id < 0
  · rw [show ReleaseTask p self task_id = (-1, self) by unfold ReleaseTask; rw [if_pos hneg]]
    exact h
  · rcases hf : self.dnn_rt_para_.running_tasks.find task_id with _ | last
    · rw [show ReleaseTask p self task_id = (-1, self) by
        unfold ReleaseTask; rw [if_neg hneg, hf]]
      exact h
    · rw [ReleaseTask_of_running p self task_id last (by omega) hf]
      intro i v hpin hmem
      rcases hmem with hmem | hmem
      · rcases TaskMap.mem_insert _ _ _ _ hmem with h' | h'
        · have hi : i = task_id := congrArg Prod.fst h'
          have hv := congrArg Prod.snd h'
          simp only at hv
          subst hi
          have hp' : (p.bpu_core_ids.length : Int) = p.task_num ∧ i < p.task_num ∧
              p.bpu_core_ids.getD i.toNat HB_BPU_CORE_ANY ≠ HB_BPU_CORE_ANY := hpin
          rw [hv, if_pos hp']
          exact h i last hpin (Or.inr (TaskMap.find_mem _ _ _ hf))
        · exact h i v hpin (Or.inl h')
      · exact h i v hpin (Or.inr (TaskMap.mem_erase _ _ _ hmem))

theorem run_pin (t : Target) (p : DnnNodePara) (calls : List Call) :
    ∀ self : DnnNodeImpl, PinInv p self → PinInv p (run t p self calls) := by
  induction calls with
  | nil => exact fun _ h => h
  | cons c cs ih =>
    intro self h
    refine ih _ ?_
    cases c with
    | alloc timeout_ms now ok =>
      simp only [Call.exec]
      rcases hr : AllocTask t p timeout_ms now { ok := ok, self := self } self with _ | r
      · exact h
      · exact AllocTask_pin t p timeout_ms now ok self r h hr
    | release task_id => exact ReleaseTask_pin p self task_id h

/-- C9: when `bpu_core_ids` has `task_num` entries and entry `i` is not
`HB_BPU_CORE_ANY`, slot `i` is bound to core `bpu_core_ids[i]` in every state
reached from a successful `TaskInit` by `AllocTask` and `ReleaseTask` calls. -/
theorem C9_pinned_core_kept (t : Target) (p : DnnNodePara) (en : Bool) (calls : List Call)
    (i : Int) (hinit : (TaskInit p (DnnNodeImpl.ctor en)).1 = 0)
    (hlen : (p.bpu_core_ids.length : Int) = p.task_num)
    (hi : 0 ≤ i ∧ i < p.task_num)
    (hpin : p.bpu_core_ids.getD i.toNat HB_BPU_CORE_ANY ≠ HB_BPU_CORE_ANY) :
    slotCore (run t p (TaskInit p (DnnNodeImpl.ctor en)).2 calls) i
      = some (p.bpu_core_ids.getD i.toNat HB_BPU_CORE_ANY) := by
  have hinv := run_inv t p calls _ (TaskInit_inv p en hinit)
  have hp := run_pin t p calls _ (TaskInit_pin p en hinit)
  have hpinned : Pinned p i := ⟨hlen, hi.2, hpin⟩
  generalize run t p (TaskInit p (DnnNodeImpl.ctor en)).2 calls = s at hinv hp
  unfold slotCore
  rcases hf : s.dnn_rt_para_.idle_tasks.find i with _ | v
  · have hnot : i ∉ s.dnn_rt_para_.idle_tasks.keys := (TaskMap.find_eq_none_iff _ _).1 hf
    have hrun : i ∈ s.dnn_rt_para_.running_tasks.keys := by
      rcases (hinv.cover i).2 hi with h | h
      · exact absurd h hnot
      · exact h
    obtain ⟨v, hv⟩ := (TaskMap.mem_keys_iff_find _ _).1 hrun
    simp only [hv, Option.map_some']
    rw [hp i v hpinned (Or.inr (TaskMap.find_mem _ _ _ hv))]
  · simp only
    rw [hp i v hpinned (Or.inl (TaskMap.find_mem _ _ _ hf))]

/-- C9 at a concrete input: slot 0 is fixed to Core1, allocated, released and
allocated again. -/
theorem C9_pinned_core_kept_witness :
    slotCore (run plainTarget pinnedFirst (TaskInit pinnedFirst (DnnNodeImpl.ctor true)).2
        [Call.alloc 0 5 true, Call.release 0, Call.alloc 0 6 true]) 0
      = some (pinnedFirst.bpu_core_ids.getD (0 : Int).toNat HB_BPU_CORE_ANY) :=
  C9_pinned_core_kept plainTarget pinnedFirst true
    [Call.alloc 0 5 true, Call.release 0, Call.alloc 0 6 true] 0
    (by decide) (by decide) (by decide) (by decide)

/-! ## Alternation of the cores -/

theorem alternateCore_mem (c : Int) :
    alternateCore c = HB_BPU_CORE_0 ∨ alternateCore c = HB_BPU_CORE_1 := by
  unfold alternateCore
  split_ifs
  · exact Or.inr rfl
  · exact Or.inl rfl
  · exact Or.inl rfl

theorem alternateCore_ne (c : Int) (h : c = HB_BPU_CORE_0 ∨ c = HB_BPU_CORE_1) :
    c ≠ alternateCore c := by
  rcases h with h | h <;> rw [h] <;> decide

theorem alternates_of_from (cores : List Int) :
    ∀ c : Int, (c = HB_BPU_CORE_0 ∨ c = HB_BPU_CORE_1) → AlternatesFrom c cores →
      Alternates cores ∧ (∀ x, cores.head? = some x → x = c) := by
  induction cores with
  | nil =>
    intro c _ _
    exact ⟨trivial, fun x hx => by simp at hx⟩
  | cons x xs ih =>
    intro c hc h
    obtain ⟨hx, hrest⟩ := h
    obtain ⟨halt, hhead⟩ := ih (alternateCore c) (alternateCore_mem c) hrest
    refine ⟨⟨hx ▸ hc, ?_, halt⟩, fun y hy => ?_⟩
    · intro hh
      have := hhead x hh
      rw [hx] at this
      exact alternateCore_ne c hc this
    · simp only [List.head?_cons, Option.some.injEq] at hy
      rw [← hy, hx]

theorem loopAny_cores (task_num : Int) (fuel : Nat) :
    ∀ (idx c : Int) (idle : TaskMap) (e : Int × DnnNodeTask),
      (c = HB_BPU_CORE_0 ∨ c = HB_BPU_CORE_1) →
      e ∈ TaskInit.loopAny task_num fuel idx c idle →
      e ∈ idle ∨ e.2.bpuCoreId = HB_BPU_CORE_0 ∨ e.2.bpuCoreId = HB_BPU_CORE_1 := by
  induction fuel with
  | zero =>
    intro idx c idle e _ h
    exact Or.inl h
  | succ n ih =>
    intro idx c idle e hc h
    simp only [TaskInit.loopAny] at h
    have hins : e ∈ TaskMap.insert idle idx { task_id := idx, alloc_tp := 0, bpuCoreId := c } →
        e ∈ idle ∨ e.2.bpuCoreId = HB_BPU_CORE_0 ∨ e.2.bpuCoreId = HB_BPU_CORE_1 := by
      intro hc'
      rcases TaskMap.mem_insert _ _ _ _ hc' with h'' | h''
      · right
        rw [h'']
        exact hc
      · exact Or.inl h''
    by_cases h1 : idx < task_num
    · rw [if_pos h1] at h
      by_cases h2 : idx = task_num - 1
      · rw [if_pos h2] at h
        exact hins h
      · rw [if_neg h2] at h
        rcases ih _ _ _ e (alternateCore_mem c) h with h' | h'
        · exact hins h'
        · exact Or.inr h'
    · rw [if_neg h1] at h
      exact Or.inl h

/-- After `TaskInit` with no core given every slot is idle and bound to Core0 or
Core1. -/
theorem TaskInit_cores (p : DnnNodePara) (en : Bool)
    (h : (TaskInit p (DnnNodeImpl.ctor en)).1 = 0) (hnopin : p.bpu_core_ids = [])
    (task_id : Int) :
    (TaskInit p (DnnNodeImpl.ctor en)).2.dnn_rt_para_.running_tasks.find task_id = none ∧
    ∀ v, (TaskInit p (DnnNodeImpl.ctor en)).2.dnn_rt_para_.idle_tasks.find task_id = some v →
      v.bpuCoreId = HB_BPU_CORE_0 ∨ v.bpuCoreId = HB_BPU_CORE_1 := by
  obtain ⟨hpos, _⟩ := TaskInit_ok_iff p _ h
  have h1 : ¬ p.task_num < 1 := by omega
  have hlen : ((resizeTasks ([] : List (Option Task)) p.task_num.toNat).length : Int)
      = p.task_num := by
    simp [resizeTasks]
    omega
  have hne : ¬ ((0 : Int) = p.task_num) := by omega
  unfold TaskInit
  simp only [h1, if_false, hnopin, List.isEmpty_nil, Bool.not_true, Bool.false_and,
    Bool.false_eq_true, DnnNodeImpl.ctor, hlen, List.length_nil, Nat.cast_zero, hne]
  refine ⟨rfl, fun v hv => ?_⟩
  rcases loopAny_cores _ _ _ _ _ _ (Or.inl rfl) (TaskMap.find_mem _ _ _ hv) with h' | h'
  · simp at h'
  · exact h'

/-- What an `AllocTask` of a sequence does in a state that satisfies the
invariant: nothing (it returns -1 or never returns), or it moves the entry that
`begin()` yields from `idle_tasks` to `running_tasks` and returns its id. -/
theorem exec_alloc_cases (t : Target) (p : DnnNodePara) (s : DnnNodeImpl) (timeout_ms : Int)
    (now : Nat) (ok : Bool) (hinv : PoolInv p s) :
    (((Call.alloc timeout_ms now ok).exec t p s).1 = none ∧
      ((Call.alloc timeout_ms now ok).exec t p s).2 = s) ∨
    (((Call.alloc timeout_ms now ok).exec t p s).1 = some (-1) ∧
      ((Call.alloc timeout_ms now ok).exec t p s).2 = s) ∨
    (∃ e : Int × DnnNodeTask, e ∈ s.dnn_rt_para_.idle_tasks ∧ 0 ≤ e.1 ∧
      ((Call.alloc timeout_ms now ok).exec t p s).1 = some e.1 ∧
      ((Call.alloc timeout_ms now ok).exec t p s).2.dnn_rt_para_.idle_tasks
        = s.dnn_rt_para_.idle_tasks.erase e.1 ∧
      ((Call.alloc timeout_ms now ok).exec t p s).2.dnn_rt_para_.running_tasks
        = s.dnn_rt_para_.running_tasks.insert e.1 { e.2 with alloc_tp := now }) := by
  simp only [Call.exec]
  rcases hm : AllocTask.makeTask p with _ | task
  · right; left
    simp [AllocTask, hm]
  · by_cases hidle : s.dnn_rt_para_.idle_tasks = []
    · by_cases hblock : timeout_ms ≤ 0 ∧ ok = true
      · left
        simp [AllocTask, hm, hidle, hblock.1, hblock.2]
      · right; left
        by_cases hok : ok = true
        · have hto : ¬ timeout_ms ≤ 0 := fun h => hblock ⟨h, hok⟩
          simp [AllocTask, hm, hidle, hok, hto, AllocTask.finish, AllocTask.alloc_task]
        · simp [AllocTask, hm, hidle, hok]
    · right; right
      obtain ⟨e, hb⟩ := TaskMap.begin_isSome t.order _ hidle
      have hmem := TaskMap.begin_mem _ _ _ hb
      have hrange := (hinv.cover e.1).1 (Or.inl (TaskMap.mem_keys_of_mem _ _ hmem))
      have hlen := hinv.tasks_length
      refine ⟨e, hmem, hrange.1, ?_⟩
      rw [AllocTask_of_begin t p timeout_ms now _ s task e hm hb hrange.1 (by omega)]
      exact ⟨rfl, rfl, rfl⟩

end dnn_node
end hobot

namespace hobot
namespace dnn_node

theorem allocLog_release (t : Target) (p : DnnNodePara) (self : DnnNodeImpl) (id : Int)
    (cs : List Call) :
    allocLog t p self (Call.release id :: cs) = allocLog t p (ReleaseTask p self id).2 cs := by
  simp [allocLog, Call.exec]

theorem allocLog_alloc_none (t : Target) (p : DnnNodePara) (self : DnnNodeImpl)
    (timeout_ms : Int) (now : Nat) (ok : Bool) (cs : List Call)
    (h : ((Call.alloc timeout_ms now ok).exec t p self).1 = none) :
    allocLog t p self (Call.alloc timeout_ms now ok :: cs)
      = allocLog t p ((Call.alloc timeout_ms now ok).exec t p self).2 cs := by
  simp only [allocLog]
  rw [h]

theorem allocLog_alloc_some (t : Target) (p : DnnNodePara) (self : DnnNodeImpl)
    (timeout_ms : Int) (now : Nat) (ok : Bool) (cs : List Call) (id : Int)
    (h : ((Call.alloc timeout_ms now ok).exec t p self).1 = some id) :
    allocLog t p self (Call.alloc timeout_ms now ok :: cs)
      = if 0 ≤ id then
          (id, (slotCore ((Call.alloc timeout_ms now ok).exec t p self).2 id).getD
            HB_BPU_CORE_ANY) :: allocLog t p ((Call.alloc timeout_ms now ok).exec t p self).2 cs
        else allocLog t p ((Call.alloc timeout_ms now ok).exec t p self).2 cs := by
  simp only [allocLog]
  rw [h]

theorem ReleaseTask_nextCore (p : DnnNodePara) (self : DnnNodeImpl) (id task_id c : Int)
    (hnp : ¬ Pinned p task_id) (h : NextCore self task_id c) :
    NextCore (ReleaseTask p self id).2 task_id c := by
  by_cases hneg : id < 0
  · rw [show ReleaseTask p self id = (-1, self) by unfold ReleaseTask; rw [if_pos hneg]]
    exact h
  · rcases hf : self.dnn_rt_para_.running_tasks.find id with _ | last
    · rw [show ReleaseTask p self id = (-1, self) by unfold ReleaseTask; rw [if_neg hneg, hf]]
      exact h
    · rw [ReleaseTask_of_running p self id last (by omega) hf]
      by_cases hid : task_id = id
      · subst hid
        have hp' : ¬ ((p.bpu_core_ids.length : Int) = p.task_num ∧ task_id < p.task_num ∧
            p.bpu_core_ids.getD task_id.toNat HB_BPU_CORE_ANY ≠ HB_BPU_CORE_ANY) := hnp
        intro v
        simp only [TaskMap.find_insert, TaskMap.find_erase, if_true, Option.some.injEq]
        rw [if_neg hp']
        refine ⟨fun hv => ?_, fun hv => by simp at hv⟩
        rw [← hv]
        exact (h last).2 hf
      · intro v
        simp only [TaskMap.find_insert, TaskMap.find_erase, hid, if_false]
        exact h v

theorem allocLog_alternatesFrom (t : Target) (p : DnnNodePara) (task_id : Int)
    (hnp : ¬ Pinned p task_id) (calls : List Call) :
    ∀ (self : DnnNodeImpl) (c : Int), PoolInv p self → NextCore self task_id c →
      AlternatesFrom c
        (((allocLog t p self calls).filter (fun e => decide (e.1 = task_id))).map Prod.snd) := by
  induction calls with
  | nil =>
    intro self c _ _
    simp [allocLog, AlternatesFrom]
  | cons call cs ih =>
    intro self c hinv hnext
    have hinv' := exec_inv t p self call hinv
    cases call with
    | release id =>
      rw [allocLog_release]
      exact ih _ c hinv' (ReleaseTask_nextCore p self id task_id c hnp hnext)
    | alloc timeout_ms now ok =>
      rcases exec_alloc_cases t p self timeout_ms now ok hinv with
        ⟨h1, h2⟩ | ⟨h1, h2⟩ | ⟨e, hmem, h0, h1, hidle, hrun⟩
      · rw [allocLog_alloc_none t p self timeout_ms now ok cs h1, h2]
        exact ih self c hinv hnext
      · rw [allocLog_alloc_some t p self timeout_ms now ok cs (-1) h1, h2]
        simp only [show ¬ ((0 : Int) ≤ -1) by decide, if_false]
        exact ih self c hinv hnext
      · rw [allocLog_alloc_some t p self timeout_ms now ok cs e.1 h1, if_pos h0]
        have hfind := TaskMap.find_of_mem _ hinv.idle_nodup e hmem
        by_cases hid : e.1 = task_id
        · have hcore : (slotCore ((Call.alloc timeout_ms now ok).exec t p self).2 e.1).getD
              HB_BPU_CORE_ANY = c := by
            unfold slotCore
            rw [hidle, hrun]
            simp only [TaskMap.find_erase, TaskMap.find_insert, if_true, Option.map_some',
              Option.getD_some]
            rw [hid] at hfind
            exact (hnext e.2).1 hfind
          simp only [List.filter_cons, hid, decide_True, if_true, List.map_cons, AlternatesFrom]
          rw [← hid]
          refine ⟨hcore, ?_⟩
          rw [hid]
          apply ih _ _ hinv'
          intro v
          rw [hidle, hrun, ← hid]
          simp only [TaskMap.find_erase, TaskMap.find_insert, if_true, Option.some.injEq]
          refine ⟨fun hv => by simp at hv, fun hv => ?_⟩
          rw [← hv]
          have := (hnext e.2).1 (hid ▸ hfind)
          simp only
          rw [this]
        · simp only [List.filter_cons, hid, decide_False, Bool.false_eq_true, if_false]
          apply ih _ _ hinv'
          intro v
          rw [hidle, hrun]
          have hid' : ¬ task_id = e.1 := fun h => hid h.symm
          simp only [TaskMap.find_erase, TaskMap.find_insert, hid', if_false]
          exact hnext v

end dnn_node
end hobot

namespace hobot
namespace dnn_node

/-- C10 fails as stated: on the two-slot node with no core given, allocate
both slots, release the one allocated first and allocate again.  The three
allocations are bound to Core0, Core1, Core1: the third one gets the core of
the one before it. -/
theorem C10_counterexample :
    (TaskInit twoSlots (DnnNodeImpl.ctor true)).1 = 0 ∧
    twoSlots.bpu_core_ids = [] ∧
    allocLog plainTarget twoSlots (TaskInit twoSlots (DnnNodeImpl.ctor true)).2
      [Call.alloc 0 5 true, Call.alloc 0 6 true, Call.release 0, Call.alloc 0 7 true]
      = [(0, HB_BPU_CORE_0), (1, HB_BPU_CORE_1), (0, HB_BPU_CORE_1)] ∧
    ¬ Alternates ((allocLog plainTarget twoSlots (TaskInit twoSlots (DnnNodeImpl.ctor true)).2
      [Call.alloc 0 5 true, Call.alloc 0 6 true, Call.release 0, Call.alloc 0 7 true]).map
        Prod.snd) := by
  decide

/-- C10 as amended: with no core given, the cores bound to the successive
successful allocations of one and the same slot alternate strictly between
Core0 and Core1, in every sequence of `AllocTask` and `ReleaseTask` calls from
`TaskInit`. -/
theorem C10_alternates_per_slot (t : Target) (p : DnnNodePara) (en : Bool) (calls : List Call)
    (task_id : Int) (hinit : (TaskInit p (DnnNodeImpl.ctor en)).1 = 0)
    (hnopin : p.bpu_core_ids = []) :
    Alternates
      (((allocLog t p (TaskInit p (DnnNodeImpl.ctor en)).2 calls).filter
        (fun e => decide (e.1 = task_id))).map Prod.snd) := by
  obtain ⟨hpos, _⟩ := TaskInit_ok_iff p _ hinit
  have hnp : ¬ Pinned p task_id := by
    intro h
    have := h.1
    rw [hnopin] at this
    simp at this
    omega
  obtain ⟨hrun, hcores⟩ := TaskInit_cores p en hinit hnopin task_id
  have hinv := TaskInit_inv p en hinit
  rcases hf : (TaskInit p (DnnNodeImpl.ctor en)).2.dnn_rt_para_.idle_tasks.find task_id
    with _ | v
  · have hnext : NextCore (TaskInit p (DnnNodeImpl.ctor en)).2 task_id HB_BPU_CORE_0 := by
      intro v
      rw [hf, hrun]
      exact ⟨fun h => by simp at h, fun h => by simp at h⟩
    exact (alternates_of_from _ _ (Or.inl rfl)
      (allocLog_alternatesFrom t p task_id hnp calls _ _ hinv hnext)).1
  · have hnext : NextCore (TaskInit p (DnnNodeImpl.ctor en)).2 task_id v.bpuCoreId := by
      intro v'
      rw [hf, hrun]
      exact ⟨fun h => by rw [← Option.some.inj h], fun h => by simp at h⟩
    exact (alternates_of_from _ _ (hcores v hf)
      (allocLog_alternatesFrom t p task_id hnp calls _ _ hinv hnext)).1

/-- C10 as amended, at a concrete input: in the sequence of the counterexample
the two allocations of slot 0 are bound to Core0 and then to Core1. -/
theorem C10_alternates_per_slot_witness :
    Alternates
      (((allocLog plainTarget twoSlots (TaskInit twoSlots (DnnNodeImpl.ctor true)).2
          [Call.alloc 0 5 true, Call.alloc 0 6 true, Call.release 0, Call.alloc 0 7 true]).filter
        (fun e => decide (e.1 = 0))).map Prod.snd) :=
  C10_alternates_per_slot plainTarget twoSlots true
    [Call.alloc 0 5 true, Call.alloc 0 6 true, Call.release 0, Call.alloc 0 7 true] 0
    (by decide) (by decide)

/-! ## `RunImpl`: the paths that return early -/

/-- C2 fails as stated: with both slots of the two-slot node running,
`AllocTask(100)` times out and returns -1; `RunImpl`, called with a callback,
returns -1 having invoked the callback zero times. -/
theorem C2_counterexample :
    twoSlotsBusy.dnn_rt_para_.idle_tasks = [] ∧
    AllocTask plainTarget twoSlots 100 7 { ok := true, self := twoSlotsBusy } twoSlotsBusy
      = some (-1, twoSlotsBusy) ∧
    (RunImpl plainTarget twoSlots libOk fpsQuiet clockZero 7
        { ok := true, self := twoSlotsBusy } twoSlotsBusy InputType.DNN_INPUT none true none
        100 1000).map (fun r => (r.ret, r.events, callbackCount r.events))
      = some (-1, [Event.AllocTask (-1)], 0) := by
  decide

theorem callbackCount_append (a b : List Event) :
    callbackCount (a ++ b) = callbackCount a + callbackCount b := by
  induction a with
  | nil => simp [callbackCount]
  | cons e rest ih =>
    cases e <;> simp [callbackCount, ih]
    omega

theorem callbackCount_setInputs (lib : TaskCalls) (input_type : InputType) :
    callbackCount (PreProcess.setInputs lib input_type).2 = 0 := by
  cases input_type <;> rfl

theorem callbackCount_PreProcess (p : DnnNodePara) (lib : TaskCalls) (self : DnnNodeImpl)
    (input_type : InputType) (task_id : Int) (rois : Option (List hbDNNRoi)) :
    callbackCount (PreProcess p lib self input_type task_id rois).2 = 0 := by
  unfold PreProcess
  by_cases h0 : task_id < 0
  · rw [if_pos h0]
    rfl
  · rw [if_neg h0]
    cases p.model_task_type <;> cases rois <;> cases GetTask self task_id <;>
      simp only [] <;> (try split_ifs) <;>
      simp [callbackCount, callbackCount_setInputs]

theorem callbackCount_RunProcessInput (lib : TaskCalls) (input_type : InputType) :
    callbackCount (RunProcessInput lib input_type).2 = 0 := by
  unfold RunProcessInput
  split_ifs <;> rfl

theorem callbackCount_wait (p : DnnNodePara) (lib : TaskCalls) (clk : InferClock) (en : Bool)
    (node_output : DnnNodeOutput) (task : Task) (timeout_ms : Int) (events : List Event)
    (h : callbackCount events = 0) :
    callbackCount (RunInferTask.wait p lib clk en node_output task timeout_ms events).events
      = 0 := by
  unfold RunInferTask.wait
  by_cases hw : lib.WaitInferDone ≠ 0
  · rw [if_pos hw]
    simp [callbackCount_append, callbackCount, h]
  · rw [if_neg hw]
    simp only []
    split_ifs <;> simp [callbackCount_append, callbackCount, h]

theorem callbackCount_RunInferTask (p : DnnNodePara) (lib : TaskCalls) (clk : InferClock)
    (en : Bool) (node_output : DnnNodeOutput) (node_task : Option Task) (timeout_ms : Int) :
    callbackCount (RunInferTask p lib clk en node_output node_task timeout_ms).events = 0 := by
  unfold RunInferTask
  cases node_task with
  | none => rfl
  | some task =>
    simp only
    split_ifs
    · exact callbackCount_wait _ _ _ _ _ _ _ _ rfl
    · rfl
    · rfl
    · exact callbackCount_wait _ _ _ _ _ _ _ _ rfl

end dnn_node
end hobot

namespace hobot
namespace dnn_node

theorem no_roi_iff (rois : Option (List hbDNNRoi)) :
    (match rois with
      | none => true
      | some l => l.isEmpty) = true ↔ (rois = none ∨ rois = some []) := by
  cases rois with
  | none => simp
  | some l => cases l <;> simp

/-- C2 as amended: for every call of `RunImpl` with a callback that returns,
the callback is invoked exactly once whenever `RunImpl` returns 0, and `RunImpl`
returns 0 on the ROI-empty skip and whenever it gets as far as `RunInferTask`,
whatever `RunInferTask` returns (successful inference and inference failure);
when `AllocTask` returns a negative id, `RunImpl` returns -1 and the callback
is not invoked. -/
theorem C2_callback_once_when_zero (t : Target) (p : DnnNodePara) (lib : TaskCalls)
    (fps : FpsReadings) (clk : InferClock) (now : Nat) (w : WaitEnd) (self : DnnNodeImpl)
    (input_type : InputType) (output : Option DnnNodeOutput) (rois : Option (List hbDNNRoi))
    (alloctask_timeout_ms infer_timeout_ms : Int) (r : RunImplResult)
    (h : RunImpl t p lib fps clk now w self input_type output true rois alloctask_timeout_ms
      infer_timeout_ms = some r) :
    (r.ret = 0 → callbackCount r.events = 1) ∧
    ((p.model_task_type = ModelTaskType.ModelRoiInferType ∧ (rois = none ∨ rois = some [])) →
      r.ret = 0) ∧
    (¬ (p.model_task_type = ModelTaskType.ModelRoiInferType ∧ (rois = none ∨ rois = some [])) →
      ∀ a : Int × DnnNodeImpl, AllocTask t p alloctask_timeout_ms now w self = some a →
        (a.1 < 0 → r.ret = -1 ∧ callbackCount r.events = 0) ∧
        (0 ≤ a.1 → GetTask a.2 a.1 ≠ none →
          (PreProcess p lib a.2 input_type a.1 rois).1 = 0 →
          (RunProcessInput lib input_type).1 = 0 → r.ret = 0)) := by
  unfold RunImpl at h
  simp only [no_roi_iff] at h
  by_cases hs : p.model_task_type = ModelTaskType.ModelRoiInferType ∧
      (rois = none ∨ rois = some [])
  · rw [if_pos hs] at h
    cases h
    exact ⟨fun _ => by simp [callbackCount], fun _ => rfl, fun hn => absurd hs hn⟩
  · rw [if_neg hs] at h
    rcases ha : AllocTask t p alloctask_timeout_ms now w self with _ | a
    · rw [ha] at h
      simp at h
    · rw [ha] at h
      obtain ⟨task_id, s⟩ := a
      simp only at h
      refine ⟨?_, fun hc => absurd hc hs, ?_⟩
      · intro hret
        by_cases hid : task_id < 0
        · rw [if_pos hid] at h
          cases h
          simp at hret
        · rw [if_neg hid] at h
          rcases hg : GetTask s task_id with _ | task
          · rw [hg] at h
            cases h
            simp at hret
          · rw [hg] at h
            simp only at h
            by_cases hpre : (PreProcess p lib s input_type task_id rois).1 ≠ 0
            · rw [if_pos hpre] at h
              cases h
              simp at hret
            · rw [if_neg hpre] at h
              by_cases hin : (RunProcessInput lib input_type).1 ≠ 0
              · rw [if_pos hin] at h
                cases h
                exact absurd hret hin
              · rw [if_neg hin] at h
                cases h
                simp only [if_true]
                split_ifs <;>
                  simp [callbackCount_append, callbackCount, callbackCount_PreProcess,
                    callbackCount_RunProcessInput, callbackCount_RunInferTask]
      · intro _ a' ha'
        cases ha'
        refine ⟨fun hid => ?_, fun hid hg hpre hin => ?_⟩
        · simp only at hid
          rw [if_pos hid] at h
          cases h
          exact ⟨rfl, rfl⟩
        · simp only at hid hg hpre
          have hid' : ¬ task_id < 0 := by omega
          rw [if_neg hid'] at h
          rcases hg' : GetTask s task_id with _ | task
          · exact absurd hg' hg
          · rw [hg'] at h
            simp only at h
            rw [if_neg (by simpa using hpre), if_neg (by simpa using hin)] at h
            cases h
            rfl

/-- C2 as amended, at a concrete input: an inference on the idle two-slot node
with a library whose calls succeed returns 0 and invokes the callback once. -/
theorem C2_callback_once_when_zero_witness :
    ((RunImpl plainTarget twoSlots libOk fpsQuiet clockZero 7
        { ok := true, self := twoSlotsInit } twoSlotsInit InputType.DNN_INPUT none true none
        100 1000).get (by decide)).ret = 0 ∧
    callbackCount
      ((RunImpl plainTarget twoSlots libOk fpsQuiet clockZero 7
          { ok := true, self := twoSlotsInit } twoSlotsInit InputType.DNN_INPUT none true none
          100 1000).get (by decide)).events = 1 :=
  ⟨by decide,
   (C2_callback_once_when_zero plainTarget twoSlots libOk fpsQuiet clockZero 7
      { ok := true, self := twoSlotsInit } twoSlotsInit InputType.DNN_INPUT none none 100 1000
      ((RunImpl plainTarget twoSlots libOk fpsQuiet clockZero 7
          { ok := true, self := twoSlotsInit } twoSlotsInit InputType.DNN_INPUT none true none
          100 1000).get (by decide))
      (Option.some_get _).symm).1 (by decide)⟩

/-- C3, the code at a failing input: on the idle two-slot node with a library
that rejects the inputs, `AllocTask` returns 0, `PreProcess` fails and `RunImpl`
returns -1 without a call of `ReleaseTask`; slot 0 is left in `running_tasks`,
which was empty before the call.  With a library whose calls succeed the slot
is released once and `running_tasks` is empty again. -/
theorem C3_slot_not_released_on_early_return :
    twoSlotsInit.dnn_rt_para_.running_tasks.keys = [] ∧
    (RunImpl plainTarget twoSlots libBadInputs fpsQuiet clockZero 7
        { ok := true, self := twoSlotsInit } twoSlotsInit InputType.DNN_INPUT none true none
        100 1000).map
        (fun r => (r.ret, r.events, releaseCount 0 r.events,
          r.self.dnn_rt_para_.running_tasks.keys))
      = some (-1, [Event.AllocTask 0, Event.SetInputs (-1)], 0, [0]) ∧
    (RunImpl plainTarget twoSlots libOk fpsQuiet clockZero 7
        { ok := true, self := twoSlotsInit } twoSlotsInit InputType.DNN_INPUT none true none
        100 1000).map
        (fun r => (r.ret, releaseCount 0 r.events, r.self.dnn_rt_para_.running_tasks.keys))
      = some (0, 1, []) := by
  decide

/-! ## `TaskInit`: when it fails and what it sets up -/

theorem TaskInit_fails (p : DnnNodePara) (self : DnnNodeImpl)
    (h : p.task_num < 1 ∨ (p.bpu_core_ids ≠ [] ∧ (p.bpu_core_ids.length : Int) ≠ p.task_num)) :
    TaskInit p self = (-1, self) := by
  unfold TaskInit
  by_cases h1 : p.task_num < 1
  · rw [if_pos h1]
  · rw [if_neg h1]
    rcases h with h | ⟨h2, h3⟩
    · exact absurd h h1
    · have : (!p.bpu_core_ids.isEmpty && decide ((p.bpu_core_ids.length : Int) ≠ p.task_num))
          = true := by
        have he : p.bpu_core_ids.isEmpty = false := by
          cases hl : p.bpu_core_ids with
          | nil => exact absurd hl h2
          | cons a l => rfl
        rw [he]
        simpa using h3
      rw [if_pos this]

theorem TaskInit_succeeds (p : DnnNodePara) (self : DnnNodeImpl)
    (h : ¬ (p.task_num < 1 ∨
      (p.bpu_core_ids ≠ [] ∧ (p.bpu_core_ids.length : Int) ≠ p.task_num))) :
    (TaskInit p self).1 = 0 := by
  have h1 : ¬ p.task_num < 1 := fun hc => h (Or.inl hc)
  have h2 : (!p.bpu_core_ids.isEmpty && decide ((p.bpu_core_ids.length : Int) ≠ p.task_num))
      = false := by
    by_cases hl : p.bpu_core_ids = []
    · rw [hl]
      rfl
    · have h3 : ¬ ((p.bpu_core_ids.length : Int) ≠ p.task_num) :=
        fun hc => h (Or.inr ⟨hl, hc⟩)
      rw [Bool.and_eq_false_iff]
      right
      exact decide_eq_false h3
  unfold TaskInit
  rw [if_neg h1, h2]
  rfl

theorem TaskInit_running (p : DnnNodePara) (self : DnnNodeImpl) :
    (TaskInit p self).2.dnn_rt_para_.running_tasks = self.dnn_rt_para_.running_tasks := by
  unfold TaskInit
  split_ifs <;> rfl

/-- C11: on a new object `TaskInit` returns -1 exactly when `task_num < 1` or
`bpu_core_ids` is non-empty with a size other than `task_num`, and then leaves
the object as it was (no slot in either map, no cell in `tasks`); otherwise it
returns 0 with the keys of `idle_tasks` being exactly the ids
`0 .. task_num-1`, each once, `running_tasks` empty and `tasks` of length
`task_num`. -/
theorem C11_TaskInit_result (p : DnnNodePara) (en : Bool) :
    ((TaskInit p (DnnNodeImpl.ctor en)).1 = -1 ↔
      (p.task_num < 1 ∨
        (p.bpu_core_ids ≠ [] ∧ (p.bpu_core_ids.length : Int) ≠ p.task_num))) ∧
    ((p.task_num < 1 ∨ (p.bpu_core_ids ≠ [] ∧ (p.bpu_core_ids.length : Int) ≠ p.task_num)) →
      TaskInit p (DnnNodeImpl.ctor en) = (-1, DnnNodeImpl.ctor en) ∧
      (DnnNodeImpl.ctor en).dnn_rt_para_.idle_tasks = [] ∧
      (DnnNodeImpl.ctor en).dnn_rt_para_.running_tasks = [] ∧
      (DnnNodeImpl.ctor en).dnn_rt_para_.tasks = []) ∧
    (¬ (p.task_num < 1 ∨
        (p.bpu_core_ids ≠ [] ∧ (p.bpu_core_ids.length : Int) ≠ p.task_num)) →
      (TaskInit p (DnnNodeImpl.ctor en)).1 = 0 ∧
      (∀ id : Int, id ∈ (TaskInit p (DnnNodeImpl.ctor en)).2.dnn_rt_para_.idle_tasks.keys ↔
        (0 ≤ id ∧ id < p.task_num)) ∧
      (TaskInit p (DnnNodeImpl.ctor en)).2.dnn_rt_para_.idle_tasks.keys.Nodup ∧
      (TaskInit p (DnnNodeImpl.ctor en)).2.dnn_rt_para_.running_tasks = [] ∧
      ((TaskInit p (DnnNodeImpl.ctor en)).2.dnn_rt_para_.tasks.length : Int) = p.task_num) := by
  refine ⟨⟨fun h => ?_, fun h => ?_⟩, fun h => ⟨TaskInit_fails p _ h, rfl, rfl, rfl⟩,
    fun h => ?_⟩
  · by_contra hc
    rw [TaskInit_succeeds p _ hc] at h
    exact absurd h (by decide)
  · rw [TaskInit_fails p _ h]
  · have hok := TaskInit_succeeds p (DnnNodeImpl.ctor en) h
    have hinv := TaskInit_inv p en hok
    have hrun : (TaskInit p (DnnNodeImpl.ctor en)).2.dnn_rt_para_.running_tasks = [] :=
      TaskInit_running p _
    refine ⟨hok, fun id => ?_, hinv.idle_nodup, hrun, hinv.tasks_length⟩
    have := hinv.cover id
    rw [hrun] at this
    simpa [TaskMap.keys] using this

/-! ## `RunInferTask`: retry, return value, timing -/

theorem invalid_argument_ne_zero : HB_DNN_INVALID_ARGUMENT ≠ 0 := by decide

theorem wait_events (p : DnnNodePara) (lib : TaskCalls) (clk : InferClock) (en : Bool)
    (node_output : DnnNodeOutput) (task : Task) (timeout_ms : Int) (events : List Event) :
    (RunInferTask.wait p lib clk en node_output task timeout_ms events).events =
      events ++ Event.WaitInferDone timeout_ms lib.WaitInferDone ::
        (if lib.WaitInferDone = 0 ∧
            (p.model_task_type = ModelTaskType.ModelInferType ∨
              p.model_task_type = ModelTaskType.ModelRoiInferType) then
          [Event.GetOutputTensors] else []) := by
  unfold RunInferTask.wait
  by_cases hw : lib.WaitInferDone ≠ 0
  · rw [if_pos hw]
    simp [hw]
  · rw [if_neg hw]
    have hw' : lib.WaitInferDone = 0 := by simpa using hw
    by_cases hg : p.model_task_type = ModelTaskType.ModelInferType ∨
        p.model_task_type = ModelTaskType.ModelRoiInferType
    · simp [hw', hg]
    · simp [hw', hg]

theorem wait_ret (p : DnnNodePara) (lib : TaskCalls) (clk : InferClock) (en : Bool)
    (node_output : DnnNodeOutput) (task : Task) (timeout_ms : Int) (events : List Event) :
    (RunInferTask.wait p lib clk en node_output task timeout_ms events).ret
      = lib.WaitInferDone := by
  unfold RunInferTask.wait
  by_cases hw : lib.WaitInferDone ≠ 0
  · rw [if_pos hw]
  · rw [if_neg hw]
    have hw' : lib.WaitInferDone = 0 := by simpa using hw
    simp [hw']

theorem wait_en (p : DnnNodePara) (lib : TaskCalls) (clk : InferClock) (en : Bool)
    (node_output : DnnNodeOutput) (task : Task) (timeout_ms : Int) (events : List Event) :
    (RunInferTask.wait p lib clk en node_output task timeout_ms events).en_set_task_para_
      = en := by
  unfold RunInferTask.wait
  by_cases hw : lib.WaitInferDone ≠ 0
  · rw [if_pos hw]
  · rw [if_neg hw]

theorem wait_task (p : DnnNodePara) (lib : TaskCalls) (clk : InferClock) (en : Bool)
    (node_output : DnnNodeOutput) (task : Task) (timeout_ms : Int) (events : List Event) :
    (RunInferTask.wait p lib clk en node_output task timeout_ms events).node_task
      = some task := by
  unfold RunInferTask.wait
  by_cases hw : lib.WaitInferDone ≠ 0
  · rw [if_pos hw]
  · rw [if_neg hw]

theorem wait_output_of_fail (p : DnnNodePara) (lib : TaskCalls) (clk : InferClock) (en : Bool)
    (node_output : DnnNodeOutput) (task : Task) (timeout_ms : Int) (events : List Event)
    (hw : lib.WaitInferDone ≠ 0) :
    (RunInferTask.wait p lib clk en node_output task timeout_ms events).node_output
      = node_output := by
  unfold RunInferTask.wait
  rw [if_pos hw]

/-- `RunInferTask` when the first `RunInfer` returns 0. -/
theorem RunInferTask_first_ok (p : DnnNodePara) (lib : TaskCalls) (clk : InferClock)
    (en : Bool) (node_output : DnnNodeOutput) (task : Task) (timeout_ms : Int)
    (h : lib.RunInfer = 0) :
    RunInferTask p lib clk en node_output (some task) timeout_ms =
      RunInferTask.wait p lib clk en node_output task timeout_ms
        [Event.RunInfer lib.RunInfer] := by
  unfold RunInferTask
  have h' : ¬ lib.RunInfer ≠ 0 := by simpa using h
  simp only
  rw [if_neg h']

/-- `RunInferTask` when the first `RunInfer` returns `HB_DNN_INVALID_ARGUMENT`
and the retry returns 0. -/
theorem RunInferTask_retry_ok (p : DnnNodePara) (lib : TaskCalls) (clk : InferClock)
    (en : Bool) (node_output : DnnNodeOutput) (task : Task) (timeout_ms : Int)
    (h : lib.RunInfer = HB_DNN_INVALID_ARGUMENT) (hr : lib.RunInferRetry = 0) :
    RunInferTask p lib clk en node_output (some task) timeout_ms =
      RunInferTask.wait p lib clk false node_output
        { task with ctrl_param := some HB_DNN_INITIALIZE_INFER_CTRL_PARAM } timeout_ms
        [Event.RunInfer lib.RunInfer, Event.SetCtrlParam HB_DNN_INITIALIZE_INFER_CTRL_PARAM,
          Event.RunInfer lib.RunInferRetry] := by
  unfold RunInferTask
  have h' : lib.RunInfer ≠ 0 := by rw [h]; exact invalid_argument_ne_zero
  simp only
  rw [if_pos h', if_pos h.symm, if_pos hr]

/-- `RunInferTask` when the first `RunInfer` returns `HB_DNN_INVALID_ARGUMENT`
and the retry fails. -/
theorem RunInferTask_retry_fails (p : DnnNodePara) (lib : TaskCalls) (clk : InferClock)
    (en : Bool) (node_output : DnnNodeOutput) (task : Task) (timeout_ms : Int)
    (h : lib.RunInfer = HB_DNN_INVALID_ARGUMENT) (hr : lib.RunInferRetry ≠ 0) :
    RunInferTask p lib clk en node_output (some task) timeout_ms =
      { ret := lib.RunInferRetry, en_set_task_para_ := en, node_output := node_output,
        node_task := some { task with ctrl_param := some HB_DNN_INITIALIZE_INFER_CTRL_PARAM },
        events :=
          [Event.RunInfer lib.RunInfer, Event.SetCtrlParam HB_DNN_INITIALIZE_INFER_CTRL_PARAM,
            Event.RunInfer lib.RunInferRetry] } := by
  unfold RunInferTask
  have h' : lib.RunInfer ≠ 0 := by rw [h]; exact invalid_argument_ne_zero
  simp only
  rw [if_pos h', if_pos h.symm, if_neg hr]

/-- `RunInferTask` when the first `RunInfer` fails with another code. -/
theorem RunInferTask_first_fails (p : DnnNodePara) (lib : TaskCalls) (clk : InferClock)
    (en : Bool) (node_output : DnnNodeOutput) (task : Task) (timeout_ms : Int)
    (h0 : lib.RunInfer ≠ 0) (h : lib.RunInfer ≠ HB_DNN_INVALID_ARGUMENT) :
    RunInferTask p lib clk en node_output (some task) timeout_ms =
      { ret := lib.RunInfer, en_set_task_para_ := en, node_output := node_output,
        node_task := some task, events := [Event.RunInfer lib.RunInfer] } := by
  unfold RunInferTask
  have h' : ¬ HB_DNN_INVALID_ARGUMENT = lib.RunInfer := fun e => h e.symm
  simp only
  rw [if_pos h0, if_neg h']

/-- C12: `RunInferTask` (called with a task) invokes the task's `RunInfer` once
or twice: twice exactly when the first call returned `HB_DNN_INVALID_ARGUMENT`;
in that case the calls made start with `RunInfer`, `SetCtrlParam` with the
default control parameter, `RunInfer`, in this order, no `RunInfer` follows, and
the task is left with the default control parameter. -/
theorem C12_RunInfer_retried_once (p : DnnNodePara) (lib : TaskCalls) (clk : InferClock)
    (en : Bool) (node_output : DnnNodeOutput) (task : Task) (timeout_ms : Int) :
    runInferCount (RunInferTask p lib clk en node_output (some task) timeout_ms).events ≤ 2 ∧
    (runInferCount (RunInferTask p lib clk en node_output (some task) timeout_ms).events = 2 ↔
      lib.RunInfer = HB_DNN_INVALID_ARGUMENT) ∧
    (lib.RunInfer ≠ HB_DNN_INVALID_ARGUMENT →
      runInferCount (RunInferTask p lib clk en node_output (some task) timeout_ms).events
        = 1) ∧
    (lib.RunInfer = HB_DNN_INVALID_ARGUMENT →
      ∃ rest : List Event,
        (RunInferTask p lib clk en node_output (some task) timeout_ms).events =
          [Event.RunInfer lib.RunInfer,
            Event.SetCtrlParam HB_DNN_INITIALIZE_INFER_CTRL_PARAM,
            Event.RunInfer lib.RunInferRetry] ++ rest ∧
        runInferCount rest = 0 ∧
        (RunInferTask p lib clk en node_output (some task) timeout_ms).node_task =
          some { task with ctrl_param := some HB_DNN_INITIALIZE_INFER_CTRL_PARAM }) := by
  have hcount : runInferCount (RunInferTask p lib clk en node_output (some task)
        timeout_ms).events = if lib.RunInfer = HB_DNN_INVALID_ARGUMENT then 2 else 1 := by
    by_cases hI : lib.RunInfer = HB_DNN_INVALID_ARGUMENT
    · rw [if_pos hI]
      by_cases hr : lib.RunInferRetry = 0
      · rw [RunInferTask_retry_ok p lib clk en node_output task timeout_ms hI hr, wait_events]
        unfold runInferCount
        split_ifs <;> simp [List.countP_cons, Event.isRunInfer]
      · rw [RunInferTask_retry_fails p lib clk en node_output task timeout_ms hI hr]
        simp [runInferCount, List.countP_cons, Event.isRunInfer]
    · rw [if_neg hI]
      by_cases h0 : lib.RunInfer = 0
      · rw [RunInferTask_first_ok p lib clk en node_output task timeout_ms h0, wait_events]
        unfold runInferCount
        split_ifs <;> simp [List.countP_cons, Event.isRunInfer]
      · rw [RunInferTask_first_fails p lib clk en node_output task timeout_ms h0 hI]
        simp [runInferCount, List.countP_cons, Event.isRunInfer]
  refine ⟨?_, ?_, ?_, ?_⟩
  · rw [hcount]
    split_ifs <;> omega
  · rw [hcount]
    by_cases hI : lib.RunInfer = HB_DNN_INVALID_ARGUMENT
    · simp [hI]
    · simp [hI]
  · intro hI
    rw [hcount, if_neg hI]
  · intro hI
    by_cases hr : lib.RunInferRetry = 0
    · rw [RunInferTask_retry_ok p lib clk en node_output task timeout_ms hI hr, wait_events,
        wait_task]
      refine ⟨_, rfl, ?_, rfl⟩
      unfold runInferCount
      split_ifs <;> simp [List.countP_cons, Event.isRunInfer]
    · rw [RunInferTask_retry_fails p lib clk en node_output task timeout_ms hI hr]
      exact ⟨[], rfl, rfl, rfl⟩

/-- The value `RunInferTask` returns, and that it is 0 exactly when the
inference goes through. -/
theorem RunInferTask_ret_zero_iff (p : DnnNodePara) (lib : TaskCalls) (clk : InferClock)
    (en : Bool) (node_output : DnnNodeOutput) (task : Task) (timeout_ms : Int) :
    (RunInferTask p lib clk en node_output (some task) timeout_ms).ret = 0 ↔ inferOk lib := by
  unfold inferOk
  by_cases hI : lib.RunInfer = HB_DNN_INVALID_ARGUMENT
  · have h0 : lib.RunInfer ≠ 0 := by rw [hI]; exact invalid_argument_ne_zero
    by_cases hr : lib.RunInferRetry = 0
    · rw [RunInferTask_retry_ok p lib clk en node_output task timeout_ms hI hr, wait_ret]
      simp [h0, hI, hr]
    · rw [RunInferTask_retry_fails p lib clk en node_output task timeout_ms hI hr]
      simp [h0, hr]
  · by_cases h0 : lib.RunInfer = 0
    · rw [RunInferTask_first_ok p lib clk en node_output task timeout_ms h0, wait_ret]
      simp [h0]
    · rw [RunInferTask_first_fails p lib clk en node_output task timeout_ms h0 hI]
      simp [h0, hI]

/-- When the inference does not go through `RunInferTask` leaves the output
object as it was and calls neither `GetOutputTensors` nor the statistics. -/
theorem RunInferTask_output_of_fail (p : DnnNodePara) (lib : TaskCalls) (clk : InferClock)
    (en : Bool) (node_output : DnnNodeOutput) (task : Task) (timeout_ms : Int)
    (h : ¬ inferOk lib) :
    (RunInferTask p lib clk en node_output (some task) timeout_ms).node_output = node_output ∧
    getOutputTensorsCount
      (RunInferTask p lib clk en node_output (some task) timeout_ms).events = 0 := by
  unfold inferOk at h
  by_cases hI : lib.RunInfer = HB_DNN_INVALID_ARGUMENT
  · by_cases hr : lib.RunInferRetry = 0
    · have hw : lib.WaitInferDone ≠ 0 := fun hw => h ⟨Or.inr ⟨hI, hr⟩, hw⟩
      rw [RunInferTask_retry_ok p lib clk en node_output task timeout_ms hI hr, wait_events,
        wait_output_of_fail _ _ _ _ _ _ _ _ hw]
      simp [getOutputTensorsCount, List.countP_cons, Event.isGetOutputTensors, hw]
    · rw [RunInferTask_retry_fails p lib clk en node_output task timeout_ms hI hr]
      simp [getOutputTensorsCount, List.countP_cons, Event.isGetOutputTensors]
  · by_cases h0 : lib.RunInfer = 0
    · have hw : lib.WaitInferDone ≠ 0 := fun hw => h ⟨Or.inl h0, hw⟩
      rw [RunInferTask_first_ok p lib clk en node_output task timeout_ms h0, wait_events,
        wait_output_of_fail _ _ _ _ _ _ _ _ hw]
      simp [getOutputTensorsCount, List.countP_cons, Event.isGetOutputTensors, hw]
    · rw [RunInferTask_first_fails p lib clk en node_output task timeout_ms h0 hI]
      simp [getOutputTensorsCount, List.countP_cons, Event.isGetOutputTensors]

/-- C14: `RunInferTask` (called with a task) returns 0 exactly when `RunInfer`
returned 0, at first or on the retry after `HB_DNN_INVALID_ARGUMENT`, and
`WaitInferDone` then returned 0.  When the first `RunInfer` fails with another
code, or the retry fails, it returns that code and calls neither
`WaitInferDone` nor `GetOutputTensors`; when `WaitInferDone` fails it returns
the code of `WaitInferDone` and does not call `GetOutputTensors`.  On each of
these failing returns the output object is as it was. -/
theorem C14_RunInferTask_return (p : DnnNodePara) (lib : TaskCalls) (clk : InferClock)
    (en : Bool) (node_output : DnnNodeOutput) (task : Task) (timeout_ms : Int) :
    ((RunInferTask p lib clk en node_output (some task) timeout_ms).ret = 0 ↔
      ((lib.RunInfer = 0 ∨
          (lib.RunInfer = HB_DNN_INVALID_ARGUMENT ∧ lib.RunInferRetry = 0)) ∧
        lib.WaitInferDone = 0)) ∧
    (lib.RunInfer ≠ 0 → lib.RunInfer ≠ HB_DNN_INVALID_ARGUMENT →
      (RunInferTask p lib clk en node_output (some task) timeout_ms).ret = lib.RunInfer ∧
      waitInferDoneCount
        (RunInferTask p lib clk en node_output (some task) timeout_ms).events = 0 ∧
      getOutputTensorsCount
        (RunInferTask p lib clk en node_output (some task) timeout_ms).events = 0 ∧
      (RunInferTask p lib clk en node_output (some task) timeout_ms).node_output
        = node_output) ∧
    (lib.RunInfer = HB_DNN_INVALID_ARGUMENT → lib.RunInferRetry ≠ 0 →
      (RunInferTask p lib clk en node_output (some task) timeout_ms).ret
        = lib.RunInferRetry ∧
      waitInferDoneCount
        (RunInferTask p lib clk en node_output (some task) timeout_ms).events = 0 ∧
      getOutputTensorsCount
        (RunInferTask p lib clk en node_output (some task) timeout_ms).events = 0 ∧
      (RunInferTask p lib clk en node_output (some task) timeout_ms).node_output
        = node_output) ∧
    ((lib.RunInfer = 0 ∨ (lib.RunInfer = HB_DNN_INVALID_ARGUMENT ∧ lib.RunInferRetry = 0)) →
      lib.WaitInferDone ≠ 0 →
      (RunInferTask p lib clk en node_output (some task) timeout_ms).ret
        = lib.WaitInferDone ∧
      waitInferDoneCount
        (RunInferTask p lib clk en node_output (some task) timeout_ms).events = 1 ∧
      getOutputTensorsCount
        (RunInferTask p lib clk en node_output (some task) timeout_ms).events = 0 ∧
      (RunInferTask p lib clk en node_output (some task) timeout_ms).node_output
        = node_output) := by
  refine ⟨RunInferTask_ret_zero_iff p lib clk en node_output task timeout_ms, ?_, ?_, ?_⟩
  · intro h0 hI
    have hfail : ¬ inferOk lib := fun h => by
      rcases h.1 with h1 | h1
      · exact h0 h1
      · exact hI h1.1
    have hout := RunInferTask_output_of_fail p lib clk en node_output task timeout_ms hfail
    refine ⟨?_, ?_, hout.2, hout.1⟩
    · rw [RunInferTask_first_fails p lib clk en node_output task timeout_ms h0 hI]
    · rw [RunInferTask_first_fails p lib clk en node_output task timeout_ms h0 hI]
      simp [waitInferDoneCount, List.countP_cons, Event.isWaitInferDone]
  · intro hI hr
    have h0 : lib.RunInfer ≠ 0 := by rw [hI]; exact invalid_argument_ne_zero
    have hfail : ¬ inferOk lib := fun h => by
      rcases h.1 with h1 | h1
      · exact h0 h1
      · exact hr h1.2
    have hout := RunInferTask_output_of_fail p lib clk en node_output task timeout_ms hfail
    refine ⟨?_, ?_, hout.2, hout.1⟩
    · rw [RunInferTask_retry_fails p lib clk en node_output task timeout_ms hI hr]
    · rw [RunInferTask_retry_fails p lib clk en node_output task timeout_ms hI hr]
      simp [waitInferDoneCount, List.countP_cons, Event.isWaitInferDone]
  · intro hok hw
    have hfail : ¬ inferOk lib := fun h => hw h.2
    have hout := RunInferTask_output_of_fail p lib clk en node_output task timeout_ms hfail
    refine ⟨?_, ?_, hout.2, hout.1⟩
    · rcases hok with h0 | ⟨hI, hr⟩
      · rw [RunInferTask_first_ok p lib clk en node_output task timeout_ms h0, wait_ret]
      · rw [RunInferTask_retry_ok p lib clk en node_output task timeout_ms hI hr, wait_ret]
    · rcases hok with h0 | ⟨hI, hr⟩
      · rw [RunInferTask_first_ok p lib clk en node_output task timeout_ms h0, wait_events]
        simp [waitInferDoneCount, List.countP_cons, Event.isWaitInferDone, hw]
      · rw [RunInferTask_retry_ok p lib clk en node_output task timeout_ms hI hr, wait_events]
        simp [waitInferDoneCount, List.countP_cons, Event.isWaitInferDone, hw]

/-- C15 fails as stated: with a statistics record in the output object and a
clock that advances, `RunInferTask` returns the failure code of `RunInfer`, and
likewise that of `WaitInferDone`, and the record is as it was: `infer_time_ms`
and the two infer timestamps still hold 0, not the 30 ms and the readings 100
and 130 of the clock. -/
theorem C15_counterexample :
    (RunInferTask twoSlots libInferFails clockTicks true outputWithStat (some plainTask)
        1000).ret = -1 ∧
    (RunInferTask twoSlots libInferFails clockTicks true outputWithStat (some plainTask)
        1000).node_output.rt_stat = some DnnNodeRunTimeStat.new ∧
    (RunInferTask twoSlots libWaitFails clockTicks true outputWithStat (some plainTask)
        1000).ret = -1 ∧
    (RunInferTask twoSlots libWaitFails clockTicks true outputWithStat (some plainTask)
        1000).node_output.rt_stat = some DnnNodeRunTimeStat.new ∧
    DnnNodeRunTimeStat.new.infer_time_ms = 0 ∧
    DnnNodeRunTimeStat.new.infer_timespec_start = 0 ∧
    DnnNodeRunTimeStat.new.infer_timespec_end = 0 ∧
    clockTicks.done_ms - clockTicks.start_ms = 30 ∧
    clockTicks.start_ts = 100 ∧ clockTicks.done_ts = 130 := by
  decide

/-- What the tail of `RunInferTask` writes into a statistics record once
`WaitInferDone` has returned 0. -/
theorem wait_stat_of_ok (p : DnnNodePara) (lib : TaskCalls) (clk : InferClock) (en : Bool)
    (node_output : DnnNodeOutput) (task : Task) (timeout_ms : Int) (events : List Event)
    (rt_stat : DnnNodeRunTimeStat) (hrt : node_output.rt_stat = some rt_stat)
    (hw : lib.WaitInferDone = 0) :
    (RunInferTask.wait p lib clk en node_output task timeout_ms events).node_output.rt_stat =
      some { rt_stat with
        infer_time_ms := clk.done_ms - clk.start_ms,
        infer_timespec_start := clk.start_ts,
        infer_timespec_end := clk.done_ts,
        parse_timespec_start := clk.parse_start_ts,
        parse_time_ms := clk.parse_done_ms - clk.parse_start_ms,
        parse_timespec_end := clk.parse_done_ts } := by
  unfold RunInferTask.wait
  have hw' : ¬ lib.WaitInferDone ≠ 0 := by simpa using hw
  rw [if_neg hw']
  simp only [hrt]
  split_ifs <;> rfl

/-- C15 as amended: for every call of `RunInferTask` with a task and a non-null
`rt_stat`, when `RunInfer` returns 0 (at first or on the retry) and
`WaitInferDone` returns 0, `infer_time_ms` and the infer start and end
timestamps are written before it returns (the time from entry to the end of the
wait, and the two clock readings); when `RunInfer` or `WaitInferDone` fails it
returns without writing to `rt_stat`. -/
theorem C15_timing_written_when_ok (p : DnnNodePara) (lib : TaskCalls) (clk : InferClock)
    (en : Bool) (node_output : DnnNodeOutput) (task : Task) (timeout_ms : Int)
    (rt_stat : DnnNodeRunTimeStat) (hrt : node_output.rt_stat = some rt_stat) :
    (inferOk lib →
      ∃ written : DnnNodeRunTimeStat,
        (RunInferTask p lib clk en node_output (some task) timeout_ms).node_output.rt_stat
          = some written ∧
        written.infer_time_ms = clk.done_ms - clk.start_ms ∧
        written.infer_timespec_start = clk.start_ts ∧
        written.infer_timespec_end = clk.done_ts) ∧
    (¬ inferOk lib →
      (RunInferTask p lib clk en node_output (some task) timeout_ms).node_output.rt_stat
        = some rt_stat) := by
  constructor
  · intro hok
    rcases hok.1 with h0 | ⟨hI, hr⟩
    · rw [RunInferTask_first_ok p lib clk en node_output task timeout_ms h0,
        wait_stat_of_ok _ _ _ _ _ _ _ _ rt_stat hrt hok.2]
      exact ⟨_, rfl, rfl, rfl, rfl⟩
    · rw [RunInferTask_retry_ok p lib clk en node_output task timeout_ms hI hr,
        wait_stat_of_ok _ _ _ _ _ _ _ _ rt_stat hrt hok.2]
      exact ⟨_, rfl, rfl, rfl, rfl⟩
  · intro hfail
    rw [(RunInferTask_output_of_fail p lib clk en node_output task timeout_ms hfail).1, hrt]

/-- C15 as amended, at a concrete input: an inference that goes through on the
advancing clock writes 30 ms and the readings 100 and 130. -/
theorem C15_timing_written_when_ok_witness :
    ∃ written : DnnNodeRunTimeStat,
      (RunInferTask twoSlots libOk clockTicks true outputWithStat (some plainTask)
          1000).node_output.rt_stat = some written ∧
      written.infer_time_ms = clockTicks.done_ms - clockTicks.start_ms ∧
      written.infer_timespec_start = clockTicks.start_ts ∧
      written.infer_timespec_end = clockTicks.done_ts :=
  (C15_timing_written_when_ok twoSlots libOk clockTicks true outputWithStat plainTask 1000
    DnnNodeRunTimeStat.new rfl).1 (by decide)

/-! ## The flag `en_set_task_para_` -/

theorem RunInferTask_en (p : DnnNodePara) (lib : TaskCalls) (clk : InferClock)
    (en : Bool) (node_output : DnnNodeOutput) (task : Task) (timeout_ms : Int) :
    (RunInferTask p lib clk en node_output (some task) timeout_ms).en_set_task_para_ =
      if lib.RunInfer = HB_DNN_INVALID_ARGUMENT ∧ lib.RunInferRetry = 0 then false else en := by
  by_cases hI : lib.RunInfer = HB_DNN_INVALID_ARGUMENT
  · by_cases hr : lib.RunInferRetry = 0
    · rw [RunInferTask_retry_ok p lib clk en node_output task timeout_ms hI hr, wait_en,
        if_pos ⟨hI, hr⟩]
    · rw [RunInferTask_retry_fails p lib clk en node_output task timeout_ms hI hr,
        if_neg (fun h => hr h.2)]
  · rw [if_neg (fun h => hI h.1)]
    by_cases h0 : lib.RunInfer = 0
    · rw [RunInferTask_first_ok p lib clk en node_output task timeout_ms h0, wait_en]
    · rw [RunInferTask_first_fails p lib clk en node_output task timeout_ms h0 hI]

theorem makeTask_ctrl_none (p : DnnNodePara) (task : Task)
    (h : AllocTask.makeTask p = some task) : task.ctrl_param = none := by
  unfold AllocTask.makeTask at h
  cases hk : p.model_task_type <;> rw [hk] at h <;> simp at h <;> rw [← h]

theorem finish_en_false (t : Target) (task : Task) (tid core : Int) (s : DnnNodeImpl)
    (h : s.en_set_task_para_ = false) :
    (AllocTask.finish t task tid core s).2.en_set_task_para_ = false := by
  unfold AllocTask.finish
  by_cases hc : tid < 0 ∨ tid ≥ (s.dnn_rt_para_.tasks.length : Int)
  · rw [if_pos hc]
    exact h
  · rw [if_neg hc]
    simp [h]

theorem finish_task_of_en_false (t : Target) (task : Task) (tid core : Int) (s : DnnNodeImpl)
    (h : s.en_set_task_para_ = false) (hv : 0 ≤ (AllocTask.finish t task tid core s).1) :
    GetTask (AllocTask.finish t task tid core s).2 (AllocTask.finish t task tid core s).1
      = some task := by
  unfold AllocTask.finish at hv ⊢
  by_cases hc : tid < 0 ∨ tid ≥ (s.dnn_rt_para_.tasks.length : Int)
  · rw [if_pos hc] at hv
    simp at hv
  · rw [if_neg hc]
    have hlt : tid.toNat < s.dnn_rt_para_.tasks.length := by omega
    simp [GetTask, hc, hlt, h]

/-- With the flag off at the call and at the end of the wait, `AllocTask` leaves
the flag off, and the task it stores for a valid id has no control parameter
set. -/
theorem AllocTask_of_en_false (t : Target) (p : DnnNodePara) (timeout_ms : Int) (now : Nat)
    (w : WaitEnd) (self : DnnNodeImpl) (r : Int × DnnNodeImpl)
    (hr : AllocTask t p timeout_ms now w self = some r)
    (hs : self.en_set_task_para_ = false) (hw : w.self.en_set_task_para_ = false) :
    r.2.en_set_task_para_ = false ∧
    (0 ≤ r.1 → ∃ task : Task, GetTask r.2 r.1 = some task ∧ task.ctrl_param = none) := by
  unfold AllocTask at hr
  rcases hm : AllocTask.makeTask p with _ | task
  · simp only [hm] at hr
    cases hr
    exact ⟨hs, fun h => by simp at h⟩
  · have hnone := makeTask_ctrl_none p task hm
    simp only [hm] at hr
    have key : ∀ (tid core : Int) (s : DnnNodeImpl),
        AllocTask.finish t task tid core s = r → s.en_set_task_para_ = false →
        r.2.en_set_task_para_ = false ∧
        (0 ≤ r.1 → ∃ task : Task, GetTask r.2 r.1 = some task ∧ task.ctrl_param = none) := by
      intro tid core s hfin hse
      rw [← hfin]
      exact ⟨finish_en_false t task tid core s hse,
        fun hv => ⟨task, finish_task_of_en_false t task tid core s hse hv, hnone⟩⟩
    split_ifs at hr
    all_goals
      first
        | exact key _ _ _ (Option.some.inj hr) hs
        | exact key _ _ _ (Option.some.inj hr) hw
        | (cases hr; exact ⟨hw, fun h => by simp at h⟩)

theorem ReleaseTask_en (p : DnnNodePara) (self : DnnNodeImpl) (task_id : Int) :
    (ReleaseTask p self task_id).2.en_set_task_para_ = self.en_set_task_para_ := by
  by_cases hneg : task_id < 0
  · rw [show ReleaseTask p self task_id = (-1, self) by unfold ReleaseTask; rw [if_pos hneg]]
  · rcases hf : self.dnn_rt_para_.running_tasks.find task_id with _ | last
    · rw [show ReleaseTask p self task_id = (-1, self) by
        unfold ReleaseTask; rw [if_neg hneg, hf]]
    · rw [ReleaseTask_of_running p self task_id last (by omega) hf]

theorem nodeCall_en_false (t : Target) (p : DnnNodePara) (self : DnnNodeImpl) (c : NodeCall)
    (h : self.en_set_task_para_ = false) : (c.exec t p self).en_set_task_para_ = false := by
  cases c with
  | pool c =>
    cases c with
    | alloc timeout_ms now ok =>
      simp only [NodeCall.exec, Call.exec]
      rcases hr : AllocTask t p timeout_ms now { ok := ok, self := self } self with _ | r
      · exact h
      · exact (AllocTask_of_en_false t p timeout_ms now _ self r hr h h).1
    | release task_id =>
      simp only [NodeCall.exec, Call.exec]
      rw [ReleaseTask_en]
      exact h
  | infer lib clk node_output task_id timeout_ms =>
    simp only [NodeCall.exec]
    rcases hg : GetTask self task_id with _ | task
    · exact h
    · simp only [RunInferTask_en, h]
      split_ifs <;> rfl

theorem runNode_en_false (t : Target) (p : DnnNodePara) (calls : List NodeCall) :
    ∀ self : DnnNodeImpl, self.en_set_task_para_ = false →
      (runNode t p self calls).en_set_task_para_ = false := by
  induction calls with
  | nil => exact fun _ h => h
  | cons c cs ih => exact fun self h => ih _ (nodeCall_en_false t p self c h)

/-- C13: when `RunInferTask` runs on the task of a slot, the first `RunInfer`
returns `HB_DNN_INVALID_ARGUMENT` and the retry returns 0, the flag
`en_set_task_para_` is false afterwards and is false after every further
sequence of `AllocTask`, `ReleaseTask` and `RunInferTask` calls; an `AllocTask`
that then returns a valid id has stored a task on which no control parameter
was set. -/
theorem C13_flag_stays_off (t : Target) (p : DnnNodePara) (lib : TaskCalls) (clk : InferClock)
    (node_output : DnnNodeOutput) (self : DnnNodeImpl) (task_id : Int) (task : Task)
    (timeout_ms : Int) (calls : List NodeCall) (timeout_ms' : Int) (now : Nat) (ok : Bool)
    (hget : GetTask self task_id = some task)
    (hfirst : lib.RunInfer = HB_DNN_INVALID_ARGUMENT) (hretry : lib.RunInferRetry = 0) :
    ((NodeCall.infer lib clk node_output task_id timeout_ms).exec t p self).en_set_task_para_
      = false ∧
    (runNode t p ((NodeCall.infer lib clk node_output task_id timeout_ms).exec t p self)
      calls).en_set_task_para_ = false ∧
    (∀ id : Int,
      ((Call.alloc timeout_ms' now ok).exec t p
        (runNode t p ((NodeCall.infer lib clk node_output task_id timeout_ms).exec t p self)
          calls)).1 = some id →
      0 ≤ id →
      ∃ made : Task,
        GetTask ((Call.alloc timeout_ms' now ok).exec t p
          (runNode t p ((NodeCall.infer lib clk node_output task_id timeout_ms).exec t p self)
            calls)).2 id = some made ∧
        made.ctrl_param = none) := by
  have h1 : ((NodeCall.infer lib clk node_output task_id timeout_ms).exec t p
      self).en_set_task_para_ = false := by
    simp only [NodeCall.exec, hget, RunInferTask_en]
    rw [if_pos ⟨hfirst, hretry⟩]
  have h2 := runNode_en_false t p calls _ h1
  refine ⟨h1, h2, ?_⟩
  generalize runNode t p ((NodeCall.infer lib clk node_output task_id timeout_ms).exec t p self)
    calls = s at h2
  intro id hid h0
  simp only [Call.exec] at hid ⊢
  rcases hr : AllocTask t p timeout_ms' now { ok := ok, self := s } s with _ | r
  · rw [hr] at hid
    simp at hid
  · rw [hr] at hid
    simp only [Option.some.injEq] at hid
    have := (AllocTask_of_en_false t p timeout_ms' now _ s r hr h2 h2).2 (by omega)
    rw [hid] at this
    exact this

/-- C13 at a concrete input: on the two-slot node with slot 0 allocated, the
first `RunInfer` of its task is rejected and the retry succeeds; the slot is
then released and the flag is still false. -/
theorem C13_flag_stays_off_witness :
    (runNode plainTarget twoSlots
      ((NodeCall.infer libRetryOk clockZero DnnNodeOutput.new 0 1000).exec plainTarget twoSlots
        twoSlotsOneRunning)
      [NodeCall.pool (Call.release 0)]).en_set_task_para_ = false :=
  (C13_flag_stays_off plainTarget twoSlots libRetryOk clockZero DnnNodeOutput.new
    twoSlotsOneRunning 0 boundTask 1000 [NodeCall.pool (Call.release 0)] 0 7 true
    (by decide) (by decide) (by decide)).2.1

/-! ## `RunImpl`: the ROI skip and the path through `RunInferTask` -/

/-- `RunImpl` on an ROI model with no ROI in the frame. -/
theorem RunImpl_of_skips (t : Target) (p : DnnNodePara) (lib : TaskCalls) (fps : FpsReadings)
    (clk : InferClock) (now : Nat) (w : WaitEnd) (self : DnnNodeImpl) (input_type : InputType)
    (output : Option DnnNodeOutput) (post_process : Bool) (rois : Option (List hbDNNRoi))
    (alloctask_timeout_ms infer_timeout_ms : Int) (h : RunImpl.skips p rois) :
    RunImpl t p lib fps clk now w self input_type output post_process rois alloctask_timeout_ms
        infer_timeout_ms =
      some { ret := 0, self := self,
             dnn_output := RunImpl.counted fps (RunImpl.prepared fps output rois),
             events := Event.output_stat_Update ::
               (if post_process then
                 [Event.post_process (RunImpl.counted fps (RunImpl.prepared fps output rois))]
                else []) } := by
  unfold RunImpl.skips at h
  unfold RunImpl
  simp only [no_roi_iff]
  rw [if_pos h]
  rfl

/-- `RunImpl` when it gets as far as `RunInferTask`. -/
theorem RunImpl_of_reaches (t : Target) (p : DnnNodePara) (lib : TaskCalls) (fps : FpsReadings)
    (clk : InferClock) (now : Nat) (w : WaitEnd) (self : DnnNodeImpl) (input_type : InputType)
    (output : Option DnnNodeOutput) (post_process : Bool) (rois : Option (List hbDNNRoi))
    (alloctask_timeout_ms infer_timeout_ms : Int) (task_id : Int) (s : DnnNodeImpl)
    (h : RunImpl.reaches t p lib now w self input_type rois alloctask_timeout_ms task_id s) :
    RunImpl t p lib fps clk now w self input_type output post_process rois alloctask_timeout_ms
        infer_timeout_ms =
      some { ret := 0,
             self := (ReleaseTask p (RunImpl.inferred s task_id
               (RunInferTask p lib clk s.en_set_task_para_ (RunImpl.prepared fps output rois)
                 (GetTask s task_id) infer_timeout_ms)) task_id).2,
             dnn_output := RunImpl.delivered fps
               (RunInferTask p lib clk s.en_set_task_para_ (RunImpl.prepared fps output rois)
                 (GetTask s task_id) infer_timeout_ms),
             events := RunImpl.closing
               ([Event.AllocTask task_id] ++ (PreProcess p lib s input_type task_id rois).2 ++
                 (RunProcessInput lib input_type).2 ++
                 (RunInferTask p lib clk s.en_set_task_para_ (RunImpl.prepared fps output rois)
                   (GetTask s task_id) infer_timeout_ms).events)
               (RunInferTask p lib clk s.en_set_task_para_ (RunImpl.prepared fps output rois)
                 (GetTask s task_id) infer_timeout_ms).ret
               task_id
               (ReleaseTask p (RunImpl.inferred s task_id
                 (RunInferTask p lib clk s.en_set_task_para_ (RunImpl.prepared fps output rois)
                   (GetTask s task_id) infer_timeout_ms)) task_id).1
               post_process
               (RunImpl.delivered fps
                 (RunInferTask p lib clk s.en_set_task_para_ (RunImpl.prepared fps output rois)
                   (GetTask s task_id) infer_timeout_ms)) } := by
  obtain ⟨hskip, halloc, h0, hget, hpre, hinp⟩ := h
  have hid : ¬ task_id < 0 := by omega
  have hpre' : ¬ (PreProcess p lib s input_type task_id rois).1 ≠ 0 := by simpa using hpre
  have hinp' : ¬ (RunProcessInput lib input_type).1 ≠ 0 := by simpa using hinp
  unfold RunImpl.skips at hskip
  unfold RunImpl
  simp only [no_roi_iff]
  rw [if_neg hskip, halloc]
  simp only
  rw [if_neg hid]
  rcases hg : GetTask s task_id with _ | task
  · exact absurd hg hget
  · simp only
    rw [if_neg hpre', if_neg hinp']
    rfl

/-! ## `Run` in asynchronous mode, and the ROI skip of `RunImpl` -/

/-- C16: in asynchronous mode `Run` returns -1 and leaves the worker queue as
it was when `GetTaskNum()` is at least `msg_limit_count_`; otherwise it returns 0
and the queue is the old one with exactly one unit of work put at its end, the
`RunImpl` call with the arguments of `Run`.  In both cases `Run` itself does
nothing on the object and calls nothing. -/
theorem C16_async_Run_admission (t : Target) (p : DnnNodePara) (lib : TaskCalls)
    (fps : FpsReadings) (clk : InferClock) (now : Nat) (w : WaitEnd) (self : DnnNodeImpl)
    (thread_pool_ : ThreadPool) (input_type : InputType) (output : Option DnnNodeOutput)
    (post_process : Bool) (rois : Option (List hbDNNRoi))
    (alloctask_timeout_ms infer_timeout_ms : Int) :
    (thread_pool_.GetTaskNum ≥ thread_pool_.msg_limit_count_ →
      Run t p lib fps clk now w self thread_pool_ input_type output post_process rois false
          alloctask_timeout_ms infer_timeout_ms =
        some { ret := -1, self := self, thread_pool_ := thread_pool_, events := [] }) ∧
    (thread_pool_.GetTaskNum < thread_pool_.msg_limit_count_ →
      ∃ r unit,
        Run t p lib fps clk now w self thread_pool_ input_type output post_process rois false
          alloctask_timeout_ms infer_timeout_ms = some r ∧
        r.ret = 0 ∧ r.self = self ∧ r.events = [] ∧
        r.thread_pool_.msg_handle_ = thread_pool_.msg_handle_ ++ [unit] ∧
        r.thread_pool_.GetTaskNum = thread_pool_.GetTaskNum + 1 ∧
        r.thread_pool_.msg_limit_count_ = thread_pool_.msg_limit_count_ ∧
        ∀ (now1 : Nat) (w1 : WaitEnd) (self1 : DnnNodeImpl),
          unit.work t p lib fps clk now1 w1 self1 =
            RunImpl t p lib fps clk now1 w1 self1 input_type output post_process rois
              alloctask_timeout_ms infer_timeout_ms) := by
  constructor
  · intro h
    unfold Run
    rw [if_neg (by simp), if_pos h]
  · intro h
    have h1 : ¬ thread_pool_.GetTaskNum ≥ thread_pool_.msg_limit_count_ := by omega
    refine ⟨{ ret := 0, self := self,
              thread_pool_ := thread_pool_.PostTask
                (RunArgs.mk input_type output post_process rois alloctask_timeout_ms
                  infer_timeout_ms),
              events := [] },
      RunArgs.mk input_type output post_process rois alloctask_timeout_ms infer_timeout_ms,
      ?_, ?_⟩
    · unfold Run
      rw [if_neg (by simp), if_neg h1]
    · refine ⟨rfl, rfl, rfl, rfl, ?_, rfl, ?_⟩
      · simp [ThreadPool.GetTaskNum, ThreadPool.PostTask]
      · intro now1 w1 self1
        rfl

/-- C17: on an ROI model, when `rois` is null or empty, `RunImpl` returns 0
without a call of `AllocTask` (the object, and with it `idle_tasks`,
`running_tasks` and `tasks`, is as before), without `RunInfer` and without
`GetOutputTensors`; the output fps statistic is updated exactly once and the
callback is invoked exactly once, with the output object whose tensors are those
the caller passed (none for an object made by `RunImpl`). -/
theorem C17_roi_skip (t : Target) (p : DnnNodePara) (lib : TaskCalls) (fps : FpsReadings)
    (clk : InferClock) (now : Nat) (w : WaitEnd) (self : DnnNodeImpl) (input_type : InputType)
    (output : Option DnnNodeOutput) (rois : Option (List hbDNNRoi))
    (alloctask_timeout_ms infer_timeout_ms : Int)
    (htype : p.model_task_type = ModelTaskType.ModelRoiInferType)
    (hrois : rois = none ∨ rois = some []) :
    ∃ r : RunImplResult,
      RunImpl t p lib fps clk now w self input_type output true rois alloctask_timeout_ms
        infer_timeout_ms = some r ∧
      r.ret = 0 ∧
      r.self = self ∧
      r.self.dnn_rt_para_.idle_tasks = self.dnn_rt_para_.idle_tasks ∧
      r.self.dnn_rt_para_.running_tasks = self.dnn_rt_para_.running_tasks ∧
      r.self.dnn_rt_para_.tasks = self.dnn_rt_para_.tasks ∧
      allocTaskCount r.events = 0 ∧
      runInferCount r.events = 0 ∧
      getOutputTensorsCount r.events = 0 ∧
      outputStatUpdateCount r.events = 1 ∧
      callbackCount r.events = 1 ∧
      r.events = [Event.output_stat_Update, Event.post_process r.dnn_output] ∧
      r.dnn_output.output_tensors =
        (match output with
          | some output => output.output_tensors
          | none => []) := by
  refine ⟨_, RunImpl_of_skips t p lib fps clk now w self input_type output true rois
    alloctask_timeout_ms infer_timeout_ms ⟨htype, hrois⟩, rfl, rfl, rfl, rfl, rfl, ?_, ?_, ?_, ?_, ?_,
    ?_, ?_⟩
  · simp [allocTaskCount, Event.isAllocTask]
  · simp [runInferCount, Event.isRunInfer]
  · simp [getOutputTensorsCount, Event.isGetOutputTensors]
  · simp [outputStatUpdateCount, Event.isOutputStatUpdate]
  · simp [callbackCount]
  · simp
  · cases output <;> rfl

/-- C17 at a concrete input: the two-slot ROI node, called with no ROI list. -/
theorem C17_roi_skip_witness :
    ∃ r : RunImplResult,
      RunImpl plainTarget roiSlots libOk fpsQuiet clockZero 7
        { ok := true, self := roiSlotsInit } roiSlotsInit InputType.DNN_INPUT none true none
        100 1000 = some r ∧
      r.ret = 0 ∧
      r.self = roiSlotsInit ∧
      r.self.dnn_rt_para_.idle_tasks = roiSlotsInit.dnn_rt_para_.idle_tasks ∧
      r.self.dnn_rt_para_.running_tasks = roiSlotsInit.dnn_rt_para_.running_tasks ∧
      r.self.dnn_rt_para_.tasks = roiSlotsInit.dnn_rt_para_.tasks ∧
      allocTaskCount r.events = 0 ∧
      runInferCount r.events = 0 ∧
      getOutputTensorsCount r.events = 0 ∧
      outputStatUpdateCount r.events = 1 ∧
      callbackCount r.events = 1 ∧
      r.events = [Event.output_stat_Update, Event.post_process r.dnn_output] ∧
      r.dnn_output.output_tensors = [] :=
  C17_roi_skip plainTarget roiSlots libOk fpsQuiet clockZero 7
    { ok := true, self := roiSlotsInit } roiSlotsInit InputType.DNN_INPUT none none 100 1000
    (by decide) (Or.inl rfl)

/-! ## What `RunImpl` does when `RunInferTask` fails -/

theorem setInputs_taskCalls (lib : TaskCalls) (input_type : InputType) :
    ∀ e ∈ (PreProcess.setInputs lib input_type).2, e.isTaskCall = true := by
  cases input_type <;> simp [PreProcess.setInputs, Event.isTaskCall]

theorem PreProcess_taskCalls (p : DnnNodePara) (lib : TaskCalls) (self : DnnNodeImpl)
    (input_type : InputType) (task_id : Int) (rois : Option (List hbDNNRoi)) :
    ∀ e ∈ (PreProcess p lib self input_type task_id rois).2, e.isTaskCall = true := by
  have hs := setInputs_taskCalls lib input_type
  unfold PreProcess
  by_cases h0 : task_id < 0
  · rw [if_pos h0]
    simp
  · rw [if_neg h0]
    cases p.model_task_type <;> cases rois <;> cases GetTask self task_id <;>
      simp only [] <;> (try split_ifs) <;>
      simp [Event.isTaskCall] <;> (try exact hs)

theorem RunProcessInput_taskCalls (lib : TaskCalls) (input_type : InputType) :
    ∀ e ∈ (RunProcessInput lib input_type).2, e.isTaskCall = true := by
  unfold RunProcessInput
  split_ifs <;> simp [Event.isTaskCall]

theorem RunInferTask_taskCalls (p : DnnNodePara) (lib : TaskCalls) (clk : InferClock)
    (en : Bool) (node_output : DnnNodeOutput) (task : Task) (timeout_ms : Int) :
    ∀ e ∈ (RunInferTask p lib clk en node_output (some task) timeout_ms).events,
      e.isTaskCall = true := by
  by_cases hI : lib.RunInfer = HB_DNN_INVALID_ARGUMENT
  · by_cases hr : lib.RunInferRetry = 0
    · rw [RunInferTask_retry_ok p lib clk en node_output task timeout_ms hI hr, wait_events]
      intro e he
      simp only [List.mem_append, List.mem_cons, List.mem_singleton] at he
      rcases he with he | he | he
      · rcases he with he | he | he | he
        · rw [he]; rfl
        · rw [he]; rfl
        · rw [he]; rfl
        · cases he
      · rw [he]; rfl
      · split_ifs at he
        · simp at he
          rw [he]; rfl
        · cases he
    · rw [RunInferTask_retry_fails p lib clk en node_output task timeout_ms hI hr]
      intro e he
      simp only [List.mem_cons] at he
      rcases he with he | he | he | he
      · rw [he]; rfl
      · rw [he]; rfl
      · rw [he]; rfl
      · cases he
  · by_cases h0 : lib.RunInfer = 0
    · rw [RunInferTask_first_ok p lib clk en node_output task timeout_ms h0, wait_events]
      intro e he
      simp only [List.mem_append, List.mem_cons, List.mem_singleton] at he
      rcases he with he | he | he
      · rcases he with he | he
        · rw [he]; rfl
        · cases he
      · rw [he]; rfl
      · split_ifs at he
        · simp at he
          rw [he]; rfl
        · cases he
    · rw [RunInferTask_first_fails p lib clk en node_output task timeout_ms h0 hI]
      intro e he
      simp only [List.mem_cons] at he
      rcases he with he | he
      · rw [he]; rfl
      · cases he

theorem callbackCount_of_taskCalls (events : List Event)
    (h : ∀ e ∈ events, e.isTaskCall = true) : callbackCount events = 0 := by
  induction events with
  | nil => rfl
  | cons e rest ih =>
    have he := h e (List.mem_cons_self _ _)
    have hrest := ih (fun x hx => h x (List.mem_cons_of_mem _ hx))
    cases e <;> simp [Event.isTaskCall] at he <;> simp [callbackCount, hrest]

theorem releaseCount_of_taskCalls (task_id : Int) (events : List Event)
    (h : ∀ e ∈ events, e.isTaskCall = true) : releaseCount task_id events = 0 := by
  induction events with
  | nil => rfl
  | cons e rest ih =>
    have he := h e (List.mem_cons_self _ _)
    have hrest := ih (fun x hx => h x (List.mem_cons_of_mem _ hx))
    cases e <;> simp [Event.isTaskCall] at he <;> simp [releaseCount, hrest]

theorem outputStatUpdateCount_of_taskCalls (events : List Event)
    (h : ∀ e ∈ events, e.isTaskCall = true) : outputStatUpdateCount events = 0 := by
  unfold outputStatUpdateCount
  rw [List.countP_eq_zero]
  intro e he
  have := h e he
  cases e <;> simp [Event.isTaskCall] at this <;> simp [Event.isOutputStatUpdate]

theorem releaseCount_append (task_id : Int) (a b : List Event) :
    releaseCount task_id (a ++ b) = releaseCount task_id a + releaseCount task_id b := by
  induction a with
  | nil => simp [releaseCount]
  | cons e rest ih =>
    cases e <;> simp [releaseCount, ih]
    split_ifs <;> omega

/-- The calls `RunImpl` makes on the task object, up to and with
`RunInferTask`, are calls of its methods. -/
theorem RunImpl_done_taskCalls (p : DnnNodePara) (lib : TaskCalls) (clk : InferClock)
    (s : DnnNodeImpl) (input_type : InputType) (task_id : Int) (rois : Option (List hbDNNRoi))
    (node_output : DnnNodeOutput) (task : Task) (infer_timeout_ms : Int) :
    ∀ e ∈ (PreProcess p lib s input_type task_id rois).2 ++ (RunProcessInput lib input_type).2 ++
        (RunInferTask p lib clk s.en_set_task_para_ node_output (some task)
          infer_timeout_ms).events,
      e.isTaskCall = true := by
  intro e he
  simp only [List.mem_append] at he
  rcases he with (he | he) | he
  · exact PreProcess_taskCalls _ _ _ _ _ _ e he
  · exact RunProcessInput_taskCalls _ _ e he
  · exact RunInferTask_taskCalls _ _ _ _ _ _ _ e he

/-- An `AllocTask` that returns a valid id leaves that id as a key of
`running_tasks`, however a wait inside it ended. -/
theorem AllocTask_running_of_valid (t : Target) (p : DnnNodePara) (timeout_ms : Int) (now : Nat)
    (w : WaitEnd) (self : DnnNodeImpl) (r : Int × DnnNodeImpl)
    (hr : AllocTask t p timeout_ms now w self = some r) (hid : 0 ≤ r.1) :
    r.1 ∈ r.2.dnn_rt_para_.running_tasks.keys := by
  unfold AllocTask at hr
  rcases hm : AllocTask.makeTask p with _ | task
  · simp only [hm] at hr
    cases hr
    simp at hid
  · simp only [hm] at hr
    have key : ∀ (core : Int) (s0 : DnnNodeImpl),
        AllocTask.finish t task
            (AllocTask.alloc_task t.order now (-1) core s0.dnn_rt_para_).1
            (AllocTask.alloc_task t.order now (-1) core s0.dnn_rt_para_).2.1
            { s0 with dnn_rt_para_ :=
                (AllocTask.alloc_task t.order now (-1) core s0.dnn_rt_para_).2.2 } = r →
        r.1 ∈ r.2.dnn_rt_para_.running_tasks.keys := by
      intro core s0 hfin
      rw [← hfin] at hid ⊢
      rw [finish_valid _ _ _ _ _ hid, finish_running]
      have hv := finish_valid _ _ _ _ _ hid
      rw [hv] at hid
      unfold AllocTask.alloc_task at hid ⊢
      rcases hb : TaskMap.begin t.order s0.dnn_rt_para_.idle_tasks with _ | e
      · rw [hb] at hid
        simp at hid
      · simp [TaskMap.mem_keys_insert]
    have key2 : ∀ (s0 : DnnNodeImpl), AllocTask.finish t task (-1) HB_BPU_CORE_0 s0 = r →
        r.1 ∈ r.2.dnn_rt_para_.running_tasks.keys := by
      intro s0 hfin
      rw [← hfin] at hid
      have hv := finish_valid _ _ _ _ _ hid
      rw [hv] at hid
      simp at hid
    split_ifs at hr
    all_goals
      first
        | exact key _ _ (Option.some.inj hr)
        | exact key2 _ (Option.some.inj hr)

/-- `RunImpl` when it gets as far as `RunInferTask` and the inference does not
go through: the call returns 0 with the output object as it was prepared, after
`ReleaseTask` and, if one was passed, the callback. -/
theorem RunImpl_of_infer_fail (t : Target) (p : DnnNodePara) (lib : TaskCalls)
    (fps : FpsReadings) (clk : InferClock) (now : Nat) (w : WaitEnd) (self : DnnNodeImpl)
    (input_type : InputType) (output : Option DnnNodeOutput) (post_process : Bool)
    (rois : Option (List hbDNNRoi)) (alloctask_timeout_ms infer_timeout_ms : Int)
    (task_id : Int) (s : DnnNodeImpl)
    (h : RunImpl.reaches t p lib now w self input_type rois alloctask_timeout_ms task_id s)
    (hfail : ¬ inferOk lib) :
    (RunInferTask p lib clk s.en_set_task_para_ (RunImpl.prepared fps output rois)
      (GetTask s task_id) infer_timeout_ms).ret ≠ 0 ∧
    ∃ (last : DnnNodeTask) (done : List Event),
      s.dnn_rt_para_.running_tasks.find task_id = some last ∧
      (∀ e ∈ done, e.isTaskCall = true) ∧
      RunImpl t p lib fps clk now w self input_type output post_process rois
          alloctask_timeout_ms infer_timeout_ms =
        some { ret := 0,
               self := (ReleaseTask p (RunImpl.inferred s task_id
                 (RunInferTask p lib clk s.en_set_task_para_ (RunImpl.prepared fps output rois)
                   (GetTask s task_id) infer_timeout_ms)) task_id).2,
               dnn_output := RunImpl.prepared fps output rois,
               events := Event.AllocTask task_id :: done ++ Event.ReleaseTask task_id 0 ::
                 (if post_process then [Event.post_process (RunImpl.prepared fps output rois)]
                  else []) } ∧
      (ReleaseTask p (RunImpl.inferred s task_id
        (RunInferTask p lib clk s.en_set_task_para_ (RunImpl.prepared fps output rois)
          (GetTask s task_id) infer_timeout_ms)) task_id).2.dnn_rt_para_.idle_tasks =
        s.dnn_rt_para_.idle_tasks.insert task_id
          { task_id := task_id, alloc_tp := 0,
            bpuCoreId :=
              if (p.bpu_core_ids.length : Int) = p.task_num ∧ task_id < p.task_num ∧
                  p.bpu_core_ids.getD task_id.toNat HB_BPU_CORE_ANY ≠ HB_BPU_CORE_ANY then
                last.bpuCoreId
              else alternateCore last.bpuCoreId } ∧
      (ReleaseTask p (RunImpl.inferred s task_id
        (RunInferTask p lib clk s.en_set_task_para_ (RunImpl.prepared fps output rois)
          (GetTask s task_id) infer_timeout_ms)) task_id).2.dnn_rt_para_.running_tasks =
        s.dnn_rt_para_.running_tasks.erase task_id := by
  have heq := RunImpl_of_reaches t p lib fps clk now w self input_type output post_process rois
    alloctask_timeout_ms infer_timeout_ms task_id s h
  obtain ⟨hskip, halloc, h0, hget, hpre, hinp⟩ := h
  rcases hg : GetTask s task_id with _ | task
  · exact absurd hg hget
  · rw [hg] at heq
    have hret : (RunInferTask p lib clk s.en_set_task_para_ (RunImpl.prepared fps output rois)
        (some task) infer_timeout_ms).ret ≠ 0 := fun h0 =>
      hfail ((RunInferTask_ret_zero_iff _ _ _ _ _ _ _).1 h0)
    have hout := RunInferTask_output_of_fail p lib clk s.en_set_task_para_
      (RunImpl.prepared fps output rois) task infer_timeout_ms hfail
    have hrun : task_id ∈ s.dnn_rt_para_.running_tasks.keys :=
      AllocTask_running_of_valid t p alloctask_timeout_ms now w self (task_id, s) halloc h0
    obtain ⟨last, hlast⟩ := (TaskMap.mem_keys_iff_find _ _).1 hrun
    have hrel := ReleaseTask_of_running p (RunImpl.inferred s task_id
      (RunInferTask p lib clk s.en_set_task_para_ (RunImpl.prepared fps output rois)
        (some task) infer_timeout_ms)) task_id last h0 hlast
    refine ⟨hret, last,
      (PreProcess p lib s input_type task_id rois).2 ++ (RunProcessInput lib input_type).2 ++
        (RunInferTask p lib clk s.en_set_task_para_ (RunImpl.prepared fps output rois)
          (some task) infer_timeout_ms).events, hlast,
      RunImpl_done_taskCalls p lib clk s input_type task_id rois _ task infer_timeout_ms,
      ?_, ?_, ?_⟩
    · rw [heq, hrel]
      simp only [RunImpl.delivered, RunImpl.closing]
      rw [if_pos hret, if_pos hret, hout.1]
      cases post_process <;> simp
    · rw [hrel]
      rfl
    · rw [hrel]
      rfl

/-! ## Inference failure: return value of `Run`, release and callback -/

theorem getLast_after_release (a : Event) (done : List Event) (b c : Event) :
    (a :: (done ++ [b, c])).getLast? = some c := by
  have h : a :: (done ++ [b, c]) = (a :: done ++ [b]) ++ [c] := by simp
  rw [h, List.getLast?_concat]

/-- C18 as stated fails: on the idle two-slot node with a library whose
`RunInfer` returns -1, the inference fails (`RunInfer` was called once and
returned -1, no retry), and the synchronous `Run` returns 0. -/
theorem C18_counterexample :
    ¬ inferOk libInferFails ∧
    (Run plainTarget twoSlots libInferFails fpsQuiet clockZero 5
        { ok := true, self := twoSlotsInit } twoSlotsInit queueEmpty InputType.DNN_INPUT none
        true none true 0 1000).map
      (fun r => (r.ret, r.events.filter Event.isRunInfer)) = some (0, [Event.RunInfer (-1)]) := by
  decide

/-- C18 as amended: when a synchronous `Run` gets as far as `RunInferTask` and
the inference fails (`RunInferTask` returns non-zero after any retry), `Run`
returns 0, not the failure code; the failure reaches the caller only through the
callback, which, when one was passed, is invoked once with the output object as
it was before `RunInferTask`. -/
theorem C18_sync_Run_returns_zero_on_infer_failure (t : Target) (p : DnnNodePara)
    (lib : TaskCalls) (fps : FpsReadings) (clk : InferClock) (now : Nat) (w : WaitEnd)
    (self : DnnNodeImpl) (thread_pool_ : ThreadPool) (input_type : InputType)
    (output : Option DnnNodeOutput) (post_process : Bool) (rois : Option (List hbDNNRoi))
    (alloctask_timeout_ms infer_timeout_ms : Int) (task_id : Int) (s : DnnNodeImpl)
    (hreach : RunImpl.reaches t p lib now w self input_type rois alloctask_timeout_ms task_id s)
    (hfail : ¬ inferOk lib) :
    (RunInferTask p lib clk s.en_set_task_para_ (RunImpl.prepared fps output rois)
      (GetTask s task_id) infer_timeout_ms).ret ≠ 0 ∧
    ∃ r : RunResult,
      Run t p lib fps clk now w self thread_pool_ input_type output post_process rois true
        alloctask_timeout_ms infer_timeout_ms = some r ∧
      r.ret = 0 ∧
      r.thread_pool_ = thread_pool_ ∧
      (post_process = true →
        callbackCount r.events = 1 ∧
        r.events.getLast? = some (Event.post_process (RunImpl.prepared fps output rois))) ∧
      (post_process = false → callbackCount r.events = 0) := by
  obtain ⟨hret, last, done, _, hdone, heq, _, _⟩ :=
    RunImpl_of_infer_fail t p lib fps clk now w self input_type output post_process rois
      alloctask_timeout_ms infer_timeout_ms task_id s hreach hfail
  have hrun : ∀ x : RunImplResult,
      RunImpl t p lib fps clk now w self input_type output post_process rois
        alloctask_timeout_ms infer_timeout_ms = some x →
      Run t p lib fps clk now w self thread_pool_ input_type output post_process rois true
        alloctask_timeout_ms infer_timeout_ms =
        some { ret := x.ret, self := x.self, thread_pool_ := thread_pool_,
               events := x.events } := by
    intro x hx
    unfold Run
    rw [if_pos rfl, hx]
  refine ⟨hret, _, hrun _ heq, ?_⟩
  · have hcb := callbackCount_of_taskCalls done hdone
    refine ⟨rfl, rfl, ?_, ?_⟩
    · intro hp
      subst hp
      constructor
      · simp [callbackCount, callbackCount_append, hcb]
      · simp [getLast_after_release]
    · intro hp
      subst hp
      simp [callbackCount, callbackCount_append, hcb]

/-- C18 as amended, at a concrete input: the idle two-slot node and a library
whose `RunInfer` returns -1. -/
theorem C18_sync_Run_returns_zero_on_infer_failure_witness :
    (RunInferTask twoSlots libInferFails clockZero twoSlotsOneRunning.en_set_task_para_
      (RunImpl.prepared fpsQuiet none none) (GetTask twoSlotsOneRunning 0) 1000).ret ≠ 0 ∧
    ∃ r : RunResult,
      Run plainTarget twoSlots libInferFails fpsQuiet clockZero 5
        { ok := true, self := twoSlotsInit } twoSlotsInit queueEmpty InputType.DNN_INPUT none
        true none true 0 1000 = some r ∧
      r.ret = 0 ∧
      r.thread_pool_ = queueEmpty ∧
      (true = true →
        callbackCount r.events = 1 ∧
        r.events.getLast? = some (Event.post_process (RunImpl.prepared fpsQuiet none none))) ∧
      (true = false → callbackCount r.events = 0) :=
  C18_sync_Run_returns_zero_on_infer_failure plainTarget twoSlots libInferFails fpsQuiet
    clockZero 5 { ok := true, self := twoSlotsInit } twoSlotsInit queueEmpty
    InputType.DNN_INPUT none true none 0 1000 0 twoSlotsOneRunning (by decide) (by decide)

/-- C20: when `RunImpl` (with a callback) gets as far as `RunInferTask`, after an
`AllocTask` that returned the valid id `task_id` and a `PreProcess` and
`RunProcessInput` that returned 0, and the inference fails, `RunImpl` still
returns: it has called `ReleaseTask(task_id)` exactly once, which returned 0, so
`task_id` is a key of `idle_tasks` again and not of `running_tasks`; it has
invoked the callback exactly once, as its last step, with the output object, which
is as it was before `RunInferTask`; and it has not updated the output fps
statistic. -/
theorem C20_release_and_callback_on_infer_failure (t : Target) (p : DnnNodePara)
    (lib : TaskCalls) (fps : FpsReadings) (clk : InferClock) (now : Nat) (w : WaitEnd)
    (self : DnnNodeImpl) (input_type : InputType) (output : Option DnnNodeOutput)
    (rois : Option (List hbDNNRoi)) (alloctask_timeout_ms infer_timeout_ms : Int)
    (task_id : Int) (s : DnnNodeImpl)
    (hreach : RunImpl.reaches t p lib now w self input_type rois alloctask_timeout_ms task_id s)
    (hfail : ¬ inferOk lib) :
    ∃ r : RunImplResult,
      RunImpl t p lib fps clk now w self input_type output true rois alloctask_timeout_ms
        infer_timeout_ms = some r ∧
      releaseCount task_id r.events = 1 ∧
      Event.ReleaseTask task_id 0 ∈ r.events ∧
      task_id ∈ r.self.dnn_rt_para_.idle_tasks.keys ∧
      task_id ∉ r.self.dnn_rt_para_.running_tasks.keys ∧
      callbackCount r.events = 1 ∧
      r.events.getLast? = some (Event.post_process r.dnn_output) ∧
      r.dnn_output = RunImpl.prepared fps output rois ∧
      outputStatUpdateCount r.events = 0 := by
  obtain ⟨_, last, done, _, hdone, heq, hidle, hrunning⟩ :=
    RunImpl_of_infer_fail t p lib fps clk now w self input_type output true rois
      alloctask_timeout_ms infer_timeout_ms task_id s hreach hfail
  have hcb := callbackCount_of_taskCalls done hdone
  have hrl := releaseCount_of_taskCalls task_id done hdone
  have hst := outputStatUpdateCount_of_taskCalls done hdone
  refine ⟨_, heq, ?_, ?_, ?_, ?_, ?_, ?_, rfl, ?_⟩
  · show releaseCount task_id (Event.AllocTask task_id :: (done ++ _)) = 1
    simp [releaseCount, releaseCount_append, hrl]
  · simp
  · show task_id ∈ TaskMap.keys _
    rw [hidle, TaskMap.mem_keys_insert]
    exact Or.inl rfl
  · show task_id ∉ TaskMap.keys _
    rw [hrunning, TaskMap.mem_keys_erase]
    exact fun h => h.2 rfl
  · simp [callbackCount, callbackCount_append, hcb]
  · simp [getLast_after_release]
  · unfold outputStatUpdateCount at hst ⊢
    simp [List.countP_cons, List.countP_append, hst, Event.isOutputStatUpdate]

/-- C20 at a concrete input: the idle two-slot node and a library whose
`RunInfer` returns -1; slot 0 is allocated, released and idle again. -/
theorem C20_release_and_callback_on_infer_failure_witness :
    ∃ r : RunImplResult,
      RunImpl plainTarget twoSlots libInferFails fpsQuiet clockZero 5
        { ok := true, self := twoSlotsInit } twoSlotsInit InputType.DNN_INPUT none true none
        0 1000 = some r ∧
      releaseCount 0 r.events = 1 ∧
      Event.ReleaseTask 0 0 ∈ r.events ∧
      (0 : Int) ∈ r.self.dnn_rt_para_.idle_tasks.keys ∧
      (0 : Int) ∉ r.self.dnn_rt_para_.running_tasks.keys ∧
      callbackCount r.events = 1 ∧
      r.events.getLast? = some (Event.post_process r.dnn_output) ∧
      r.dnn_output = RunImpl.prepared fpsQuiet none none ∧
      outputStatUpdateCount r.events = 0 :=
  C20_release_and_callback_on_infer_failure plainTarget twoSlots libInferFails fpsQuiet
    clockZero 5 { ok := true, self := twoSlotsInit } twoSlotsInit InputType.DNN_INPUT none none
    0 1000 0 twoSlotsOneRunning (by decide) (by decide)

/-! ## Non-maximum suppression of the detection decoder -/

theorem Detection.intersection_comm (a b : Detection) : a.intersection b = b.intersection a := by
  unfold Detection.intersection
  rw [min_comm a.x2, max_comm a.x1, min_comm a.y2, max_comm a.y1]

theorem Detection.iou_comm (a b : Detection) : a.iou b = b.iou a := by
  unfold Detection.iou
  rw [Detection.intersection_comm a b, add_comm a.area]

theorem nms_sublist (thr : ℚ) (k : Nat) (l : List Detection) : (nms thr k l).Sublist l := by
  induction k generalizing l with
  | zero => simp [nms]
  | succ k ih =>
    cases l with
    | nil => simp [nms]
    | cons d rest =>
      simp only [nms]
      exact ((ih _).trans (List.filter_sublist _)).cons₂ d

theorem nms_length (thr : ℚ) (k : Nat) (l : List Detection) : (nms thr k l).length ≤ k := by
  induction k generalizing l with
  | zero => simp [nms]
  | succ k ih =>
    cases l with
    | nil => simp [nms]
    | cons d rest =>
      simp only [nms, List.length_cons]
      exact Nat.succ_le_succ (ih _)

theorem nms_pairwise (thr : ℚ) (k : Nat) (l : List Detection) :
    (nms thr k l).Pairwise (fun a b => a.iou b ≤ thr ∧ b.iou a ≤ thr) := by
  induction k generalizing l with
  | zero => simp [nms]
  | succ k ih =>
    cases l with
    | nil => simp [nms]
    | cons d rest =>
      simp only [nms, List.pairwise_cons]
      refine ⟨?_, ih _⟩
      intro e he
      have hmem := (nms_sublist thr k _).subset he
      rw [List.mem_filter] at hmem
      have hle : d.iou e ≤ thr := by simpa using hmem.2
      exact ⟨hle, by rw [Detection.iou_comm]; exact hle⟩

theorem mem_sortByScore (dets : List Detection) (d : Detection) :
    d ∈ sortByScore dets ↔ d ∈ dets :=
  (List.perm_insertionSort _ dets).mem_iff

/-- The boxes of class `c` in the concatenation of per-class blocks are the
block of `c`, when every block holds boxes of its own class only. -/
theorem filter_class_flatten (f : Int → List Detection)
    (hf : ∀ (c : Int) (d : Detection), d ∈ f c → d.id = c) (classes : List Int)
    (hnd : classes.Nodup) (c : Int) :
    ((classes.map f).flatten).filter (fun d => decide (d.id = c)) =
      if c ∈ classes then f c else [] := by
  induction classes with
  | nil => simp
  | cons c1 cs ih =>
    rw [List.nodup_cons] at hnd
    rw [List.map_cons, List.flatten_cons, List.filter_append, ih hnd.2]
    by_cases h : c = c1
    · subst h
      have h1 : (f c).filter (fun d => decide (d.id = c)) = f c := by
        rw [List.filter_eq_self]
        intro d hd
        simpa using hf c d hd
      rw [h1, if_neg hnd.1]
      simp
    · have h1 : (f c1).filter (fun d => decide (d.id = c)) = [] := by
        rw [List.filter_eq_nil_iff]
        intro d hd
        have := hf c1 d hd
        simp only [decide_eq_true_eq]
        intro hc
        exact h (hc.symm.trans this)
      rw [h1, List.nil_append]
      simp [h]

/-- The boxes of class `c` that `PostProcess` retains are the result of the
greedy suppression on the sorted boxes of that class. -/
theorem PostProcess_class (self : Yolo5OutputParser) (dets : List Detection) (c : Int) :
    (self.PostProcess dets).filter (fun d => decide (d.id = c)) = [] ∨
    ∃ l : List Detection,
      (self.PostProcess dets).filter (fun d => decide (d.id = c)) =
        nms self.nms_threshold_ self.nms_top_k_.toNat l := by
  unfold Yolo5OutputParser.PostProcess
  simp only
  rw [filter_class_flatten _ _ _ (List.nodup_dedup _) c]
  · by_cases h : c ∈ (List.map (fun d => d.id)
        (dets.filter (fun d => decide (¬ d.score < self.score_threshold_)))).dedup
    · rw [if_pos h]
      exact Or.inr ⟨_, rfl⟩
    · rw [if_neg h]
      exact Or.inl rfl
  · intro c1 d hd
    have h1 := (nms_sublist _ _ _).subset hd
    rw [mem_sortByScore, List.mem_filter] at h1
    simpa using h1.2

/-- C19: among the boxes of one class that the decoding of `Yolo5OutputParser`
retains, any two have an intersection-over-union of at most `nms_threshold_`,
and, `nms_top_k_` not being negative, there are at most `nms_top_k_` of them. -/
theorem C19_nms_retained (self : Yolo5OutputParser) (dets : List Detection) (c : Int)
    (htop : 0 ≤ self.nms_top_k_) :
    ((self.PostProcess dets).filter (fun d => decide (d.id = c))).Pairwise
      (fun a b => a.iou b ≤ self.nms_threshold_ ∧ b.iou a ≤ self.nms_threshold_) ∧
    (((self.PostProcess dets).filter (fun d => decide (d.id = c))).length : Int) ≤
      self.nms_top_k_ := by
  rcases PostProcess_class self dets c with h | ⟨l, h⟩
  · rw [h]
    exact ⟨List.Pairwise.nil, by simpa using htop⟩
  · rw [h]
    refine ⟨nms_pairwise _ _ _, ?_⟩
    have hlen := nms_length self.nms_threshold_ self.nms_top_k_.toNat l
    omega

/-- C19 at a concrete input: the thresholds of the header and three boxes, two
of them of class 0. -/
theorem C19_nms_retained_witness :
    ((Yolo5OutputParser.new.PostProcess threeBoxes).filter
        (fun d => decide (d.id = 0))).Pairwise
      (fun a b => a.iou b ≤ Yolo5OutputParser.new.nms_threshold_ ∧
        b.iou a ≤ Yolo5OutputParser.new.nms_threshold_) ∧
    (((Yolo5OutputParser.new.PostProcess threeBoxes).filter
        (fun d => decide (d.id = 0))).length : Int) ≤ Yolo5OutputParser.new.nms_top_k_ :=
  C19_nms_retained Yolo5OutputParser.new threeBoxes 0 (by decide)

/-! ## The cores of the slots after `TaskInit` -/

theorem loopAny_eq_loopPinned (task_num : Int) (fuel : Nat) :
    ∀ (idx c : Int) (idle : TaskMap),
      TaskInit.loopAny task_num fuel idx c idle =
        TaskInit.loopPinned [] task_num fuel idx c idle := by
  induction fuel with
  | zero => intro idx c idle; rfl
  | succ n ih =>
    intro idx c idle
    simp only [TaskInit.loopAny, TaskInit.loopPinned, List.getD_nil, ne_eq, not_true_eq_false,
      if_false, ih]

theorem loopPinned_find_lt (ids : List Int) (task_num : Int) (fuel : Nat) :
    ∀ (idx c : Int) (idle : TaskMap) (k : Int), k < idx →
      TaskMap.find (TaskInit.loopPinned ids task_num fuel idx c idle) k = TaskMap.find idle k := by
  induction fuel with
  | zero => intro idx c idle k _; rfl
  | succ n ih =>
    intro idx c idle k hk
    have hne : ¬ k = idx := by omega
    simp only [TaskInit.loopPinned]
    by_cases h1 : idx < task_num
    · rw [if_pos h1]
      by_cases hp : ids.getD idx.toNat HB_BPU_CORE_ANY ≠ HB_BPU_CORE_ANY
      · rw [if_pos hp, ih _ _ _ k (by omega), TaskMap.find_insert, if_neg hne]
      · rw [if_neg hp]
        by_cases hlast : idx = task_num - 1
        · rw [if_pos hlast, TaskMap.find_insert, if_neg hne]
        · rw [if_neg hlast, ih _ _ _ k (by omega), TaskMap.find_insert, if_neg hne]
    · rw [if_neg h1]

theorem unpinnedBelow_succ (ids : List Int) (n : Nat) :
    unpinnedBelow ids (n + 1) =
      unpinnedBelow ids n + (if ids.getD n HB_BPU_CORE_ANY = HB_BPU_CORE_ANY then 1 else 0) := by
  unfold unpinnedBelow
  rw [List.range_succ, List.countP_append]
  congr 1
  by_cases h : ids.getD n HB_BPU_CORE_ANY = HB_BPU_CORE_ANY
  · rw [if_pos h, List.countP_cons_of_pos _ _ (by simpa using h)]
    rfl
  · rw [if_neg h, List.countP_cons_of_neg _ _ (by simpa using h)]
    rfl

theorem unpinnedBelow_nil (n : Nat) : unpinnedBelow [] n = n := by
  induction n with
  | zero => rfl
  | succ n ih => rw [unpinnedBelow_succ, ih]; simp

theorem initialCore_succ (k : Nat) : initialCore (k + 1) = alternateCore (initialCore k) := by
  unfold initialCore alternateCore
  by_cases h : k % 2 = 0
  · have h1 : ¬ (k + 1) % 2 = 0 := by omega
    rw [if_pos h, if_neg h1]
    decide
  · have h1 : (k + 1) % 2 = 0 := by omega
    rw [if_neg h, if_pos h1]
    decide

theorem loopPinned_initial (ids : List Int) (task_num : Int) (fuel : Nat) :
    ∀ (idx c : Int) (idle : TaskMap), 0 ≤ idx →
      c = initialCore (unpinnedBelow ids idx.toNat) → task_num ≤ idx + fuel →
      ∀ k : Int, idx ≤ k → k < task_num →
        ids.getD k.toNat HB_BPU_CORE_ANY = HB_BPU_CORE_ANY →
        ∃ v : DnnNodeTask,
          TaskMap.find (TaskInit.loopPinned ids task_num fuel idx c idle) k = some v ∧
          v.bpuCoreId = initialCore (unpinnedBelow ids k.toNat) := by
  induction fuel with
  | zero =>
    intro idx c idle h0 hc hfuel k hk1 hk2 _
    simp at hfuel
    omega
  | succ n ih =>
    intro idx c idle h0 hc hfuel k hk1 hk2 hany
    have hsucc : (idx + 1).toNat = idx.toNat + 1 := by omega
    have h1 : idx < task_num := by omega
    simp only [TaskInit.loopPinned]
    rw [if_pos h1]
    by_cases hp : ids.getD idx.toNat HB_BPU_CORE_ANY ≠ HB_BPU_CORE_ANY
    · rw [if_pos hp]
      have hne : idx ≠ k := fun e => hp (e ▸ hany)
      refine ih (idx + 1) c _ (by omega) ?_ (by push_cast at hfuel ⊢; omega) k (by omega) hk2 hany
      rw [hsucc, unpinnedBelow_succ, if_neg hp, Nat.add_zero]
      exact hc
    · rw [if_neg hp]
      have hp' : ids.getD idx.toNat HB_BPU_CORE_ANY = HB_BPU_CORE_ANY := by
        by_contra hc'
        exact hp hc'
      by_cases hkidx : k = idx
      · subst hkidx
        refine ⟨{ task_id := k, alloc_tp := 0, bpuCoreId := c }, ?_, hc⟩
        by_cases hlast : k = task_num - 1
        · rw [if_pos hlast, TaskMap.find_insert, if_pos rfl]
        · rw [if_neg hlast, loopPinned_find_lt _ _ _ _ _ _ k (by omega), TaskMap.find_insert,
            if_pos rfl]
      · have hlast : ¬ idx = task_num - 1 := by omega
        rw [if_neg hlast]
        refine ih (idx + 1) _ _ (by omega) ?_ (by push_cast at hfuel ⊢; omega) k (by omega) hk2
          hany
        rw [hsucc, unpinnedBelow_succ, if_pos hp', initialCore_succ, hc]

/-- After a successful `TaskInit` on a new object every slot the user left open
is idle, and bound to Core0 or Core1 by the parity of the number of open slots
before it. -/
theorem TaskInit_initial (p : DnnNodePara) (en : Bool)
    (h : (TaskInit p (DnnNodeImpl.ctor en)).1 = 0) (i : Int) (h0 : 0 ≤ i)
    (h1 : i < p.task_num)
    (hany : p.bpu_core_ids.getD i.toNat HB_BPU_CORE_ANY = HB_BPU_CORE_ANY) :
    ∃ v : DnnNodeTask,
      (TaskInit p (DnnNodeImpl.ctor en)).2.dnn_rt_para_.idle_tasks.find i = some v ∧
      v.bpuCoreId = initialCore (unpinnedBelow p.bpu_core_ids i.toNat) := by
  obtain ⟨hpos, hids⟩ := TaskInit_ok_iff p _ h
  have hn1 : ¬ p.task_num < 1 := by omega
  have h2 : (!p.bpu_core_ids.isEmpty && decide ((p.bpu_core_ids.length : Int) ≠ p.task_num))
      = false := by
    rcases hids with h | h
    · simp [h]
    · simp [h]
  have hlen : ((resizeTasks ([] : List (Option Task)) p.task_num.toNat).length : Int)
      = p.task_num := by
    simp [resizeTasks]
    omega
  unfold TaskInit
  rw [if_neg hn1, h2]
  simp only [Bool.false_eq_true, if_false, DnnNodeImpl.ctor, hlen]
  by_cases hl : (p.bpu_core_ids.length : Int) = p.task_num
  · rw [if_pos hl]
    exact loopPinned_initial p.bpu_core_ids p.task_num p.task_num.toNat 0 HB_BPU_CORE_0 []
      (le_refl 0) rfl (by omega) i h0 h1 hany
  · rw [if_neg hl]
    have hnil : p.bpu_core_ids = [] := by
      rcases hids with h | h
      · exact h
      · exact absurd h hl
    rw [loopAny_eq_loopPinned, hnil]
    exact loopPinned_initial [] p.task_num p.task_num.toNat 0 HB_BPU_CORE_0 []
      (le_refl 0) rfl (by omega) i h0 h1 (by simp)

/-! ## The first two allocations of a two-slot node -/

theorem eq_alternateCore_of_ne (x c : Int) (hx : x = HB_BPU_CORE_0 ∨ x = HB_BPU_CORE_1)
    (hc : c = HB_BPU_CORE_0 ∨ c = HB_BPU_CORE_1) (hne : x ≠ c) : x = alternateCore c := by
  rcases hx with hx | hx <;> rcases hc with hc | hc <;> subst hx <;> subst hc
  · exact absurd rfl hne
  · decide
  · decide
  · exact absurd rfl hne

/-- When every slot would next be bound to core `c`, the first successful
allocation of a sequence of calls is bound to `c`. -/
theorem allocLog_head_nextCore (t : Target) (p : DnnNodePara) (hnp : ∀ id : Int, ¬ Pinned p id)
    (c : Int) (calls : List Call) :
    ∀ (self : DnnNodeImpl), PoolInv p self → (∀ id : Int, NextCore self id c) →
      ∀ e : Int × Int, (allocLog t p self calls).head? = some e → e.2 = c := by
  induction calls with
  | nil =>
    intro self _ _ e he
    simp [allocLog] at he
  | cons call cs ih =>
    intro self hinv hnext e he
    cases call with
    | release id =>
      rw [allocLog_release] at he
      exact ih _ (exec_inv t p self (Call.release id) hinv)
        (fun i => ReleaseTask_nextCore p self id i c (hnp i) (hnext i)) e he
    | alloc timeout_ms now ok =>
      rcases exec_alloc_cases t p self timeout_ms now ok hinv with
        ⟨h1, h2⟩ | ⟨h1, h2⟩ | ⟨x, hmem, h0, h1, hidle, hrun⟩
      · rw [allocLog_alloc_none t p self timeout_ms now ok cs h1, h2] at he
        exact ih self hinv hnext e he
      · rw [allocLog_alloc_some t p self timeout_ms now ok cs (-1) h1, h2] at he
        simp only [show ¬ ((0 : Int) ≤ -1) by decide, if_false] at he
        exact ih self hinv hnext e he
      · rw [allocLog_alloc_some t p self timeout_ms now ok cs x.1 h1, if_pos h0] at he
        have hfind := TaskMap.find_of_mem _ hinv.idle_nodup x hmem
        simp only [List.head?_cons, Option.some.injEq] at he
        rw [← he]
        show (slotCore ((Call.alloc timeout_ms now ok).exec t p self).2 x.1).getD
          HB_BPU_CORE_ANY = c
        unfold slotCore
        rw [hidle, hrun]
        simp only [TaskMap.find_erase, TaskMap.find_insert, if_true, Option.map_some',
          Option.getD_some]
        exact (hnext x.1 x.2).1 hfind

/-- From a pool with nothing running, whose idle slots are bound to Core0 or
Core1, no two to the same core, the first two successful allocations of a
sequence of calls are bound to the two cores, one each. -/
theorem allocLog_first_two (t : Target) (p : DnnNodePara) (hnp : ∀ id : Int, ¬ Pinned p id)
    (calls : List Call) :
    ∀ (self : DnnNodeImpl), PoolInv p self →
      self.dnn_rt_para_.running_tasks = [] →
      (∀ (id : Int) (v : DnnNodeTask), self.dnn_rt_para_.idle_tasks.find id = some v →
        v.bpuCoreId = HB_BPU_CORE_0 ∨ v.bpuCoreId = HB_BPU_CORE_1) →
      (∀ (id id' : Int) (v v' : DnnNodeTask), id ≠ id' →
        self.dnn_rt_para_.idle_tasks.find id = some v →
        self.dnn_rt_para_.idle_tasks.find id' = some v' → v.bpuCoreId ≠ v'.bpuCoreId) →
      ∀ (a b : Int × Int) (rest : List (Int × Int)),
        allocLog t p self calls = a :: b :: rest →
        a.2 ≠ b.2 ∧ (a.2 = HB_BPU_CORE_0 ∨ a.2 = HB_BPU_CORE_1) ∧
          (b.2 = HB_BPU_CORE_0 ∨ b.2 = HB_BPU_CORE_1) := by
  induction calls with
  | nil =>
    intro self _ _ _ _ a b rest h
    simp [allocLog] at h
  | cons call cs ih =>
    intro self hinv hrun0 hcores hdist a b rest h
    cases call with
    | release id =>
      rw [allocLog_release] at h
      have hsame : ReleaseTask p self id = (-1, self) := by
        by_cases hneg : id < 0
        · unfold ReleaseTask
          rw [if_pos hneg]
        · unfold ReleaseTask
          rw [if_neg hneg, hrun0]
          rfl
      rw [hsame] at h
      exact ih self hinv hrun0 hcores hdist a b rest h
    | alloc timeout_ms now ok =>
      rcases exec_alloc_cases t p self timeout_ms now ok hinv with
        ⟨h1, h2⟩ | ⟨h1, h2⟩ | ⟨x, hmem, h0, h1, hidle, hrun⟩
      · rw [allocLog_alloc_none t p self timeout_ms now ok cs h1, h2] at h
        exact ih self hinv hrun0 hcores hdist a b rest h
      · rw [allocLog_alloc_some t p self timeout_ms now ok cs (-1) h1, h2] at h
        simp only [show ¬ ((0 : Int) ≤ -1) by decide, if_false] at h
        exact ih self hinv hrun0 hcores hdist a b rest h
      · rw [allocLog_alloc_some t p self timeout_ms now ok cs x.1 h1, if_pos h0] at h
        have hfind := TaskMap.find_of_mem _ hinv.idle_nodup x hmem
        have hxc := hcores x.1 x.2 hfind
        have hcore : (slotCore ((Call.alloc timeout_ms now ok).exec t p self).2 x.1).getD
            HB_BPU_CORE_ANY = x.2.bpuCoreId := by
          unfold slotCore
          rw [hidle, hrun]
          simp only [TaskMap.find_erase, TaskMap.find_insert, if_true, Option.map_some',
            Option.getD_some]
        rw [hcore] at h
        simp only [List.cons.injEq] at h
        obtain ⟨ha, hrest⟩ := h
        have hnext : ∀ id : Int,
            NextCore ((Call.alloc timeout_ms now ok).exec t p self).2 id
              (alternateCore x.2.bpuCoreId) := by
          intro id v
          rw [hidle, hrun, hrun0]
          simp only [TaskMap.find_erase, TaskMap.find_insert]
          constructor
          · intro hv
            by_cases hid : id = x.1
            · rw [if_pos hid] at hv
              cases hv
            · rw [if_neg hid] at hv
              exact eq_alternateCore_of_ne _ _ (hcores id v hv) hxc
                (hdist id x.1 v x.2 hid hv hfind)
          · intro hv
            by_cases hid : id = x.1
            · rw [if_pos hid] at hv
              simp only [Option.some.injEq] at hv
              rw [← hv]
            · rw [if_neg hid] at hv
              simp [TaskMap.find] at hv
        have hb := allocLog_head_nextCore t p hnp (alternateCore x.2.bpuCoreId) cs _
          (exec_inv t p self (Call.alloc timeout_ms now ok) hinv) hnext b
          (by rw [hrest]; rfl)
        rw [← ha, hb]
        exact ⟨alternateCore_ne _ hxc, hxc, alternateCore_mem _⟩

/-- C21: after a successful `TaskInit` on a new object, a slot `i` that the
user left open (every slot when `bpu_core_ids` is empty, the `HB_BPU_CORE_ANY`
entries otherwise) is idle and bound to Core0 when the number `k` of open slots
before it is even and to Core1 when `k` is odd; and with `task_num = 2` and no
core given, in every sequence of `AllocTask` and `ReleaseTask` calls that
follows, the first two successful allocations are bound to distinct cores, each
Core0 or Core1. -/
theorem C21_initial_cores (t : Target) (p : DnnNodePara) (en : Bool)
    (h : (TaskInit p (DnnNodeImpl.ctor en)).1 = 0) :
    (∀ (i : Int) (k : Nat), 0 ≤ i → i < p.task_num →
      p.bpu_core_ids.getD i.toNat HB_BPU_CORE_ANY = HB_BPU_CORE_ANY →
      unpinnedBelow p.bpu_core_ids i.toNat = k →
      i ∈ (TaskInit p (DnnNodeImpl.ctor en)).2.dnn_rt_para_.idle_tasks.keys ∧
      slotCore (TaskInit p (DnnNodeImpl.ctor en)).2 i =
        some (if k % 2 = 0 then HB_BPU_CORE_0 else HB_BPU_CORE_1)) ∧
    (p.task_num = 2 → p.bpu_core_ids = [] →
      ∀ (calls : List Call) (a b : Int × Int) (rest : List (Int × Int)),
        allocLog t p (TaskInit p (DnnNodeImpl.ctor en)).2 calls = a :: b :: rest →
        a.2 ≠ b.2 ∧ (a.2 = HB_BPU_CORE_0 ∨ a.2 = HB_BPU_CORE_1) ∧
          (b.2 = HB_BPU_CORE_0 ∨ b.2 = HB_BPU_CORE_1)) := by
  constructor
  · intro i k h0 h1 hany hk
    obtain ⟨v, hv, hcore⟩ := TaskInit_initial p en h i h0 h1 hany
    refine ⟨(TaskMap.mem_keys_iff_find _ _).2 ⟨v, hv⟩, ?_⟩
    unfold slotCore
    rw [hv]
    simp only
    rw [hcore, hk]
    rfl
  · intro htwo hnil calls a b rest hlog
    have hinv := TaskInit_inv p en h
    have hnp : ∀ id : Int, ¬ Pinned p id := by
      intro id hpin
      have h1 := hpin.1
      rw [hnil, htwo] at h1
      simp at h1
    have hrun : (TaskInit p (DnnNodeImpl.ctor en)).2.dnn_rt_para_.running_tasks = [] := by
      rw [TaskInit_running]
      rfl
    have hof : ∀ (id : Int) (v : DnnNodeTask),
        (TaskInit p (DnnNodeImpl.ctor en)).2.dnn_rt_para_.idle_tasks.find id = some v →
        (id = 0 ∨ id = 1) ∧ v.bpuCoreId = initialCore id.toNat := by
      intro id v hv
      have hmem : id ∈ (TaskInit p (DnnNodeImpl.ctor en)).2.dnn_rt_para_.idle_tasks.keys :=
        (TaskMap.mem_keys_iff_find _ _).2 ⟨v, hv⟩
      have hrange := (hinv.cover id).1 (Or.inl hmem)
      obtain ⟨v', hv', hcore⟩ := TaskInit_initial p en h id hrange.1 hrange.2
        (by rw [hnil]; simp)
      rw [hv] at hv'
      cases hv'
      rw [hnil, unpinnedBelow_nil] at hcore
      exact ⟨by omega, hcore⟩
    refine allocLog_first_two t p hnp calls _ hinv hrun ?_ ?_ a b rest hlog
    · intro id v hv
      obtain ⟨hid, hcore⟩ := hof id v hv
      rw [hcore]
      rcases hid with hid | hid <;> subst hid
      · exact Or.inl rfl
      · exact Or.inr rfl
    · intro id id' v v' hne hv hv'
      obtain ⟨hid, hcore⟩ := hof id v hv
      obtain ⟨hid', hcore'⟩ := hof id' v' hv'
      rw [hcore, hcore']
      rcases hid with hid | hid <;> rcases hid' with hid' | hid' <;> subst hid <;> subst hid'
      · exact absurd rfl hne
      · decide
      · decide
      · exact absurd rfl hne

/-- C21 at concrete inputs: on the four-slot node whose second slot is fixed to
Core0, the open slot 2 (one open slot before it) is bound to Core1 and the open
slot 3 (two before it) to Core0; on the two-slot node with no core given, an
allocation, a release of the slot and another allocation are bound to Core0
and Core1. -/
theorem C21_initial_cores_witness :
    slotCore (TaskInit pinnedSecond (DnnNodeImpl.ctor true)).2 2 = some HB_BPU_CORE_1 ∧
    slotCore (TaskInit pinnedSecond (DnnNodeImpl.ctor true)).2 3 = some HB_BPU_CORE_0 ∧
    ((0, HB_BPU_CORE_0) : Int × Int).2 ≠ ((1, HB_BPU_CORE_1) : Int × Int).2 :=
  ⟨((C21_initial_cores plainTarget pinnedSecond true (by decide)).1 2 1 (by decide)
      (by decide) (by decide) (by decide)).2,
   ((C21_initial_cores plainTarget pinnedSecond true (by decide)).1 3 2 (by decide)
      (by decide) (by decide) (by decide)).2,
   ((C21_initial_cores plainTarget twoSlots true (by decide)).2 rfl rfl
      [Call.alloc 0 5 true, Call.release 0, Call.alloc 0 6 true]
      (0, HB_BPU_CORE_0) (1, HB_BPU_CORE_1) [] (by decide)).1⟩

/-! ## The fps window -/

theorem tdiv_ms_ge_iff (d : Int) : 1000 ≤ d.tdiv 1000000 ↔ 1000000000 ≤ d := by
  by_cases h : 0 ≤ d
  · rw [Int.tdiv_eq_ediv h (by decide)]
    omega
  · have h1 : d = -(-d) := by omega
    have h2 : 0 ≤ (-d).tdiv 1000000 := Int.tdiv_nonneg (by omega) (by decide)
    rw [h1, Int.neg_tdiv]
    omega

/-! ## Rounding to binary floating point -/

theorem bitLength_zero (fuel : Nat) : bitLength fuel 0 = 0 := by
  cases fuel <;> simp [bitLength]

/-- A positive `n` lies between the powers of two its digit count gives. -/
theorem bitLength_spec (fuel : Nat) :
    ∀ n : Nat, 0 < n → n ≤ fuel →
      1 ≤ bitLength fuel n ∧ 2 ^ (bitLength fuel n - 1) ≤ n ∧ n < 2 ^ bitLength fuel n := by
  induction fuel with
  | zero => intro n h0 h1; omega
  | succ f ih =>
    intro n h0 h1
    have hne : ¬ n = 0 := by omega
    simp only [bitLength, if_neg hne]
    by_cases h2 : n / 2 = 0
    · rw [h2, bitLength_zero]
      have : n = 1 := by omega
      subst this
      simp
    · obtain ⟨hb1, hb2, hb3⟩ := ih (n / 2) (by omega) (by omega)
      refine ⟨by omega, ?_, ?_⟩
      · have e1 : bitLength f (n / 2) + 1 - 1 = (bitLength f (n / 2) - 1) + 1 := by omega
        rw [e1, pow_succ]
        omega
      · rw [pow_succ]
        omega

theorem scale_spec (num den : Nat) (hd : 0 < den) (e : Int) :
    0 < (Fp.scale num den e).2 ∧
      ((Fp.scale num den e).1 : ℚ) / ((Fp.scale num den e).2 : ℚ) =
        ((num : ℚ) / (den : ℚ)) / (2 : ℚ) ^ e := by
  have hd' : (den : ℚ) ≠ 0 := by exact_mod_cast hd.ne'
  unfold Fp.scale
  by_cases he : 0 ≤ e
  · rw [if_pos he]
    refine ⟨Nat.mul_pos hd (Nat.two_pow_pos _), ?_⟩
    have h2 : (2 : ℚ) ^ e = (2 : ℚ) ^ e.toNat := by
      conv_lhs => rw [← Int.toNat_of_nonneg he]
      exact zpow_natCast _ _
    rw [h2]
    push_cast
    rw [div_div]
  · rw [if_neg he]
    refine ⟨hd, ?_⟩
    have h2 : (2 : ℚ) ^ e = ((2 : ℚ) ^ (-e).toNat)⁻¹ := by
      have h3 : e = -((-e).toNat : Int) := by
        rw [Int.toNat_of_nonneg (by omega)]
        omega
      conv_lhs => rw [h3]
      rw [zpow_neg, zpow_natCast]
    rw [h2]
    push_cast
    field_simp

/-- Rounding a quotient of naturals to the nearest natural is off by at most a
half. -/
theorem round_half (N D : Nat) (hD : 0 < D) :
    |((Fp.nearest N D : Nat) : ℚ) - (N : ℚ) / (D : ℚ)| ≤ 1 / 2 := by
  unfold Fp.nearest
  have hD' : (0 : ℚ) < (D : ℚ) := by exact_mod_cast hD
  have hdiv : (N : ℚ) = (D : ℚ) * ((N / D : Nat) : ℚ) + ((N % D : Nat) : ℚ) := by
    exact_mod_cast (Nat.div_add_mod N D).symm
  have hlt : ((N % D : Nat) : ℚ) < (D : ℚ) := by exact_mod_cast Nat.mod_lt N hD
  have hnn : (0 : ℚ) ≤ ((N % D : Nat) : ℚ) := by positivity
  have hq : (N : ℚ) / (D : ℚ) = ((N / D : Nat) : ℚ) + ((N % D : Nat) : ℚ) / (D : ℚ) := by
    rw [hdiv]
    field_simp
    ring
  by_cases hc : 2 * (N % D) > D ∨ (2 * (N % D) = D ∧ N / D % 2 = 1)
  · rw [if_pos hc]
    have h2 : D ≤ 2 * (N % D) := by
      rcases hc with h | h
      · omega
      · omega
    have h2' : (D : ℚ) ≤ 2 * ((N % D : Nat) : ℚ) := by exact_mod_cast h2
    rw [hq]
    push_cast
    rw [abs_le]
    have hr : ((N % D : Nat) : ℚ) / (D : ℚ) < 1 := by rw [div_lt_one hD']; exact hlt
    have hr2 : 1 / 2 ≤ ((N % D : Nat) : ℚ) / (D : ℚ) := by
      rw [le_div_iff₀ hD']
      linarith
    push_cast at hr hr2
    constructor <;> linarith
  · rw [if_neg hc]
    have h2 : 2 * (N % D) ≤ D := by
      by_contra h
      exact hc (Or.inl (by omega))
    have h2' : 2 * ((N % D : Nat) : ℚ) ≤ (D : ℚ) := by exact_mod_cast h2
    rw [hq]
    rw [abs_le]
    have hr : 0 ≤ ((N % D : Nat) : ℚ) / (D : ℚ) := by positivity
    have hr2 : ((N % D : Nat) : ℚ) / (D : ℚ) ≤ 1 / 2 := by
      rw [div_le_iff₀ hD']
      linarith
    constructor <;> linarith


/-- With the exponent `Fp.exponent` the scaled quotient is at least
`2 ^ (p - 1)`. -/
theorem exponent_spec (p : Nat) (hp : 1 ≤ p) (num den : Nat) (hn : 0 < num) (hd : 0 < den) :
    (2 : ℚ) ^ (p - 1) ≤ ((num : ℚ) / (den : ℚ)) / (2 : ℚ) ^ Fp.exponent p num den := by
  have hn' : (0 : ℚ) < (num : ℚ) := by exact_mod_cast hn
  have hd' : (0 : ℚ) < (den : ℚ) := by exact_mod_cast hd
  obtain ⟨hbn1, hbn2, _⟩ := bitLength_spec num num hn (le_refl _)
  obtain ⟨_, _, hbd3⟩ := bitLength_spec den den hd (le_refl _)
  have h2 : (0 : ℚ) < 2 := by norm_num
  have hA : (2 : ℚ) ^ (p - 1) ≤ ((num : ℚ) / (den : ℚ)) /
      (2 : ℚ) ^ ((bitLength num num : Int) - (bitLength den den : Int) - (p : Int)) := by
    have hz : (2 : ℚ) ^ ((bitLength num num : Int) - (bitLength den den : Int) - (p : Int)) =
        (2 : ℚ) ^ (bitLength num num) / ((2 : ℚ) ^ (bitLength den den) * (2 : ℚ) ^ p) := by
      rw [zpow_sub₀ h2.ne', zpow_sub₀ h2.ne', zpow_natCast, zpow_natCast, zpow_natCast, div_div]
    rw [hz]
    have hbn2' : (2 : ℚ) ^ (bitLength num num) ≤ 2 * (num : ℚ) := by
      have e1 : bitLength num num = (bitLength num num - 1) + 1 := by omega
      rw [e1, pow_succ]
      have : ((2 ^ (bitLength num num - 1) : Nat) : ℚ) ≤ (num : ℚ) := by exact_mod_cast hbn2
      push_cast at this
      linarith
    have hbd3' : (den : ℚ) ≤ (2 : ℚ) ^ (bitLength den den) := by
      have : (den : ℚ) < ((2 ^ bitLength den den : Nat) : ℚ) := by exact_mod_cast hbd3
      push_cast at this
      linarith
    have hp1 : (2 : ℚ) ^ p = 2 * (2 : ℚ) ^ (p - 1) := by
      have e1 : p = (p - 1) + 1 := by omega
      conv_lhs => rw [e1, pow_succ]
      ring
    have hpos1 : (0 : ℚ) < (2 : ℚ) ^ (bitLength num num) := by positivity
    have hpos2 : (0 : ℚ) < (2 : ℚ) ^ (bitLength den den) := by positivity
    have hpos3 : (0 : ℚ) < (2 : ℚ) ^ (p - 1) := by positivity
    have hmul : (den : ℚ) * (2 : ℚ) ^ (bitLength num num) ≤
        (2 : ℚ) ^ (bitLength den den) * (2 * (num : ℚ)) :=
      mul_le_mul hbd3' hbn2' hpos1.le hpos2.le
    have key : (2 : ℚ) ^ (p - 1) * ((den : ℚ) * (2 : ℚ) ^ (bitLength num num)) ≤
        (num : ℚ) * ((2 : ℚ) ^ (bitLength den den) * (2 : ℚ) ^ p) := by
      calc (2 : ℚ) ^ (p - 1) * ((den : ℚ) * (2 : ℚ) ^ (bitLength num num))
          ≤ (2 : ℚ) ^ (p - 1) * ((2 : ℚ) ^ (bitLength den den) * (2 * (num : ℚ))) :=
            mul_le_mul_of_nonneg_left hmul hpos3.le
        _ = (num : ℚ) * ((2 : ℚ) ^ (bitLength den den) * (2 : ℚ) ^ p) := by
            rw [hp1]
            ring
    rw [div_div_eq_mul_div, div_mul_eq_mul_div, div_div, le_div_iff₀ (by positivity)]
    exact key
  unfold Fp.exponent
  simp only
  by_cases hc : (Fp.scale num den ((bitLength num num : Int) - (bitLength den den : Int) -
      (p : Int))).1 / (Fp.scale num den ((bitLength num num : Int) -
      (bitLength den den : Int) - (p : Int))).2 ≥ 2 ^ p
  · rw [if_pos hc]
    obtain ⟨hs2, hs⟩ := scale_spec num den hd
      ((bitLength num num : Int) - (bitLength den den : Int) - (p : Int))
    have hfloor : ((2 ^ p : Nat) : ℚ) ≤
        ((Fp.scale num den ((bitLength num num : Int) - (bitLength den den : Int) -
          (p : Int))).1 : ℚ) /
        ((Fp.scale num den ((bitLength num num : Int) - (bitLength den den : Int) -
          (p : Int))).2 : ℚ) :=
      le_trans (by exact_mod_cast hc) Nat.cast_div_le
    rw [hs] at hfloor
    push_cast at hfloor
    rw [zpow_add_one₀ h2.ne', ← div_div]
    have hp1 : (2 : ℚ) ^ p = 2 * (2 : ℚ) ^ (p - 1) := by
      have e1 : p = (p - 1) + 1 := by omega
      conv_lhs => rw [e1, pow_succ]
      ring
    rw [le_div_iff₀ h2]
    linarith
  · rw [if_neg hc]
    exact hA


/-- Rounding to `p` digits changes a positive quotient by at most the
fraction `1 / 2 ^ p` of it, and keeps the sign it is given. -/
theorem round_spec (p : Nat) (hp : 1 ≤ p) (neg : Bool) (num den : Nat) (hn : 0 < num)
    (hd : 0 < den) :
    (Fp.round p neg num den).neg = neg ∧
    |((Fp.round p neg num den).m : ℚ) * (2 : ℚ) ^ (Fp.round p neg num den).e -
        (num : ℚ) / (den : ℚ)| ≤ (num : ℚ) / (den : ℚ) / (2 : ℚ) ^ p := by
  have h2 : (0 : ℚ) < 2 := by norm_num
  have hne : ¬ (num = 0 ∨ den = 0) := by omega
  have hx := exponent_spec p hp num den hn hd
  obtain ⟨hs2, hs⟩ := scale_spec num den hd (Fp.exponent p num den)
  have hhalf := round_half (Fp.scale num den (Fp.exponent p num den)).1
    (Fp.scale num den (Fp.exponent p num den)).2 hs2
  rw [hs] at hhalf
  have hpe : (0 : ℚ) < (2 : ℚ) ^ Fp.exponent p num den := by positivity
  have hpp : (0 : ℚ) < (2 : ℚ) ^ p := by positivity
  have hp1 : (2 : ℚ) ^ p = 2 * (2 : ℚ) ^ (p - 1) := by
    have e1 : p = (p - 1) + 1 := by omega
    conv_lhs => rw [e1, pow_succ]
    ring
  -- the value before the mantissa is brought back to `p` digits
  have hval : |((Fp.nearest (Fp.scale num den (Fp.exponent p num den)).1
        (Fp.scale num den (Fp.exponent p num den)).2 : Nat) : ℚ) *
        (2 : ℚ) ^ Fp.exponent p num den - (num : ℚ) / (den : ℚ)| ≤
      (num : ℚ) / (den : ℚ) / (2 : ℚ) ^ p := by
    have hq : (num : ℚ) / (den : ℚ) =
        ((num : ℚ) / (den : ℚ) / (2 : ℚ) ^ Fp.exponent p num den) *
          (2 : ℚ) ^ Fp.exponent p num den :=
      (div_mul_cancel₀ _ hpe.ne').symm
    have hfac : ((Fp.nearest (Fp.scale num den (Fp.exponent p num den)).1
        (Fp.scale num den (Fp.exponent p num den)).2 : Nat) : ℚ) *
        (2 : ℚ) ^ Fp.exponent p num den - (num : ℚ) / (den : ℚ) =
        (((Fp.nearest (Fp.scale num den (Fp.exponent p num den)).1
          (Fp.scale num den (Fp.exponent p num den)).2 : Nat) : ℚ) -
          (num : ℚ) / (den : ℚ) / (2 : ℚ) ^ Fp.exponent p num den) *
          (2 : ℚ) ^ Fp.exponent p num den := by
      rw [sub_mul, ← hq]
    rw [hfac, abs_mul, abs_of_pos hpe]
    have hbound : (1 : ℚ) / 2 ≤
        (num : ℚ) / (den : ℚ) / (2 : ℚ) ^ Fp.exponent p num den / (2 : ℚ) ^ p := by
      rw [le_div_iff₀ hpp, hp1]
      linarith
    calc |((Fp.nearest (Fp.scale num den (Fp.exponent p num den)).1
          (Fp.scale num den (Fp.exponent p num den)).2 : Nat) : ℚ) -
          (num : ℚ) / (den : ℚ) / (2 : ℚ) ^ Fp.exponent p num den| *
          (2 : ℚ) ^ Fp.exponent p num den
        ≤ ((num : ℚ) / (den : ℚ) / (2 : ℚ) ^ Fp.exponent p num den / (2 : ℚ) ^ p) *
          (2 : ℚ) ^ Fp.exponent p num den :=
          mul_le_mul_of_nonneg_right (le_trans hhalf hbound) hpe.le
      _ = (num : ℚ) / (den : ℚ) / (2 : ℚ) ^ p := by
          rw [div_right_comm, div_mul_cancel₀ _ hpe.ne']
  unfold Fp.round
  rw [if_neg hne]
  simp only
  by_cases hm : Fp.nearest (Fp.scale num den (Fp.exponent p num den)).1
      (Fp.scale num den (Fp.exponent p num den)).2 = 2 ^ p
  · rw [if_pos hm]
    refine ⟨rfl, ?_⟩
    simp only
    rw [hm] at hval
    have e1 : ((2 ^ (p - 1) : Nat) : ℚ) * (2 : ℚ) ^ (Fp.exponent p num den + 1) =
        ((2 ^ p : Nat) : ℚ) * (2 : ℚ) ^ Fp.exponent p num den := by
      rw [zpow_add_one₀ h2.ne']
      push_cast
      rw [hp1]
      ring
    rw [e1]
    exact hval
  · rw [if_neg hm]
    exact ⟨rfl, hval⟩


/-- With the exponent `Fp.exponent` the scaled quotient stays below `2 ^ p`. -/
theorem exponent_upper (p : Nat) (num den : Nat) (hn : 0 < num) (hd : 0 < den) :
    ((num : ℚ) / (den : ℚ)) / (2 : ℚ) ^ Fp.exponent p num den < (2 : ℚ) ^ p := by
  have hn' : (0 : ℚ) < (num : ℚ) := by exact_mod_cast hn
  have hd' : (0 : ℚ) < (den : ℚ) := by exact_mod_cast hd
  obtain ⟨_, _, hbn3⟩ := bitLength_spec num num hn (le_refl _)
  obtain ⟨hbd1, hbd2, _⟩ := bitLength_spec den den hd (le_refl _)
  have h2 : (0 : ℚ) < 2 := by norm_num
  have hpos1 : (0 : ℚ) < (2 : ℚ) ^ (bitLength num num) := by positivity
  have hpos2 : (0 : ℚ) < (2 : ℚ) ^ (bitLength den den) := by positivity
  have hpp : (0 : ℚ) < (2 : ℚ) ^ p := by positivity
  have hA : ((num : ℚ) / (den : ℚ)) /
      (2 : ℚ) ^ ((bitLength num num : Int) - (bitLength den den : Int) - (p : Int)) <
      2 * (2 : ℚ) ^ p := by
    have hz : (2 : ℚ) ^ ((bitLength num num : Int) - (bitLength den den : Int) - (p : Int)) =
        (2 : ℚ) ^ (bitLength num num) / ((2 : ℚ) ^ (bitLength den den) * (2 : ℚ) ^ p) := by
      rw [zpow_sub₀ h2.ne', zpow_sub₀ h2.ne', zpow_natCast, zpow_natCast, zpow_natCast, div_div]
    rw [hz]
    have hbn3' : (num : ℚ) < (2 : ℚ) ^ (bitLength num num) := by
      have : (num : ℚ) < ((2 ^ bitLength num num : Nat) : ℚ) := by exact_mod_cast hbn3
      push_cast at this
      exact this
    have hbd2' : (2 : ℚ) ^ (bitLength den den) ≤ 2 * (den : ℚ) := by
      have e1 : bitLength den den = (bitLength den den - 1) + 1 := by omega
      rw [e1, pow_succ]
      have : ((2 ^ (bitLength den den - 1) : Nat) : ℚ) ≤ (den : ℚ) := by exact_mod_cast hbd2
      push_cast at this
      linarith
    rw [div_div_eq_mul_div, div_mul_eq_mul_div, div_div, div_lt_iff₀ (by positivity)]
    calc (num : ℚ) * ((2 : ℚ) ^ (bitLength den den) * (2 : ℚ) ^ p)
        ≤ (num : ℚ) * ((2 * (den : ℚ)) * (2 : ℚ) ^ p) :=
          mul_le_mul_of_nonneg_left (mul_le_mul_of_nonneg_right hbd2' hpp.le) hn'.le
      _ = (2 * (2 : ℚ) ^ p * (den : ℚ)) * (num : ℚ) := by ring
      _ < (2 * (2 : ℚ) ^ p * (den : ℚ)) * (2 : ℚ) ^ (bitLength num num) :=
          mul_lt_mul_of_pos_left hbn3' (by positivity)
      _ = 2 * (2 : ℚ) ^ p * ((den : ℚ) * (2 : ℚ) ^ (bitLength num num)) := by ring
  unfold Fp.exponent
  simp only
  by_cases hc : (Fp.scale num den ((bitLength num num : Int) - (bitLength den den : Int) -
      (p : Int))).1 / (Fp.scale num den ((bitLength num num : Int) -
      (bitLength den den : Int) - (p : Int))).2 ≥ 2 ^ p
  · rw [if_pos hc, zpow_add_one₀ h2.ne', ← div_div, div_lt_iff₀ h2]
    linarith
  · rw [if_neg hc]
    obtain ⟨hs2, hs⟩ := scale_spec num den hd
      ((bitLength num num : Int) - (bitLength den den : Int) - (p : Int))
    rw [← hs]
    have hlt : (Fp.scale num den ((bitLength num num : Int) - (bitLength den den : Int) -
        (p : Int))).1 < 2 ^ p * (Fp.scale num den ((bitLength num num : Int) -
        (bitLength den den : Int) - (p : Int))).2 := by
      rw [← Nat.div_lt_iff_lt_mul hs2]
      omega
    have hs2' : (0 : ℚ) < ((Fp.scale num den ((bitLength num num : Int) -
        (bitLength den den : Int) - (p : Int))).2 : ℚ) := by exact_mod_cast hs2
    rw [div_lt_iff₀ hs2']
    exact_mod_cast hlt

/-- The result of rounding a positive quotient to `p` digits has `p` digits. -/
theorem round_digits (p : Nat) (hp : 1 ≤ p) (neg : Bool) (num den : Nat) (hn : 0 < num)
    (hd : 0 < den) :
    2 ^ (p - 1) ≤ (Fp.round p neg num den).m ∧ (Fp.round p neg num den).m < 2 ^ p := by
  have hne : ¬ (num = 0 ∨ den = 0) := by omega
  have hlo := exponent_spec p hp num den hn hd
  have hup := exponent_upper p num den hn hd
  obtain ⟨hs2, hs⟩ := scale_spec num den hd (Fp.exponent p num den)
  rw [← hs] at hlo hup
  have hs2' : (0 : ℚ) < ((Fp.scale num den (Fp.exponent p num den)).2 : ℚ) := by
    exact_mod_cast hs2
  have hpow : 2 ^ (p - 1) < 2 ^ p := Nat.pow_lt_pow_right (by decide) (by omega)
  -- the quotient of the naturals lies in the same range
  have hdlo : 2 ^ (p - 1) ≤ (Fp.scale num den (Fp.exponent p num den)).1 /
      (Fp.scale num den (Fp.exponent p num den)).2 := by
    rw [Nat.le_div_iff_mul_le hs2]
    rw [le_div_iff₀ hs2'] at hlo
    exact_mod_cast hlo
  have hdup : (Fp.scale num den (Fp.exponent p num den)).1 /
      (Fp.scale num den (Fp.exponent p num den)).2 < 2 ^ p := by
    rw [Nat.div_lt_iff_lt_mul hs2]
    rw [div_lt_iff₀ hs2'] at hup
    exact_mod_cast hup
  have hnear : 2 ^ (p - 1) ≤ Fp.nearest (Fp.scale num den (Fp.exponent p num den)).1
        (Fp.scale num den (Fp.exponent p num den)).2 ∧
      Fp.nearest (Fp.scale num den (Fp.exponent p num den)).1
        (Fp.scale num den (Fp.exponent p num den)).2 ≤ 2 ^ p := by
    unfold Fp.nearest
    split_ifs <;> constructor <;> omega
  unfold Fp.round
  rw [if_neg hne]
  simp only
  by_cases hm : Fp.nearest (Fp.scale num den (Fp.exponent p num den)).1
      (Fp.scale num den (Fp.exponent p num den)).2 = 2 ^ p
  · rw [if_pos hm]
    exact ⟨le_refl _, hpow⟩
  · rw [if_neg hm]
    exact ⟨hnear.1, lt_of_le_of_ne hnear.2 hm⟩


theorem Fp.toRat_eq_mag (x : Fp) (h : x.neg = false) : x.toRat = x.mag := by
  unfold Fp.toRat Fp.mag
  rw [h]
  simp

theorem Fp.mag_pos_iff (x : Fp) : 0 < x.mag ↔ 0 < x.m := by
  unfold Fp.mag
  have h2 : (0 : ℚ) < (2 : ℚ) ^ x.e := by positivity
  constructor
  · intro h
    by_contra hc
    have : x.m = 0 := by omega
    rw [this] at h
    simp at h
  · intro h
    have : (0 : ℚ) < (x.m : ℚ) := by exact_mod_cast h
    positivity

theorem Fp.frac_spec (x : Fp) :
    0 < x.frac.2 ∧ (x.frac.1 : ℚ) / (x.frac.2 : ℚ) = x.mag := by
  obtain ⟨h1, h2⟩ := scale_spec x.m 1 (by decide) (-x.e)
  refine ⟨h1, ?_⟩
  unfold Fp.frac Fp.mag
  rw [h2, zpow_neg]
  simp

theorem Fp.frac_pos (x : Fp) (h : 0 < x.m) : 0 < x.frac.1 := by
  obtain ⟨h1, h2⟩ := x.frac_spec
  have hm := (x.mag_pos_iff).2 h
  rw [← h2] at hm
  by_contra hc
  have : x.frac.1 = 0 := by omega
  rw [this] at hm
  simp at hm

/-- The result of rounding a positive quotient, in the form used below: the
sign, the relative error and that the result is not 0. -/
theorem round_rel (p : Nat) (hp : 1 ≤ p) (neg : Bool) (num den : Nat) (hn : 0 < num)
    (hd : 0 < den) :
    (Fp.round p neg num den).neg = neg ∧
    (1 - 1 / (2 : ℚ) ^ p) * ((num : ℚ) / (den : ℚ)) ≤ (Fp.round p neg num den).mag ∧
    (Fp.round p neg num den).mag ≤ (1 + 1 / (2 : ℚ) ^ p) * ((num : ℚ) / (den : ℚ)) ∧
    0 < (Fp.round p neg num den).m := by
  obtain ⟨h1, h2⟩ := round_spec p hp neg num den hn hd
  have hq : (0 : ℚ) < (num : ℚ) / (den : ℚ) := by
    have hn' : (0 : ℚ) < (num : ℚ) := by exact_mod_cast hn
    have hd' : (0 : ℚ) < (den : ℚ) := by exact_mod_cast hd
    positivity
  have hpp : (2 : ℚ) ≤ (2 : ℚ) ^ p := by
    calc (2 : ℚ) = (2 : ℚ) ^ 1 := by norm_num
      _ ≤ (2 : ℚ) ^ p := pow_le_pow_right₀ (by norm_num) hp
  have hpos : (0 : ℚ) < (2 : ℚ) ^ p := by positivity
  rw [abs_le] at h2
  have e1 : (num : ℚ) / (den : ℚ) / (2 : ℚ) ^ p = 1 / (2 : ℚ) ^ p * ((num : ℚ) / (den : ℚ)) := by
    rw [div_eq_mul_inv, one_div, mul_comm]
  rw [e1] at h2
  have hlow : (1 - 1 / (2 : ℚ) ^ p) * ((num : ℚ) / (den : ℚ)) ≤ (Fp.round p neg num den).mag := by
    unfold Fp.mag
    linarith [h2.1]
  have hsmall : 1 / (2 : ℚ) ^ p ≤ 1 / 2 := by
    rw [div_le_div_iff₀ hpos (by norm_num)]
    linarith
  refine ⟨h1, hlow, ?_, ?_⟩
  · unfold Fp.mag
    linarith [h2.2]
  · rw [← Fp.mag_pos_iff]
    have : (0 : ℚ) < (1 - 1 / (2 : ℚ) ^ p) * ((num : ℚ) / (den : ℚ)) := by
      apply mul_pos _ hq
      linarith
    linarith

theorem static_cast_float_rel (n : Int) (hn : 0 < n) :
    (static_cast_float n).neg = false ∧
    (1 - 1 / (2 : ℚ) ^ 24) * (n : ℚ) ≤ (static_cast_float n).mag ∧
    (static_cast_float n).mag ≤ (1 + 1 / (2 : ℚ) ^ 24) * (n : ℚ) ∧
    0 < (static_cast_float n).m := by
  have hnat : 0 < n.natAbs := by omega
  obtain ⟨h1, h2, h3, h4⟩ := round_rel 24 (by decide) (decide (n < 0)) n.natAbs 1 hnat (by decide)
  have hcast : ((n.natAbs : Nat) : ℚ) / ((1 : Nat) : ℚ) = (n : ℚ) := by
    have h0 : ((n.natAbs : Nat) : Int) = n := by omega
    have h' : ((n.natAbs : Nat) : ℚ) = (n : ℚ) := by
      calc ((n.natAbs : Nat) : ℚ) = (((n.natAbs : Nat) : Int) : ℚ) := (Int.cast_natCast _).symm
        _ = (n : ℚ) := by rw [h0]
    rw [h']
    simp
  rw [hcast] at h2 h3
  have hneg : decide (n < 0) = false := by
    rw [decide_eq_false_iff_not]
    omega
  unfold static_cast_float
  refine ⟨by rw [h1, hneg], h2, h3, h4⟩

theorem Fp.div_rel (a b : Fp) (ha : 0 < a.m) (hb : 0 < b.m) :
    (Fp.div a b).neg = (a.neg != b.neg) ∧
    (1 - 1 / (2 : ℚ) ^ 53) * (a.mag / b.mag) ≤ (Fp.div a b).mag ∧
    (Fp.div a b).mag ≤ (1 + 1 / (2 : ℚ) ^ 53) * (a.mag / b.mag) ∧
    0 < (Fp.div a b).m := by
  obtain ⟨ha2, haq⟩ := a.frac_spec
  obtain ⟨hb2, hbq⟩ := b.frac_spec
  have ha1 := a.frac_pos ha
  have hb1 := b.frac_pos hb
  obtain ⟨h1, h2, h3, h4⟩ := round_rel 53 (by decide) (a.neg != b.neg)
    (a.frac.1 * b.frac.2) (a.frac.2 * b.frac.1) (Nat.mul_pos ha1 hb2) (Nat.mul_pos ha2 hb1)
  have hq : ((a.frac.1 * b.frac.2 : Nat) : ℚ) / ((a.frac.2 * b.frac.1 : Nat) : ℚ) =
      a.mag / b.mag := by
    rw [← haq, ← hbq]
    have e1 : (a.frac.2 : ℚ) ≠ 0 := by exact_mod_cast ha2.ne'
    have e2 : (b.frac.2 : ℚ) ≠ 0 := by exact_mod_cast hb2.ne'
    have e3 : (b.frac.1 : ℚ) ≠ 0 := by exact_mod_cast hb1.ne'
    push_cast
    field_simp
  rw [hq] at h2 h3
  unfold Fp.div
  exact ⟨h1, h2, h3, h4⟩

theorem Fp.toFloat_rel (x : Fp) (hx : 0 < x.m) :
    (Fp.toFloat x).neg = x.neg ∧
    (1 - 1 / (2 : ℚ) ^ 24) * x.mag ≤ (Fp.toFloat x).mag ∧
    (Fp.toFloat x).mag ≤ (1 + 1 / (2 : ℚ) ^ 24) * x.mag ∧
    0 < (Fp.toFloat x).m := by
  obtain ⟨hx2, hxq⟩ := x.frac_spec
  obtain ⟨h1, h2, h3, h4⟩ := round_rel 24 (by decide) x.neg x.frac.1 x.frac.2 (x.frac_pos hx) hx2
  rw [hxq] at h2 h3
  unfold Fp.toFloat
  exact ⟨h1, h2, h3, h4⟩


/-- Five roundings in a row, upper side: the bounds of the single steps
multiplied out. -/
theorem chain_upper (u v a b d1 d2 f c i : ℚ) (_hu : 0 ≤ u) (hu1 : u ≤ 1) (hv : 0 ≤ v)
    (hv1 : v ≤ 1) (hf : 0 ≤ f) (hd1 : 0 ≤ d1)
    (U1 : a ≤ (1 + u) * c) (L2 : (1 - u) * i ≤ b) (L3 : (1 - v) * (b / 1000) ≤ d1)
    (U4 : d2 ≤ (1 + v) * (a / d1)) (hd1' : 0 < d1) (U5 : f ≤ (1 + u) * d2) :
    f * i * ((1 - u) * (1 - v)) ≤ (1 + u) ^ 2 * (1 + v) * (1000 * c) := by
  have h1u : 0 ≤ 1 - u := by linarith
  have h1v : 0 ≤ 1 - v := by linarith
  have L3' : (1 - v) * b ≤ d1 * 1000 := by
    have := mul_le_mul_of_nonneg_right L3 (by norm_num : (0 : ℚ) ≤ 1000)
    calc (1 - v) * b = (1 - v) * (b / 1000) * 1000 := by ring
      _ ≤ d1 * 1000 := this
  have U4' : d2 * d1 ≤ (1 + v) * a := by
    have := mul_le_mul_of_nonneg_right U4 hd1
    calc d2 * d1 ≤ (1 + v) * (a / d1) * d1 := this
      _ = (1 + v) * a := by field_simp
  calc f * i * ((1 - u) * (1 - v)) = f * (1 - v) * ((1 - u) * i) := by ring
    _ ≤ f * (1 - v) * b := mul_le_mul_of_nonneg_left L2 (mul_nonneg hf h1v)
    _ = f * ((1 - v) * b) := by ring
    _ ≤ f * (d1 * 1000) := mul_le_mul_of_nonneg_left L3' hf
    _ = f * (d1 * 1000) := rfl
    _ ≤ ((1 + u) * d2) * (d1 * 1000) := mul_le_mul_of_nonneg_right U5 (by positivity)
    _ = (1 + u) * 1000 * (d2 * d1) := by ring
    _ ≤ (1 + u) * 1000 * ((1 + v) * a) := mul_le_mul_of_nonneg_left U4' (by positivity)
    _ = (1 + u) * 1000 * (1 + v) * a := by ring
    _ ≤ (1 + u) * 1000 * (1 + v) * ((1 + u) * c) := mul_le_mul_of_nonneg_left U1 (by positivity)
    _ = (1 + u) ^ 2 * (1 + v) * (1000 * c) := by ring

/-- Five roundings in a row, lower side. -/
theorem chain_lower (u v a b d1 d2 f c i : ℚ) (_hu : 0 ≤ u) (hu1 : u ≤ 1) (hv : 0 ≤ v)
    (hv1 : v ≤ 1) (hf : 0 ≤ f) (hd1 : 0 < d1)
    (L1 : (1 - u) * c ≤ a) (U2 : b ≤ (1 + u) * i) (U3 : d1 ≤ (1 + v) * (b / 1000))
    (L4 : (1 - v) * (a / d1) ≤ d2) (L5 : (1 - u) * d2 ≤ f) :
    (1 - u) ^ 2 * (1 - v) * (1000 * c) ≤ f * i * ((1 + u) * (1 + v)) := by
  have h1u : 0 ≤ 1 - u := by linarith
  have h1v : 0 ≤ 1 - v := by linarith
  have U3' : d1 * 1000 ≤ (1 + v) * b := by
    have := mul_le_mul_of_nonneg_right U3 (by norm_num : (0 : ℚ) ≤ 1000)
    calc d1 * 1000 ≤ (1 + v) * (b / 1000) * 1000 := this
      _ = (1 + v) * b := by ring
  have L4' : (1 - v) * a ≤ d2 * d1 := by
    have := mul_le_mul_of_nonneg_right L4 hd1.le
    calc (1 - v) * a = (1 - v) * (a / d1) * d1 := by field_simp
      _ ≤ d2 * d1 := this
  calc (1 - u) ^ 2 * (1 - v) * (1000 * c) = (1 - u) * (1 - v) * 1000 * ((1 - u) * c) := by ring
    _ ≤ (1 - u) * (1 - v) * 1000 * a := mul_le_mul_of_nonneg_left L1 (by positivity)
    _ = (1 - u) * 1000 * ((1 - v) * a) := by ring
    _ ≤ (1 - u) * 1000 * (d2 * d1) := mul_le_mul_of_nonneg_left L4' (by positivity)
    _ = ((1 - u) * d2) * (d1 * 1000) := by ring
    _ ≤ f * (d1 * 1000) := mul_le_mul_of_nonneg_right L5 (by positivity)
    _ ≤ f * ((1 + v) * b) := mul_le_mul_of_nonneg_left U3' hf
    _ = f * (1 + v) * b := by ring
    _ ≤ f * (1 + v) * ((1 + u) * i) := mul_le_mul_of_nonneg_left U2 (by positivity)
    _ = f * i * ((1 + u) * (1 + v)) := by ring

theorem upper_of (f i X K1 K2 w : ℚ) (hK1 : 0 < K1) (hX : 0 ≤ X) (h : f * i * K1 ≤ K2 * X)
    (hK : K2 ≤ (1 + w) * K1) : f * i ≤ (1 + w) * X := by
  have h1 : f * i * K1 ≤ (1 + w) * X * K1 := by
    calc f * i * K1 ≤ K2 * X := h
      _ ≤ (1 + w) * K1 * X := mul_le_mul_of_nonneg_right hK hX
      _ = (1 + w) * X * K1 := by ring
  exact le_of_mul_le_mul_right h1 hK1

theorem lower_of (f i X K3 K4 w : ℚ) (hK4 : 0 < K4) (hX : 0 ≤ X) (h : K3 * X ≤ f * i * K4)
    (hK : (1 - w) * K4 ≤ K3) : (1 - w) * X ≤ f * i := by
  have h1 : (1 - w) * X * K4 ≤ f * i * K4 := by
    calc (1 - w) * X * K4 = (1 - w) * K4 * X := by ring
      _ ≤ K3 * X := mul_le_mul_of_nonneg_right hK hX
      _ ≤ f * i * K4 := h
  exact le_of_mul_le_mul_right h1 hK4

theorem Fp.thousand_mag : Fp.thousand.mag = 1000 := by
  unfold Fp.mag Fp.thousand
  norm_num

/-- The fps value `Update` stores is the quotient `frame_count * 1000 /
interval` up to a relative error of `2 ^ -22`. -/
theorem fps_rel (c i : Int) (hc : 0 < c) (hi : 0 < i) :
    (DnnNodeRunTimeFpsStat.fps c i).neg = false ∧
    |(DnnNodeRunTimeFpsStat.fps c i).toRat - (c : ℚ) * 1000 / (i : ℚ)| ≤
      (c : ℚ) * 1000 / (i : ℚ) / (2 : ℚ) ^ 22 := by
  have hc' : (0 : ℚ) < (c : ℚ) := by exact_mod_cast hc
  have hi' : (0 : ℚ) < (i : ℚ) := by exact_mod_cast hi
  obtain ⟨an, aL, aU, am⟩ := static_cast_float_rel c hc
  obtain ⟨bn, bL, bU, bm⟩ := static_cast_float_rel i hi
  have tm : 0 < Fp.thousand.m := by decide
  obtain ⟨d1n, d1L, d1U, d1m⟩ := Fp.div_rel (static_cast_float i) Fp.thousand bm tm
  obtain ⟨d2n, d2L, d2U, d2m⟩ := Fp.div_rel (static_cast_float c)
    (Fp.div (static_cast_float i) Fp.thousand) am d1m
  obtain ⟨fn, fL, fU, fm⟩ := Fp.toFloat_rel
    (Fp.div (static_cast_float c) (Fp.div (static_cast_float i) Fp.thousand)) d2m
  rw [Fp.thousand_mag] at d1L d1U
  have hneg : (DnnNodeRunTimeFpsStat.fps c i).neg = false := by
    unfold DnnNodeRunTimeFpsStat.fps
    rw [fn, d2n, d1n, an, bn]
    rfl
  refine ⟨hneg, ?_⟩
  rw [Fp.toRat_eq_mag _ hneg]
  have hd1pos := (Fp.mag_pos_iff _).2 d1m
  have hfpos := (Fp.mag_pos_iff _).2 fm
  have hup := chain_upper (1 / (2 : ℚ) ^ 24) (1 / (2 : ℚ) ^ 53) _ _ _ _ _ (c : ℚ) (i : ℚ)
    (by norm_num) (by norm_num) (by norm_num) (by norm_num) hfpos.le hd1pos.le aU bL d1L d2U
    hd1pos fU
  have hlo := chain_lower (1 / (2 : ℚ) ^ 24) (1 / (2 : ℚ) ^ 53) _ _ _ _ _ (c : ℚ) (i : ℚ)
    (by norm_num) (by norm_num) (by norm_num) (by norm_num) hfpos.le hd1pos aL bU d1U d2L fL
  have hdef : (DnnNodeRunTimeFpsStat.fps c i).mag =
      (Fp.toFloat (Fp.div (static_cast_float c)
        (Fp.div (static_cast_float i) Fp.thousand))).mag := rfl
  rw [hdef]
  generalize (Fp.toFloat (Fp.div (static_cast_float c)
    (Fp.div (static_cast_float i) Fp.thousand))).mag = f at hup hlo hfpos ⊢
  have hX : (0 : ℚ) ≤ 1000 * (c : ℚ) := by positivity
  have hfu : f * (i : ℚ) ≤ (1 + 1 / (2 : ℚ) ^ 22) * (1000 * (c : ℚ)) :=
    upper_of f (i : ℚ) (1000 * (c : ℚ)) _ _ (1 / (2 : ℚ) ^ 22) (by norm_num) hX hup
      (by norm_num)
  have hfl : (1 - 1 / (2 : ℚ) ^ 22) * (1000 * (c : ℚ)) ≤ f * (i : ℚ) :=
    lower_of f (i : ℚ) (1000 * (c : ℚ)) _ _ (1 / (2 : ℚ) ^ 22) (by norm_num) hX hlo
      (by norm_num)
  have ht : (c : ℚ) * 1000 / (i : ℚ) * (i : ℚ) = 1000 * (c : ℚ) := by
    rw [div_mul_cancel₀ _ hi'.ne']
    ring
  have hfu' : f ≤ (1 + 1 / (2 : ℚ) ^ 22) * ((c : ℚ) * 1000 / (i : ℚ)) := by
    apply le_of_mul_le_mul_right _ hi'
    rw [mul_assoc, ht]
    exact hfu
  have hfl' : (1 - 1 / (2 : ℚ) ^ 22) * ((c : ℚ) * 1000 / (i : ℚ)) ≤ f := by
    apply le_of_mul_le_mul_right _ hi'
    rw [mul_assoc, ht]
    exact hfl
  rw [abs_le]
  constructor <;> linarith

/-! ## The fps value of `Update` -/

/-- `Update` with one clock reading, spelled out. -/
theorem Update_single (self : DnnNodeRunTimeFpsStat) (now : Int) :
    DnnNodeRunTimeFpsStat.Update (FpsClock.single now) self =
      if self.elapsed_ms now ≥ 1000 then
        (true, { last_frame_tp := some now, frame_count := 0,
                 frame_fps := DnnNodeRunTimeFpsStat.fps (self.frame_count + 1)
                   (self.elapsed_ms now) })
      else
        (false, { last_frame_tp := some (self.windowStart now),
                  frame_count := self.frame_count + 1, frame_fps := self.frame_fps }) := by
  unfold DnnNodeRunTimeFpsStat.Update DnnNodeRunTimeFpsStat.elapsed_ms
    DnnNodeRunTimeFpsStat.windowStart FpsClock.single
  cases self.last_frame_tp <;> rfl

/-- The fps value for 2 frames in 3000 ms: the `float` next to 2/3. -/
theorem fps_two_thirds :
    DnnNodeRunTimeFpsStat.fps 2 3000 = { neg := false, m := 11184811, e := -24 } := by
  have h1 : Fp.div (static_cast_float 3000) Fp.thousand =
      { neg := false, m := 6755399441055744, e := -51 } := by decide
  have h2 : Fp.div (static_cast_float 2) { neg := false, m := 6755399441055744, e := -51 } =
      { neg := false, m := 6004799503160661, e := -53 } := by decide
  have h3 : Fp.toFloat { neg := false, m := 6004799503160661, e := -53 } =
      { neg := false, m := 11184811, e := -24 } := by decide
  unfold DnnNodeRunTimeFpsStat.fps
  rw [h1, h2, h3]

/-- The conversion to `float` at the first integers it cannot hold: 2^24 + 1
lies half way between two floats and goes to the even one, 2^24, and 2^24 + 3
goes up to 2^24 + 4. -/
theorem static_cast_float_ties :
    static_cast_float 16777217 = { neg := false, m := 8388608, e := 1 } ∧
    static_cast_float 16777219 = { neg := false, m := 8388610, e := 1 } ∧
    static_cast_float (-3) = { neg := true, m := 12582912, e := -22 } := by
  decide

/-- C22 fails as stated: with one frame counted in a window that started at
time 0, the call at 3000 ms counts the second frame and returns true, and the
fps value it stores is the `float` 11184811 / 2^24 = 0.666666686..., not
count * 1000 / elapsed_ms = 2 * 1000 / 3000. -/
theorem C22_counterexample :
    oneFrameCounted.elapsed_ms 3000000000 = 3000 ∧
    (DnnNodeRunTimeFpsStat.Update (FpsClock.single 3000000000) oneFrameCounted).1 = true ∧
    (DnnNodeRunTimeFpsStat.Update (FpsClock.single 3000000000) oneFrameCounted).2.Get =
      { neg := false, m := 11184811, e := -24 } ∧
    (DnnNodeRunTimeFpsStat.Update (FpsClock.single 3000000000) oneFrameCounted).2.Get.toRat ≠
      ((oneFrameCounted.frame_count + 1 : Int) : ℚ) * 1000 /
        ((oneFrameCounted.elapsed_ms 3000000000 : Int) : ℚ) := by
  have he : oneFrameCounted.elapsed_ms 3000000000 = 3000 := by decide
  have hu : DnnNodeRunTimeFpsStat.Update (FpsClock.single 3000000000) oneFrameCounted =
      (true, { last_frame_tp := some 3000000000, frame_count := 0,
               frame_fps := { neg := false, m := 11184811, e := -24 } }) := by
    rw [Update_single, he, if_pos (by decide)]
    rw [show oneFrameCounted.frame_count + 1 = 2 from by decide, fps_two_thirds]
  refine ⟨he, by rw [hu], by rw [hu]; rfl, ?_⟩
  rw [hu, he]
  have hc : oneFrameCounted.frame_count + 1 = 2 := by decide
  rw [hc]
  norm_num [DnnNodeRunTimeFpsStat.Get, Fp.toRat]

/-- C22 as amended: `Update`, called with the clock reading `now`, counts the
frame and returns true exactly when at least 1000 ms have gone by since the
start of the current window; then the fps value is the `float`
`static_cast<float>(count) / (static_cast<float>(elapsed_ms) / 1000.0)` (count
with this frame, divisions in `double`), which is positive and differs from
count * 1000 / elapsed_ms by at most the fraction 2^-22 of it, the count is 0
and the window starts at `now`.  Otherwise it returns false, the fps value and
the start of the window are as before and the count is one more.  The first call
starts the window at `now` and returns false. -/
theorem C22_fps_window (self : DnnNodeRunTimeFpsStat) (now : Int) :
    ((DnnNodeRunTimeFpsStat.Update (FpsClock.single now) self).1 = true ↔
      1000 ≤ self.elapsed_ms now) ∧
    (1000 ≤ self.elapsed_ms now ↔ 1000 * 1000000 ≤ now - self.windowStart now) ∧
    (1000 ≤ self.elapsed_ms now →
      (DnnNodeRunTimeFpsStat.Update (FpsClock.single now) self).2 =
        { last_frame_tp := some now, frame_count := 0,
          frame_fps := DnnNodeRunTimeFpsStat.fps (self.frame_count + 1)
            (self.elapsed_ms now) } ∧
      (DnnNodeRunTimeFpsStat.Update (FpsClock.single now) self).2.Get =
        Fp.toFloat (Fp.div (static_cast_float (self.frame_count + 1))
          (Fp.div (static_cast_float (self.elapsed_ms now)) Fp.thousand)) ∧
      (0 ≤ self.frame_count →
        (DnnNodeRunTimeFpsStat.Update (FpsClock.single now) self).2.Get.neg = false ∧
        |(DnnNodeRunTimeFpsStat.Update (FpsClock.single now) self).2.Get.toRat -
            ((self.frame_count + 1 : Int) : ℚ) * 1000 / (self.elapsed_ms now : ℚ)| ≤
          ((self.frame_count + 1 : Int) : ℚ) * 1000 / (self.elapsed_ms now : ℚ) /
            (2 : ℚ) ^ 22)) ∧
    (self.elapsed_ms now < 1000 →
      (DnnNodeRunTimeFpsStat.Update (FpsClock.single now) self).1 = false ∧
      (DnnNodeRunTimeFpsStat.Update (FpsClock.single now) self).2 =
        { last_frame_tp := some (self.windowStart now), frame_count := self.frame_count + 1,
          frame_fps := self.frame_fps }) ∧
    (∀ tp : Int, self.last_frame_tp = some tp → self.windowStart now = tp) ∧
    (self.last_frame_tp = none →
      (DnnNodeRunTimeFpsStat.Update (FpsClock.single now) self).1 = false ∧
      (DnnNodeRunTimeFpsStat.Update (FpsClock.single now) self).2 =
        { last_frame_tp := some now, frame_count := self.frame_count + 1,
          frame_fps := self.frame_fps }) := by
  have hfirst : self.last_frame_tp = none → self.elapsed_ms now = 0 ∧
      self.windowStart now = now := by
    intro h
    unfold DnnNodeRunTimeFpsStat.elapsed_ms DnnNodeRunTimeFpsStat.windowStart
    rw [h]
    simp
  refine ⟨?_, ?_, ?_, ?_, ?_, ?_⟩
  · rw [Update_single]
    by_cases h : self.elapsed_ms now ≥ 1000
    · rw [if_pos h]
      simp only [true_iff]
      exact h
    · rw [if_neg h]
      simp only [Bool.false_eq_true, false_iff]
      exact h
  · unfold DnnNodeRunTimeFpsStat.elapsed_ms
    rw [tdiv_ms_ge_iff]
    norm_num
  · intro h
    rw [Update_single, if_pos h]
    refine ⟨rfl, rfl, ?_⟩
    intro h0
    exact fps_rel (self.frame_count + 1) (self.elapsed_ms now) (by omega) (by omega)
  · intro h
    have h' : ¬ self.elapsed_ms now ≥ 1000 := by omega
    rw [Update_single, if_neg h']
    exact ⟨rfl, rfl⟩
  · intro tp h
    unfold DnnNodeRunTimeFpsStat.windowStart
    rw [h]
    rfl
  · intro h
    obtain ⟨h0, hs⟩ := hfirst h
    have h' : ¬ self.elapsed_ms now ≥ 1000 := by omega
    rw [Update_single, if_neg h', hs]
    exact ⟨rfl, rfl⟩

/-! ## The inputs in flight of `InputProducerPlugin` -/

theorem pass_some (self s : InputProducerPlugin)
    (h : InputProducerPlugin.Run.pass self = some s) :
    InputProducerPlugin.Run.ready self ∧
      s = { self with produced_count_ := self.produced_count_ + 1 } := by
  unfold InputProducerPlugin.Run.pass at h
  by_cases hr : InputProducerPlugin.Run.ready self
  · rw [if_pos hr] at h
    exact ⟨hr, (Option.some.inj h).symm⟩
  · rw [if_neg hr] at h
    cases h

theorem exec_inFlight (self : InputProducerPlugin) (step : PluginStep)
    (h : self.inFlight ≤ self.limit_) :
    (step.exec self).inFlight ≤ (step.exec self).limit_ ∧
      (step.exec self).limit_ = self.limit_ := by
  cases step with
  | pass =>
    simp only [PluginStep.exec]
    rcases hp : InputProducerPlugin.Run.pass self with _ | s
    · exact ⟨h, rfl⟩
    · obtain ⟨hr, hs⟩ := pass_some self s hp
      unfold InputProducerPlugin.Run.ready at hr
      rw [hs]
      simp only [Option.getD_some, InputProducerPlugin.inFlight] at h ⊢
      exact ⟨by omega, trivial⟩
  | release =>
    simp only [PluginStep.exec, InputProducerPlugin.Release, InputProducerPlugin.inFlight] at h ⊢
    exact ⟨by omega, trivial⟩

theorem after_inFlight (steps : List PluginStep) :
    ∀ self : InputProducerPlugin, self.inFlight ≤ self.limit_ →
      (self.after steps).inFlight ≤ (self.after steps).limit_ ∧
        (self.after steps).limit_ = self.limit_ := by
  induction steps with
  | nil => intro self h; exact ⟨h, rfl⟩
  | cons step rest ih =>
    intro self h
    obtain ⟨h1, h2⟩ := exec_inFlight self step h
    obtain ⟨h3, h4⟩ := ih (step.exec self) h1
    exact ⟨h3, h4.trans h2⟩

/-- C23: from a state of `InputProducerPlugin` in which the inputs in flight,
`produced_count_ - released_count_`, are at most `limit_`, they are at most
`limit_` after every sequence of passes of the loop of `Run` and calls of
`Release`, and `limit_` is as it was.  A pass increments `produced_count_`, by
one, only in a state where `produced_count_ - released_count_ < limit_`, and
writes nothing else; `Release` increments `released_count_` by one, writes
nothing else and returns 0. -/
theorem C23_in_flight_bounded (self : InputProducerPlugin) (steps : List PluginStep)
    (h : self.produced_count_ - self.released_count_ ≤ self.limit_) :
    ((self.after steps).produced_count_ - (self.after steps).released_count_ ≤
      (self.after steps).limit_ ∧ (self.after steps).limit_ = self.limit_) ∧
    (∀ s s' : InputProducerPlugin, InputProducerPlugin.Run.pass s = some s' →
      s.produced_count_ - s.released_count_ < s.limit_ ∧
      s' = { s with produced_count_ := s.produced_count_ + 1 }) ∧
    (∀ s : InputProducerPlugin,
      ¬ (s.produced_count_ - s.released_count_ < s.limit_) →
      InputProducerPlugin.Run.pass s = none) ∧
    (∀ s : InputProducerPlugin,
      InputProducerPlugin.Release s =
        (0, { s with released_count_ := s.released_count_ + 1 })) :=
  ⟨after_inFlight steps self h, fun s s' hp => pass_some s s' hp,
   fun s hs => by
    unfold InputProducerPlugin.Run.pass
    rw [if_neg (show ¬ InputProducerPlugin.Run.ready s from hs)],
   fun _ => rfl⟩

/-- C23 at a concrete input: a plugin with a limit of two, three passes (the
third one waits), a release and another pass. -/
theorem C23_in_flight_bounded_witness :
    (pluginOfTwo.after [PluginStep.pass, PluginStep.pass, PluginStep.pass, PluginStep.release,
        PluginStep.pass]).produced_count_ -
      (pluginOfTwo.after [PluginStep.pass, PluginStep.pass, PluginStep.pass, PluginStep.release,
        PluginStep.pass]).released_count_ ≤
      (pluginOfTwo.after [PluginStep.pass, PluginStep.pass, PluginStep.pass, PluginStep.release,
        PluginStep.pass]).limit_ ∧
    (pluginOfTwo.after [PluginStep.pass, PluginStep.pass, PluginStep.pass, PluginStep.release,
        PluginStep.pass]).limit_ = pluginOfTwo.limit_ :=
  (C23_in_flight_bounded pluginOfTwo
    [PluginStep.pass, PluginStep.pass, PluginStep.pass, PluginStep.release, PluginStep.pass]
    (by decide)).1

/-! ## `ALIGNED_2E` rounds up to the next multiple -/

/-- Clearing the low `k` bits of a 32-bit value. -/
theorem land_mask (k : Nat) (hk : k ≤ 32) (x : Nat) (hx : x < 2 ^ 32) :
    x &&& (2 ^ 32 - 1 - (2 ^ k - 1)) = x / 2 ^ k * 2 ^ k := by
  have hpos : 0 < 2 ^ k := Nat.two_pow_pos k
  have hlt : 2 ^ k - 1 < 2 ^ 32 := by
    have : 2 ^ k ≤ 2 ^ 32 := Nat.pow_le_pow_right (by decide) hk
    omega
  have hm : 2 ^ 32 - 1 - (2 ^ k - 1) = 2 ^ 32 - ((2 ^ k - 1) + 1) := by omega
  rw [hm, ← Nat.shiftRight_eq_div_pow, ← Nat.shiftLeft_eq]
  apply Nat.eq_of_testBit_eq
  intro i
  rw [Nat.testBit_and, Nat.testBit_two_pow_sub_succ hlt, Nat.testBit_two_pow_sub_one,
    Nat.testBit_shiftLeft, Nat.testBit_shiftRight]
  by_cases h1 : i < k
  · have h2 : ¬ i ≥ k := by omega
    simp [h1, h2]
  · have h2 : i ≥ k := by omega
    have h3 : k + (i - k) = i := by omega
    by_cases h4 : i < 32
    · simp [h1, h2, h3, h4]
    · have h5 : x.testBit i = false :=
        Nat.testBit_lt_two_pow (lt_of_lt_of_le hx (Nat.pow_le_pow_right (by decide) (by omega)))
      simp [h1, h2, h3, h4, h5]

/-- `ALIGNED_2E` for the alignment `2^k` in arithmetic terms. -/
theorem ALIGNED_2E_pow (k : Nat) (hk : k ≤ 31) (w : Nat) :
    ALIGNED_2E w (2 ^ k) = (w % 2 ^ 32 + (2 ^ k - 1)) % 2 ^ 32 / 2 ^ k * 2 ^ k := by
  have hpos : 0 < 2 ^ k := Nat.two_pow_pos k
  have hlt : 2 ^ k < 2 ^ 32 := Nat.pow_lt_pow_right (by decide) (by omega)
  have hmask : (2 ^ k + 2 ^ 32 - 1) % 2 ^ 32 = 2 ^ k - 1 := by
    have h1 : 2 ^ k + 2 ^ 32 - 1 = (2 ^ k - 1) + 2 ^ 32 := by omega
    rw [h1, Nat.add_mod_right, Nat.mod_eq_of_lt (by omega)]
  unfold ALIGNED_2E
  rw [hmask]
  exact land_mask k (by omega) _ (Nat.mod_lt _ (Nat.two_pow_pos 32))

theorem ALIGNED_2E_4 (w : Nat) :
    ALIGNED_2E w 4 = (w + 3) % 4294967296 / 4 * 4 := by
  have h := ALIGNED_2E_pow 2 (by decide) w
  norm_num at h
  exact h

theorem ALIGNED_2E_8 (w : Nat) :
    ALIGNED_2E w 8 = (w + 7) % 4294967296 / 8 * 8 := by
  have h := ALIGNED_2E_pow 3 (by decide) w
  norm_num at h
  exact h

theorem ALIGNED_2E_16 (w : Nat) :
    ALIGNED_2E w 16 = (w + 15) % 4294967296 / 16 * 16 := by
  have h := ALIGNED_2E_pow 4 (by decide) w
  norm_num at h
  exact h

theorem ALIGNED_2E_64 (w : Nat) :
    ALIGNED_2E w 64 = (w + 63) % 4294967296 / 64 * 64 := by
  have h := ALIGNED_2E_pow 6 (by decide) w
  norm_num at h
  exact h

/-- C24: for an alignment `a` of 4, 8, 16 or 64 and a 32-bit unsigned `w` with
`w ≤ 2^32 - a`, `ALIGNED_2E(w, a)` is the smallest multiple of `a` that is at
least `w`: a multiple of `a`, at least `w`, at most every such multiple, hence at
most `w + a - 1`, and a value it maps to itself.  For a larger `w` the sum wraps
and the result is 0. -/
theorem C24_ALIGNED_2E_rounds_up (w a : Nat) (ha : a = 4 ∨ a = 8 ∨ a = 16 ∨ a = 64)
    (hw : w < 2 ^ 32) :
    (w ≤ 2 ^ 32 - a →
      a ∣ ALIGNED_2E w a ∧ w ≤ ALIGNED_2E w a ∧
      (∀ m : Nat, a ∣ m → w ≤ m → ALIGNED_2E w a ≤ m) ∧
      ALIGNED_2E w a ≤ w + a - 1 ∧
      ALIGNED_2E (ALIGNED_2E w a) a = ALIGNED_2E w a) ∧
    (2 ^ 32 - a < w → ALIGNED_2E w a = 0) := by
  norm_num at hw ⊢
  rcases ha with ha | ha | ha | ha <;> subst ha
  · simp only [ALIGNED_2E_4]
    refine ⟨fun h => ⟨?_, ?_, ?_, ?_, ?_⟩, fun h => ?_⟩ <;> (try intro m hm1 hm2) <;> omega
  · simp only [ALIGNED_2E_8]
    refine ⟨fun h => ⟨?_, ?_, ?_, ?_, ?_⟩, fun h => ?_⟩ <;> (try intro m hm1 hm2) <;> omega
  · simp only [ALIGNED_2E_16]
    refine ⟨fun h => ⟨?_, ?_, ?_, ?_, ?_⟩, fun h => ?_⟩ <;> (try intro m hm1 hm2) <;> omega
  · simp only [ALIGNED_2E_64]
    refine ⟨fun h => ⟨?_, ?_, ?_, ?_, ?_⟩, fun h => ?_⟩ <;> (try intro m hm1 hm2) <;> omega

/-- C24 at concrete inputs: `ALIGN_16` maps 100 to 112, the multiple of 16
between 100 and 115, and the largest 32-bit value to 0. -/
theorem C24_ALIGNED_2E_rounds_up_witness :
    16 ∣ ALIGNED_2E 100 16 ∧ 100 ≤ ALIGNED_2E 100 16 ∧ ALIGNED_2E 100 16 ≤ 112 ∧
    ALIGNED_2E 4294967295 16 = 0 :=
  ⟨((C24_ALIGNED_2E_rounds_up 100 16 (by decide) (by decide)).1 (by decide)).1,
   ((C24_ALIGNED_2E_rounds_up 100 16 (by decide) (by decide)).1 (by decide)).2.1,
   ((C24_ALIGNED_2E_rounds_up 100 16 (by decide) (by decide)).1 (by decide)).2.2.1 112
     (by decide) (by decide),
   (C24_ALIGNED_2E_rounds_up 4294967295 16 (by decide) (by decide)).2 (by decide)⟩

end dnn_node
end hobot
